import Mathlib

/-! # ccHObject: the hierarchical scene-graph node of CloudCompare

A shallow embedding of `libs/qCC_db/ccHObject.cpp` and the properties proved about it.

* `SceneTree`: the node hierarchy seen as an owned tree, for the recursive traversals
  (`applyGLTransformation_recursive`, `getBB`).
* `Serialization`: the node's own data written to and read from a file
  (`toFile_MeOnly`, `fromFile_MeOnly`), and the node written with its children (`toFile`).
* `ObjectGraph`: the objects in a heap, with their parent, children and dependency
  map (`addDependency`, `removeDependencyFlag`, `addChild`, `detachChild`, `removeChild`,
  `transferChild`, `transferChildren`, the destructor).
* `Rendering`: the calls that `draw` makes for an entity and its children.

Integers (`int`) are unbounded; `assert` is compiled out (release build), and what the
C++ standard leaves undefined is the result `none`. An insertion into a children vector
may throw `std::bad_alloc`, as the heap tells.
-/

set_option autoImplicit false

namespace SceneTree

/-- A `ccHObject` together with the subtree it owns through `m_children`.

* `uniqueID`: identifies the node in traces;
* `m_enabled`: what `isEnabled()` returns;
* `m_currentDisplay`: the display the node is shown in (`none` is the null pointer);
* `m_glTransEnabled`, `m_glTrans`: the temporary GL transformation of `ccDrawableObject`;
* `myOwnBB`, `displayBB`: what a derived class's override of `getMyOwnBB` / `getDisplayBB`
  returns, `none` when the class does not override the method (a plain `ccHObject`
  overrides neither);
* `m_children`: the children, in order.

`Mat` stands for `ccGLMatrix` and `Box` for `ccBBox`, two classes declared elsewhere. -/
inductive ccHObject (Mat Box : Type) where
  | mk (uniqueID : Nat) (m_enabled : Bool) (m_currentDisplay : Option Nat)
      (m_glTransEnabled : Bool) (m_glTrans : Mat)
      (myOwnBB : Option Box) (displayBB : Option Box)
      (m_children : List (ccHObject Mat Box)) : ccHObject Mat Box

variable {Mat Box : Type}

/-- Field `uniqueID`. -/
def ccHObject.uniqueID : ccHObject Mat Box → Nat
  | .mk i _ _ _ _ _ _ _ => i

/-- What `isEnabled()` returns. -/
def ccHObject.isEnabled : ccHObject Mat Box → Bool
  | .mk _ e _ _ _ _ _ _ => e

/-- Field `m_currentDisplay`. -/
def ccHObject.m_currentDisplay : ccHObject Mat Box → Option Nat
  | .mk _ _ d _ _ _ _ _ => d

/-- Field `m_glTransEnabled`. -/
def ccHObject.m_glTransEnabled : ccHObject Mat Box → Bool
  | .mk _ _ _ g _ _ _ _ => g

/-- Field `m_glTrans`. -/
def ccHObject.m_glTrans : ccHObject Mat Box → Mat
  | .mk _ _ _ _ t _ _ _ => t

/-- Field `m_children`. -/
def ccHObject.m_children : ccHObject Mat Box → List (ccHObject Mat Box)
  | .mk _ _ _ _ _ _ _ cs => cs

/-! ## applyGLTransformation_recursive (lines 625-657)

`trans` is a pointer to a matrix that the callee may modify in place (`*trans *= m_glTrans`).
The embedding passes the pointed matrix in and out: the argument is `none` for a null
pointer and `some t` for a pointer to a matrix holding `t`; the second component of the
result is the matrix the caller's pointer designates once the call has returned.
The first component is the trace of the calls `applyGLTransformation(*trans)`, in order:
the node's `uniqueID` and the matrix it received. `notifyGeometryUpdate` and the final
`resetGLTransformation` do not touch `*trans` and are left out of the trace. -/

mutual
/-- The method `ccHObject::applyGLTransformation_recursive(ccGLMatrix* trans)`. -/
def applyGLTransformation_recursive [Mul Mat] :
    ccHObject Mat Box → Option Mat → List (Nat × Mat) × Option Mat
  | .mk uid _ _ glTransEnabled glTrans _ _ children, pTrans =>
    -- `pTrans` is the parameter `trans`
    -- if (m_glTransEnabled) { if (!trans) trans = _trans = new ccGLMatrix(m_glTrans);
    --                         else *trans *= m_glTrans; }
    let cur : Option Mat :=
      if glTransEnabled then
        match pTrans with
        | none => some glTrans
        | some t => some (t * glTrans)
      else pTrans
    -- if (trans) { applyGLTransformation(*trans); notifyGeometryUpdate(); }
    let applied : List (Nat × Mat) :=
      match cur with
      | some t => [(uid, t)]
      | none => []
    -- for (it ...) (*it)->applyGLTransformation_recursive(trans);
    let r := applyGLTransformation_children children cur
    -- if (_trans) delete _trans: the matrix allocated here is gone, the caller's pointer
    -- is still null; otherwise the caller sees what the callees left in `*trans`
    (applied ++ r.1, if glTransEnabled && pTrans.isNone then none else r.2)
/-- The loop of `applyGLTransformation_recursive` over `m_children`: every child receives
the same pointer, hence the matrix as the previous child left it. -/
def applyGLTransformation_children [Mul Mat] :
    List (ccHObject Mat Box) → Option Mat → List (Nat × Mat) × Option Mat
  | [], pTrans => ([], pTrans)
  | c :: cs, pTrans =>
    let r := applyGLTransformation_recursive c pTrans
    let rs := applyGLTransformation_children cs r.2
    (r.1 ++ rs.1, rs.2)
end

/-- The composition of a list of transformations, first one leftmost; `none` for no
transformation at all. -/
def composeTransformations [Mul Mat] : List Mat → Option Mat
  | [] => none
  | t :: ts => some (ts.foldl (· * ·) t)

mutual
/-- The applications the specification expects: every node of the subtree receives the
composition of the enabled GL transformations on its path (`path` holds those of the
ancestors, root first), and nothing when there is none. -/
def applyGLTransformation_spec [Mul Mat] : ccHObject Mat Box → List Mat → List (Nat × Mat)
  | .mk uid _ _ glTransEnabled glTrans _ _ children, path =>
    let path' := if glTransEnabled then path ++ [glTrans] else path
    (match composeTransformations path' with
      | some t => [(uid, t)]
      | none => []) ++ applyGLTransformation_spec_children children path'
/-- The expected applications for a list of siblings below the same path. -/
def applyGLTransformation_spec_children [Mul Mat] :
    List (ccHObject Mat Box) → List Mat → List (Nat × Mat)
  | [], _ => []
  | c :: cs, path =>
    applyGLTransformation_spec c path ++ applyGLTransformation_spec_children cs path
end

/-! ## getBB (lines 461-494)

`ccBBox` is declared elsewhere: its default constructor, `+=`, `*=` and `isValid` are
taken as parameters. -/

/-- The operations of `ccBBox` that `getBB` calls. -/
structure ccBBoxOps (Mat Box : Type) where
  /-- The box that the default constructor `ccBBox()` builds. -/
  empty : Box
  /-- The box `a` after `a += b`. -/
  add : Box → Box → Box
  /-- The box `a` after `a *= m`. -/
  mul : Box → Mat → Box
  /-- What `isValid()` returns. -/
  isValid : Box → Bool

/-- The virtual method `getMyOwnBB`: `ccHObject::getMyOwnBB` returns `ccBBox()`, a derived
class returns its own box. -/
def getMyOwnBB (ops : ccBBoxOps Mat Box) : ccHObject Mat Box → Box
  | .mk _ _ _ _ _ myOwnBB _ _ =>
    match myOwnBB with
    | some b => b
    | none => ops.empty

/-- The virtual method `getDisplayBB`: `ccHObject::getDisplayBB` returns `getMyOwnBB()`,
a derived class may return another box. -/
def getDisplayBB (ops : ccBBoxOps Mat Box) : ccHObject Mat Box → Box
  | .mk i e d g t myOwnBB displayBB cs =>
    match displayBB with
    | some b => b
    | none => getMyOwnBB ops (.mk i e d g t myOwnBB displayBB cs)

mutual
/-- The method `ccHObject::getBB(relative, withGLfeatures, display)`; `display = none` is
the null pointer. -/
def getBB (ops : ccBBoxOps Mat Box) :
    ccHObject Mat Box → Bool → Bool → Option Nat → Box
  | .mk i e cur glTransEnabled glTrans myOwnBB displayBB children,
      relative, withGLfeatures, display =>
    -- ccBBox box;
    let box0 : Box := ops.empty
    -- if (!display || m_currentDisplay == display)
    --     box = (withGLfeatures ? getDisplayBB() : getMyOwnBB());
    let box1 : Box :=
      if display.isNone || cur == display then
        (if withGLfeatures then
          getDisplayBB ops (.mk i e cur glTransEnabled glTrans myOwnBB displayBB children)
        else getMyOwnBB ops (.mk i e cur glTransEnabled glTrans myOwnBB displayBB children))
      else box0
    -- the loop over the children
    let box2 : Box := getBB_children ops children withGLfeatures display box1
    -- if (!display || m_currentDisplay == display)
    --     if (box.isValid() && !relative && m_glTransEnabled) box *= m_glTrans;
    if display.isNone || cur == display then
      (if ops.isValid box2 && !relative && glTransEnabled then ops.mul box2 glTrans else box2)
    else box2
/-- The loop of `getBB` over `m_children`:
`if ((*it)->isEnabled()) box += (*it)->getBB(false, withGLfeatures, display);`. -/
def getBB_children (ops : ccBBoxOps Mat Box) :
    List (ccHObject Mat Box) → Bool → Option Nat → Box → Box
  | [], _, _, box => box
  | c :: cs, withGLfeatures, display, box =>
    getBB_children ops cs withGLfeatures display
      (if c.isEnabled then ops.add box (getBB ops c false withGLfeatures display) else box)
end

/-- The box the specification gives for `getBB(relative, withGLfeatures, NULL)`: the node's
own box, united with `getBB(false, withGLfeatures, NULL)` of every enabled child, and
multiplied by the GL transformation exactly when the united box is valid, `relative` is
false and the GL transformation is enabled. -/
def getBB_spec (ops : ccBBoxOps Mat Box) (n : ccHObject Mat Box)
    (relative withGLfeatures : Bool) : Box :=
  let own := if withGLfeatures then getDisplayBB ops n else getMyOwnBB ops n
  let united :=
    ((n.m_children.filter (fun c => c.isEnabled)).map
      (fun c => getBB ops c false withGLfeatures none)).foldl ops.add own
  if ops.isValid united ∧ relative = false ∧ n.m_glTransEnabled = true then
    ops.mul united n.m_glTrans
  else united

/-- A node with its children replaced, everything else kept. -/
def ccHObject.withChildren : ccHObject Mat Box → List (ccHObject Mat Box) → ccHObject Mat Box
  | .mk i e d g t o b _, cs => .mk i e d g t o b cs

/-- A plain `ccHObject`: neither `getMyOwnBB` nor `getDisplayBB` is overridden. -/
def ccHObject.isPlain : ccHObject Mat Box → Bool
  | .mk _ _ _ _ _ myOwnBB displayBB _ => myOwnBB.isNone && displayBB.isNone

/-- Boxes on one axis with integer bounds, `none` being the invalid box: an instance of
the `ccBBox` operations, with a scale factor for matrix. -/
def intervalBoxes : ccBBoxOps ℤ (Option (ℤ × ℤ)) where
  empty := none
  add a b :=
    match a, b with
    | some (l, u), some (l', u') => some (min l l', max u u')
    | some x, none => some x
    | none, y => y
  mul a s :=
    match a with
    | some (l, u) => some (min (s * l) (s * u), max (s * l) (s * u))
    | none => none
  isValid a := a.isSome

/-- A group (plain node, scaled by 2) holding a disabled cloud of extent [5, 9] and an
enabled one of extent [1, 3]. -/
def groupExample : ccHObject ℤ (Option (ℤ × ℤ)) :=
  .mk 0 true none true 2 none none
    [.mk 1 false none false 1 (some (some (5, 9))) none [],
     .mk 2 true none false 1 (some (some (1, 3))) none []]

/-- A plain node whose only child is disabled. -/
def emptyGroupExample : ccHObject ℤ (Option (ℤ × ℤ)) :=
  .mk 0 true none true 2 none none
    [.mk 1 false none false 1 (some (some (5, 9))) none []]

/-- A 4x4 matrix with integer entries, standing for a `ccGLMatrix` whose entries are exact. -/
abbrev IntMatrix : Type := Matrix (Fin 4) (Fin 4) ℤ

/-- The uniform scaling of factor `s`, as a homogeneous 4x4 matrix. -/
def scaling (s : ℤ) : IntMatrix :=
  Matrix.of ![![s, 0, 0, 0], ![0, s, 0, 0], ![0, 0, s, 0], ![0, 0, 0, 1]]

/-- A plain node (no box override, enabled, no display). -/
def plainNode (uid : Nat) (glTransEnabled : Bool) (glTrans : IntMatrix)
    (children : List (ccHObject IntMatrix Unit)) : ccHObject IntMatrix Unit :=
  .mk uid true none glTransEnabled glTrans none none children

/-- A root scaled by 2 with two children: the first scaled by 3, the second with no
GL transformation enabled. -/
def siblingsExample : ccHObject IntMatrix Unit :=
  plainNode 0 true (scaling 2)
    [plainNode 1 true (scaling 3) [], plainNode 2 false (scaling 1) []]

/-- The same two children below a root whose GL transformation is disabled. -/
def siblingsBelowPlainRoot : ccHObject IntMatrix Unit :=
  plainNode 0 false (scaling 1)
    [plainNode 1 true (scaling 3) [], plainNode 2 false (scaling 1) []]

end SceneTree

/-! # Serialization of the node's own data (toFile_MeOnly / fromFile_MeOnly) -/

namespace Serialization

/-- One byte of a file. -/
abbrev Byte : Type := Fin 256

/-- A `QFile` as the methods below see it.

* `data`: for a file opened for writing, the bytes written so far; for a file opened
  for reading, the bytes from the current position to the end;
* `faults`: the outcome of the coming calls to `write` / `read`, in order: `true` when
  the call reports an error (it returns a negative number); calls beyond the end of the
  list do not fail. -/
structure QFile where
  data : List Byte
  faults : List Bool

/-- The call `out.write(buffer, n)`, `bytes` being the `n` bytes of the buffer: whether the
returned count is non-negative, and the file afterwards. -/
def QFile.write (f : QFile) (bytes : List Byte) : Bool × QFile :=
  match f.faults with
  | true :: later => (false, { f with faults := later })
  | false :: later => (true, { data := f.data ++ bytes, faults := later })
  | [] => (true, { f with data := f.data ++ bytes })

/-- The call `in.read(buffer, maxSize)`: `none` when the returned count is negative,
otherwise the bytes read (fewer than `maxSize` at the end of the file), and the file
afterwards. -/
def QFile.read (f : QFile) (maxSize : Nat) : Option (List Byte) × QFile :=
  match f.faults with
  | true :: later => (none, { f with faults := later })
  | false :: later =>
    (some (f.data.take maxSize), { data := f.data.drop maxSize, faults := later })
  | [] => (some (f.data.take maxSize), { f with data := f.data.drop maxSize })

/-- The byte that holds a `bool` (`sizeof(bool)` is 1). -/
def boolByte (b : Bool) : Byte := if b then 1 else 0

/-- A `bool` after `read` has stored `bytes` (at most one byte) over it. -/
def storeBool (old : Bool) : List Byte → Bool
  | [] => old
  | b :: _ => decide (b ≠ 0)

/-- An array of `n` bytes after `read` has stored `bytes` over its beginning. -/
def storeBytes {n : Nat} (old : Fin n → Byte) (bytes : List Byte) : Fin n → Byte :=
  fun i =>
    match bytes.get? i.val with
    | some b => b
    | none => old i

/-- The methods `toFile` and `fromFile` of `ccGLMatrix`, a class declared elsewhere.
`toFile m out` gives the returned boolean and the file afterwards; `fromFile m inp
dataVersion flags` gives the returned boolean, the matrix afterwards and the file
afterwards. -/
structure ccGLMatrixFile (Mat : Type) where
  toFile : Mat → QFile → Bool × QFile
  fromFile : Mat → QFile → Int → Int → Bool × Mat × QFile

/-- The matrix round-trips for a data version and flags: whatever a successful `toFile`
appends to a file, `fromFile` reads back from a file without faults, consuming
exactly these bytes. -/
def ccGLMatrixFile.RoundTrips {Mat : Type} (mf : ccGLMatrixFile Mat)
    (dataVersion flags : Int) : Prop :=
  ∀ (m m0 : Mat) (out out' : QFile), mf.toFile m out = (true, out') →
    ∃ bytes : List Byte, out'.data = out.data ++ bytes ∧
      ∀ rest : List Byte,
        mf.fromFile m0 ⟨bytes ++ rest, []⟩ dataVersion flags = (true, m, ⟨rest, []⟩)

/-- The members of `ccDrawableObject` that `ccHObject` serializes. `m_tempColor` is the
array `colorType[3]` as bytes, `colorSize` being `sizeof(colorType)*3`. -/
structure ccDrawableObject (Mat : Type) (colorSize : Nat) where
  m_visible : Bool
  m_lockedVisibility : Bool
  m_colorsDisplayed : Bool
  m_normalsDisplayed : Bool
  m_sfDisplayed : Bool
  m_colorIsOverriden : Bool
  m_tempColor : Fin colorSize → Byte
  m_glTransEnabled : Bool
  m_glTrans : Mat
  m_showNameIn3D : Bool

variable {Mat : Type} {colorSize : Nat}

/-- The method `ccHObject::toFile_MeOnly` (lines 887-929): the returned boolean and the
file afterwards. Every `(false, out)` is a `return WriteError()` (or `return false`). -/
def toFile_MeOnly (mf : ccGLMatrixFile Mat) (s : ccDrawableObject Mat colorSize)
    (out : QFile) : Bool × QFile :=
  -- 'visible' state
  match out.write [boolByte s.m_visible] with
  | (false, out) => (false, out)
  | (true, out) =>
  -- 'lockedVisibility' state
  match out.write [boolByte s.m_lockedVisibility] with
  | (false, out) => (false, out)
  | (true, out) =>
  -- 'colorsDisplayed' state
  match out.write [boolByte s.m_colorsDisplayed] with
  | (false, out) => (false, out)
  | (true, out) =>
  -- 'normalsDisplayed' state
  match out.write [boolByte s.m_normalsDisplayed] with
  | (false, out) => (false, out)
  | (true, out) =>
  -- 'sfDisplayed' state
  match out.write [boolByte s.m_sfDisplayed] with
  | (false, out) => (false, out)
  | (true, out) =>
  -- 'colorIsOverriden' state
  match out.write [boolByte s.m_colorIsOverriden] with
  | (false, out) => (false, out)
  | (true, out) =>
  -- if (m_colorIsOverriden) 'tempColor'
  match (if s.m_colorIsOverriden then out.write (List.ofFn s.m_tempColor)
         else (true, out)) with
  | (false, out) => (false, out)
  | (true, out) =>
  -- 'glTransEnabled' state
  match out.write [boolByte s.m_glTransEnabled] with
  | (false, out) => (false, out)
  | (true, out) =>
  -- if (m_glTransEnabled) if (!m_glTrans.toFile(out)) return false;
  match (if s.m_glTransEnabled then mf.toFile s.m_glTrans out else (true, out)) with
  | (false, out) => (false, out)
  | (true, out) =>
  -- 'showNameIn3D' state
  match out.write [boolByte s.m_showNameIn3D] with
  | (false, out) => (false, out)
  | (true, out) => (true, out)

/-- The method `ccHObject::fromFile_MeOnly` (lines 931-980): the returned boolean, the
members afterwards and the file afterwards. -/
def fromFile_MeOnly (mf : ccGLMatrixFile Mat) (s : ccDrawableObject Mat colorSize)
    (inp : QFile) (dataVersion flags : Int) :
    Bool × ccDrawableObject Mat colorSize × QFile :=
  -- 'visible' state
  match inp.read 1 with
  | (none, inp) => (false, s, inp)
  | (some bytes, inp) =>
  let s := { s with m_visible := storeBool s.m_visible bytes }
  -- 'lockedVisibility' state
  match inp.read 1 with
  | (none, inp) => (false, s, inp)
  | (some bytes, inp) =>
  let s := { s with m_lockedVisibility := storeBool s.m_lockedVisibility bytes }
  -- 'colorsDisplayed' state
  match inp.read 1 with
  | (none, inp) => (false, s, inp)
  | (some bytes, inp) =>
  let s := { s with m_colorsDisplayed := storeBool s.m_colorsDisplayed bytes }
  -- 'normalsDisplayed' state
  match inp.read 1 with
  | (none, inp) => (false, s, inp)
  | (some bytes, inp) =>
  let s := { s with m_normalsDisplayed := storeBool s.m_normalsDisplayed bytes }
  -- 'sfDisplayed' state
  match inp.read 1 with
  | (none, inp) => (false, s, inp)
  | (some bytes, inp) =>
  let s := { s with m_sfDisplayed := storeBool s.m_sfDisplayed bytes }
  -- 'colorIsOverriden' state
  match inp.read 1 with
  | (none, inp) => (false, s, inp)
  | (some bytes, inp) =>
  let s := { s with m_colorIsOverriden := storeBool s.m_colorIsOverriden bytes }
  -- if (m_colorIsOverriden) 'tempColor'
  match (if s.m_colorIsOverriden then
          (match inp.read colorSize with
            | (none, inp) => (false, s, inp)
            | (some bytes, inp) =>
              (true, { s with m_tempColor := storeBytes s.m_tempColor bytes }, inp))
        else (true, s, inp)) with
  | (false, s, inp) => (false, s, inp)
  | (true, s, inp) =>
  -- 'glTransEnabled' state
  match inp.read 1 with
  | (none, inp) => (false, s, inp)
  | (some bytes, inp) =>
  let s := { s with m_glTransEnabled := storeBool s.m_glTransEnabled bytes }
  -- if (m_glTransEnabled) if (!m_glTrans.fromFile(in, dataVersion, flags)) return false;
  match (if s.m_glTransEnabled then
          (match mf.fromFile s.m_glTrans inp dataVersion flags with
            | (ok, m, inp) => (ok, { s with m_glTrans := m }, inp))
        else (true, s, inp)) with
  | (false, s, inp) => (false, s, inp)
  | (true, s, inp) =>
  -- 'showNameIn3D' state
  if dataVersion ≥ 24 then
    match inp.read 1 with
    | (none, inp) => (false, s, inp)
    | (some bytes, inp) =>
      (true, { s with m_showNameIn3D := storeBool s.m_showNameIn3D bytes }, inp)
  else
    (true, { s with m_showNameIn3D := false }, inp)

/-- A matrix stored as its 64 bytes (16 values of 4 bytes), written and read in one call
each; reading refuses data versions below 20. -/
def rawMatrixFile : ccGLMatrixFile (Fin 64 → Byte) where
  toFile m out := out.write (List.ofFn m)
  fromFile m inp dataVersion _ :=
    if dataVersion < 20 then (false, m, inp)
    else
      match inp.read 64 with
      | (none, inp) => (false, m, inp)
      | (some bytes, inp) => (true, storeBytes m bytes, inp)

/-- A drawable state: visible, colour overridden with (10, 20, 30), GL transformation
enabled, name shown in 3D. -/
def drawableExample : ccDrawableObject (Fin 64 → Byte) 3 where
  m_visible := true
  m_lockedVisibility := false
  m_colorsDisplayed := true
  m_normalsDisplayed := false
  m_sfDisplayed := false
  m_colorIsOverriden := true
  m_tempColor := ![10, 20, 30]
  m_glTransEnabled := true
  m_glTrans := fun i => Fin.ofNat i.val
  m_showNameIn3D := true

/-- The state of a freshly built object, into which a file is read. -/
def drawableDefault : ccDrawableObject (Fin 64 → Byte) 3 where
  m_visible := false
  m_lockedVisibility := true
  m_colorsDisplayed := false
  m_normalsDisplayed := false
  m_sfDisplayed := false
  m_colorIsOverriden := false
  m_tempColor := ![0, 0, 0]
  m_glTransEnabled := false
  m_glTrans := fun _ => 0
  m_showNameIn3D := false

end Serialization

/-! # Serialization of a node with its children (toFile) -/

namespace Serialization

/-- The four bytes of a `uint32_t` of value `n` modulo 2^32, least significant byte first
(the byte order of the x86 machines). -/
def uint32Bytes (n : Nat) : List Byte :=
  [⟨n % 256, Nat.mod_lt _ (by decide)⟩, ⟨n / 256 % 256, Nat.mod_lt _ (by decide)⟩,
    ⟨n / 65536 % 256, Nat.mod_lt _ (by decide)⟩,
    ⟨n / 16777216 % 256, Nat.mod_lt _ (by decide)⟩]

/-- The value of a `uint32_t` read from its four bytes, least significant byte first. -/
def uint32Value : List Byte → Nat
  | [b0, b1, b2, b3] => b0.val + 256 * b1.val + 65536 * b2.val + 16777216 * b3.val
  | _ => 0

/-- A `ccHObject` with the subtree of its children, as `toFile` sees it.

* `header`: what the call `ccObject::toFile(out)` does for the object (the method is
  defined elsewhere): the returned boolean and the file afterwards;
* `ownData`: what the virtual call `toFile_MeOnly(out)` does for the object
  (`ccHObject::toFile_MeOnly` for a plain `ccHObject`);
* `isSerializable`: what the virtual call `isSerializable()` returns;
* `m_selectionBehavior`: the `sizeof(SelectionBehavior)` bytes of the member;
* `m_children`: the children, in order. -/
inductive ccHObject where
  | mk (header : QFile → Bool × QFile) (ownData : QFile → Bool × QFile)
      (isSerializable : Bool) (m_selectionBehavior : List Byte)
      (m_children : List ccHObject) : ccHObject

/-- Field `header`. -/
def ccHObject.header : ccHObject → QFile → Bool × QFile
  | .mk w _ _ _ _ => w

/-- Field `ownData`. -/
def ccHObject.ownData : ccHObject → QFile → Bool × QFile
  | .mk _ w _ _ _ => w

/-- What `isSerializable()` returns. -/
def ccHObject.isSerializable : ccHObject → Bool
  | .mk _ _ b _ _ => b

/-- Field `m_selectionBehavior`. -/
def ccHObject.m_selectionBehavior : ccHObject → List Byte
  | .mk _ _ _ s _ => s

/-- Field `m_children`. -/
def ccHObject.m_children : ccHObject → List ccHObject
  | .mk _ _ _ _ cs => cs

/-- The method `ccHObject::isSerializable` (lines 753-757), for an object whose class does
not override it: `getClassID() == CC_TYPES::HIERARCHY_OBJECT`, both values being given. -/
def isSerializable (classID HIERARCHY_OBJECT : Nat) : Bool :=
  decide (classID = HIERARCHY_OBJECT)

/-- The first loop of `toFile` (lines 772-775), from the value `count` of
`serializableCount` on: `++serializableCount` on a `uint32_t` wraps at 2^32. The loop
index is an `unsigned`: the loop ends for fewer than 2^32 children, which is assumed. -/
def countSerializable : List ccHObject → Nat → Nat
  | [], count => count
  | c :: cs, count =>
    countSerializable cs (if c.isSerializable then (count + 1) % 4294967296 else count)

mutual
/-- The method `ccHObject::toFile` (lines 759-794): the returned boolean and the file
afterwards. Every `(false, out)` is a `return false` or a `return WriteError()`. -/
def toFile : ccHObject → QFile → Bool × QFile
  | .mk header ownData _ m_selectionBehavior children, out =>
    -- write 'ccObject' header
    match header out with
    | (false, out) => (false, out)
    | (true, out) =>
    -- write own data
    match ownData out with
    | (false, out) => (false, out)
    | (true, out) =>
    -- (serializable) child count
    match out.write (uint32Bytes (countSerializable children 0)) with
    | (false, out) => (false, out)
    | (true, out) =>
    -- write serializable children (if any)
    match toFile_children children out with
    | (false, out) => (false, out)
    | (true, out) =>
    -- write current selection behavior
    match out.write m_selectionBehavior with
    | (false, out) => (false, out)
    | (true, out) => (true, out)
/-- The second loop of `toFile` (lines 780-787) over `m_children`:
`if (m_children[i]->isSerializable()) if (!m_children[i]->toFile(out)) return false;`. -/
def toFile_children : List ccHObject → QFile → Bool × QFile
  | [], out => (true, out)
  | c :: cs, out =>
    if c.isSerializable then
      match toFile c out with
      | (false, out) => (false, out)
      | (true, out) => toFile_children cs out
    else toFile_children cs out
end

/-- The writer `w` only appends to the file, whatever it returns. -/
def Appends (w : QFile → Bool × QFile) : Prop :=
  ∀ out : QFile, ∃ bytes : List Byte, (w out).2.data = out.data ++ bytes

mutual
/-- Every object of the subtree writes its header and its own data at the end of the
file. -/
def ccHObject.WritersAppend : ccHObject → Prop
  | .mk header ownData _ _ children =>
    Appends header ∧ Appends ownData ∧ WritersAppend_children children
/-- Every object of the subtrees writes its header and its own data at the end of the
file. -/
def WritersAppend_children : List ccHObject → Prop
  | [] => True
  | c :: cs => c.WritersAppend ∧ WritersAppend_children cs
end

/-- The bytes `record` are a record of the object `c`: what a successful `c->toFile(out)`
appends to some file. -/
def IsRecordOf (c : ccHObject) (record : List Byte) : Prop :=
  ∃ o o' : QFile, toFile c o = (true, o') ∧ o'.data = o.data ++ record

/-- A plain `ccHObject` (a group): its own data is written by `ccHObject::toFile_MeOnly`
from its drawable state `s`, and it is serializable. -/
def plainObject {Mat : Type} {colorSize : Nat} (mf : ccGLMatrixFile Mat)
    (s : ccDrawableObject Mat colorSize) (header : QFile → Bool × QFile)
    (m_selectionBehavior : List Byte) (children : List ccHObject) : ccHObject :=
  .mk header (toFile_MeOnly mf s) true m_selectionBehavior children

/-- An object whose header is the two bytes 72 and `tag`, whose own data is the byte 77,
and whose selection behaviour is the four bytes of the value 0. -/
def taggedObject (tag : Byte) (isSerializable : Bool) (children : List ccHObject) :
    ccHObject :=
  .mk (fun out => out.write [72, tag]) (fun out => out.write [77]) isSerializable
    [0, 0, 0, 0] children

/-- A group with three children: a group, an object of another class that does not
override `isSerializable` (class 2, the class `HIERARCHY_OBJECT` being 1 here), and
another group. -/
def groupExample : ccHObject :=
  taggedObject 1 (isSerializable 1 1)
    [taggedObject 2 (isSerializable 1 1) [], taggedObject 3 (isSerializable 2 1) [],
      taggedObject 4 (isSerializable 1 1) []]

end Serialization

/-! # The object graph: children, parents and dependencies

Objects live in a heap and point to each other: `m_parent`, `m_children` and the keys of
`m_dependencies` are addresses. -/

namespace ObjectGraph

/-- The address of a `ccHObject`; a pointer that may be null is an `Option ObjId`. -/
abbrev ObjId : Type := Nat

/-- The container `std::map<ccHObject*,int>`: the entries, in key order. -/
abbrev DependencyMap : Type := List (ObjId × Int)

/-- The call `m.find(key)`: the mapped value, `none` for `m.end()`. -/
def mapFind : DependencyMap → ObjId → Option Int
  | [], _ => none
  | (k, v) :: rest, key => if key = k then some v else mapFind rest key

/-- The map after `m[key] = value`. -/
def mapAssign : DependencyMap → ObjId → Int → DependencyMap
  | [], key, value => [(key, value)]
  | (k, v) :: rest, key, value =>
    if key = k then (key, value) :: rest
    else if key < k then (key, value) :: (k, v) :: rest
    else (k, v) :: mapAssign rest key value

/-- The map after `m.erase(key)`. -/
def mapErase (m : DependencyMap) (key : ObjId) : DependencyMap :=
  m.filter (fun e => decide (e.1 ≠ key))

/-- The values of the enumeration `DEPENDENCY_FLAGS` that the methods use; the enumeration
is declared in the header. -/
structure DEPENDENCY_FLAGS where
  DP_NOTIFY_OTHER_ON_DELETE : Int
  DP_DELETE_OTHER : Int
  DP_PARENT_OF_OTHER : Int

/-- The methods `link` and `release` of `CCShareable` (declared elsewhere) on the link
count: `link n` is the count after `link()`; `release n` is the count after `release()`,
or `none` when `release()` deletes the object. -/
structure CCShareable where
  link : Nat → Nat
  release : Nat → Option Nat

/-- The members of a `ccHObject` that the hierarchy methods read and write.

* `isLeaf`, `isShareable`: what the methods of these names return for the object;
* `m_linkCount`: the link count of a shareable object. -/
structure ccHObject where
  m_parent : Option ObjId
  m_children : List ObjId
  m_dependencies : DependencyMap
  isLeaf : Bool
  isShareable : Bool
  m_linkCount : Nat

/-- The heap: the object at every address, the objects on which `delete` has been
called, latest first, and the state of the memory: `bad_alloc` tells, for the insertions
into a children vector still to come, in order, whether the insertion throws
`std::bad_alloc`; past the end of the list no insertion throws. -/
structure Heap where
  objects : ObjId → ccHObject
  deleted : List ObjId
  bad_alloc : List Bool := []

/-- The heap with the object at `self` replaced. -/
def Heap.set (h : Heap) (self : ObjId) (o : ccHObject) : Heap :=
  { h with objects := fun i => if i = self then o else h.objects i }

/-- The heap after `self->m_dependencies = m`. -/
def Heap.setDependencies (h : Heap) (self : ObjId) (m : DependencyMap) : Heap :=
  h.set self { h.objects self with m_dependencies := m }

/-- The heap after `self->m_children = cs`. -/
def Heap.setChildren (h : Heap) (self : ObjId) (cs : List ObjId) : Heap :=
  h.set self { h.objects self with m_children := cs }

/-- The method `setParent`: the heap after `self->m_parent = p`. -/
def setParent (h : Heap) (self : ObjId) (p : Option ObjId) : Heap :=
  h.set self { h.objects self with m_parent := p }

/-- The method `getParent`. -/
def getParent (h : Heap) (self : ObjId) : Option ObjId :=
  (h.objects self).m_parent

/-- The bits of `flag` are all set in `flags`: `(flags & flag) == flag`. -/
def hasFlag (flags flag : Int) : Bool :=
  decide (Int.land flags flag = flag)

/-- The method `ccHObject::addDependency` (lines 225-259). The method calls itself on the
other object; `fuel` bounds the depth of these calls, and `none` is returned when the bound
is reached. The error branch (null pointer or negative flags) logs and returns. -/
def addDependency (F : DEPENDENCY_FLAGS) :
    Nat → Heap → ObjId → Option ObjId → Int → Bool → Option Heap
  | 0, _, _, _, _, _ => none
  | fuel + 1, h, self, otherObject, flags, additive =>
    match otherObject with
    | none => some h
    | some other =>
      if flags < 0 then some h
      else if flags = 0 then some h
      else
        -- if (additive) it = m_dependencies.find(otherObject)
        match (if additive then mapFind (h.objects self).m_dependencies other else none) with
        | some current =>
          -- if ((it->second & flags) == flags) return;
          if hasFlag current flags then some h
          else
            -- flags |= it->second; m_dependencies[otherObject] = flags;
            let h1 := h.setDependencies self
              (mapAssign (h.objects self).m_dependencies other (Int.lor flags current))
            -- otherObject->addDependency(this, DP_NOTIFY_OTHER_ON_DELETE);
            addDependency F fuel h1 other (some self) F.DP_NOTIFY_OTHER_ON_DELETE true
        | none =>
          -- m_dependencies[otherObject] = flags;
          let h1 := h.setDependencies self
            (mapAssign (h.objects self).m_dependencies other flags)
          -- otherObject->addDependency(this, DP_NOTIFY_OTHER_ON_DELETE);
          addDependency F fuel h1 other (some self) F.DP_NOTIFY_OTHER_ON_DELETE true

/-- The method `ccHObject::getDependencyFlagsWith` (lines 261-266). -/
def getDependencyFlagsWith (h : Heap) (self other : ObjId) : Int :=
  match mapFind (h.objects self).m_dependencies other with
  | some flags => flags
  | none => 0

/-- The method `ccHObject::removeDependencyWith` (lines 268-271). -/
def removeDependencyWith (h : Heap) (self other : ObjId) : Heap :=
  h.setDependencies self (mapErase (h.objects self).m_dependencies other)

/-- The method `ccHObject::removeDependencyFlag` (lines 273-285). -/
def removeDependencyFlag (h : Heap) (self other : ObjId) (flag : Int) : Heap :=
  let flags := getDependencyFlagsWith h self other
  if hasFlag flags flag then
    let flags := Int.land flags (Int.lnot flag)
    if flags ≠ 0 then
      h.setDependencies self (mapAssign (h.objects self).m_dependencies other flags)
    else
      h.setDependencies self (mapErase (h.objects self).m_dependencies other)
  else h

/-- The loop of `getChildIndex`, from index `i` on. -/
def getChildIndexFrom : List ObjId → ObjId → Nat → Int
  | [], _, _ => -1
  | c :: cs, child, i => if c = child then (i : Int) else getChildIndexFrom cs child (i + 1)

/-- The method `ccHObject::getChildIndex` (lines 387-394). -/
def getChildIndex (h : Heap) (self child : ObjId) : Int :=
  getChildIndexFrom (h.objects self).m_children child 0

/-- The method `ccHObject::onDeletionOf` (lines 287-302). -/
def onDeletionOf (h : Heap) (self obj : ObjId) : Heap :=
  let h1 := removeDependencyWith h self obj
  let pos := getChildIndex h1 self obj
  if pos ≥ 0 then
    h1.setChildren self ((h1.objects self).m_children.eraseIdx pos.toNat)
  else h1

/-- The state of the memory once an insertion into a children vector has been tried. -/
def Heap.afterInsertion (h : Heap) : Heap :=
  { h with bad_alloc := h.bad_alloc.tail }

/-- The method `ccHObject::addChild` (lines 304-342): the returned boolean and the heap
afterwards; `none` only when `fuel` does not suffice for the calls to `addDependency`.
An insertion that throws `std::bad_alloc` leaves the vector as it was. -/
def addChild (F : DEPENDENCY_FLAGS) (S : CCShareable) (fuel : Nat) (h : Heap) (self : ObjId)
    (child : Option ObjId) (dependencyFlags insertIndex : Int) : Option (Bool × Heap) :=
  match child with
  | none => some (false, h)
  | some c =>
    if (h.objects self).isLeaf then some (false, h)
    else
      let cs := (h.objects self).m_children
      -- insert child: try { ... }
      if h.bad_alloc.head? = some true then
        -- catch (std::bad_alloc): not enough memory!
        some (false, h.afterInsertion)
      else
        let h1 := h.afterInsertion.setChildren self
          (if insertIndex < 0 ∨ insertIndex.toNat ≥ cs.length then cs ++ [c]
           else cs.take insertIndex.toNat ++ c :: cs.drop insertIndex.toNat)
        -- child->addDependency(this, DP_NOTIFY_OTHER_ON_DELETE);
        match addDependency F fuel h1 c (some self) F.DP_NOTIFY_OTHER_ON_DELETE true with
        | none => none
        | some h2 =>
          -- if (dependencyFlags != 0) addDependency(child, dependencyFlags);
          match (if dependencyFlags ≠ 0 then
                  addDependency F fuel h2 self (some c) dependencyFlags true
                else some h2) with
          | none => none
          | some h3 =>
            -- if ((dependencyFlags & DP_PARENT_OF_OTHER) == DP_PARENT_OF_OTHER)
            if hasFlag dependencyFlags F.DP_PARENT_OF_OTHER then
              let h4 := setParent h3 c (some self)
              -- if (child->isShareable()) dynamic_cast<CCShareable*>(child)->link();
              if (h4.objects c).isShareable then
                some (true, h4.set c
                  { h4.objects c with m_linkCount := S.link (h4.objects c).m_linkCount })
              else some (true, h4)
            else some (true, h3)

/-- The method `ccHObject::detachChild` (lines 659-680); the null pointer is refused. -/
def detachChild (h : Heap) (self : ObjId) (child : Option ObjId) : Heap :=
  match child with
  | none => h
  | some c =>
    -- remove any dependency (bilateral)
    let h1 := removeDependencyWith h self c
    let h2 := removeDependencyWith h1 c self
    -- if (child->getParent() == this) child->setParent(0);
    let h3 := if getParent h2 c = some self then setParent h2 c none else h2
    let pos := getChildIndex h3 self c
    if pos ≥ 0 then
      h3.setChildren self ((h3.objects self).m_children.eraseIdx pos.toNat)
    else h3

/-- The body of the loop of `detatchAllChildren` for one child. -/
def detatchStep (self : ObjId) (h : Heap) (c : ObjId) : Heap :=
  let h1 := removeDependencyWith h self c
  let h2 := removeDependencyWith h1 c self
  if getParent h2 c = some self then setParent h2 c none else h2

/-- The method `ccHObject::detatchAllChildren` (lines 682-696): the loop does not change
`m_children`, which is cleared afterwards. -/
def detatchAllChildren (h : Heap) (self : ObjId) : Heap :=
  let h1 := (h.objects self).m_children.foldl (detatchStep self) h
  h1.setChildren self []

/-- The statement `if (x->isShareable()) dynamic_cast<CCShareable*>(x)->release(); else
delete x;`, `del` being what `delete` does. -/
def releaseOrDelete (S : CCShareable) (del : Heap → ObjId → Option Heap) (h : Heap)
    (x : ObjId) : Option Heap :=
  if (h.objects x).isShareable then
    match S.release (h.objects x).m_linkCount with
    | some n => some (h.set x { h.objects x with m_linkCount := n })
    | none => del h x
  else del h x

/-- A loop over addresses; the loop stops with `none` as soon as its body does. -/
def forEachObject (body : Heap → ObjId → Option Heap) : Heap → List ObjId → Option Heap
  | h, [] => some h
  | h, k :: ks =>
    match body h k with
    | none => none
    | some h1 => forEachObject body h1 ks

/-- The body of the loop of the destructor over `m_dependencies` (lines 75-94), for the
entry of key `other`. An entry erased before the iterator reaches it is not met; the
body is undefined (`none`) when the entry under the iterator is erased. -/
def destructorStep (F : DEPENDENCY_FLAGS) (S : CCShareable)
    (del : Heap → ObjId → Option Heap) (self : ObjId) (h : Heap) (other : ObjId) :
    Option Heap :=
  match mapFind (h.objects self).m_dependencies other with
  | none => some h
  | some flags =>
    -- notify deletion to other object?
    let h1 := if hasFlag flags F.DP_NOTIFY_OTHER_ON_DELETE then onDeletionOf h other self else h
    match mapFind (h1.objects self).m_dependencies other with
    | none => none
    | some flags1 =>
      -- delete other object?
      if hasFlag flags1 F.DP_DELETE_OTHER then
        let h2 := removeDependencyFlag h1 other self F.DP_NOTIFY_OTHER_ON_DELETE
        match releaseOrDelete S del h2 other with
        | none => none
        | some h3 =>
          match mapFind (h3.objects self).m_dependencies other with
          | none => none
          | some _ => some h3
      else some h1

/-- The loop of `removeAllChildren` (lines 737-750), `n` bounding the number of turns. -/
def removeAllChildrenLoop (F : DEPENDENCY_FLAGS) (S : CCShareable)
    (del : Heap → ObjId → Option Heap) : Nat → Heap → ObjId → Option Heap
  | 0, h, self => if (h.objects self).m_children = [] then some h else none
  | n + 1, h, self =>
    match (h.objects self).m_children.getLast? with
    | none => some h
    | some child =>
      -- m_children.pop_back();
      let h1 := h.setChildren self (h.objects self).m_children.dropLast
      let flags := getDependencyFlagsWith h1 self child
      if hasFlag flags F.DP_DELETE_OTHER then
        match releaseOrDelete S del h1 child with
        | none => none
        | some h2 => removeAllChildrenLoop F S del n h2 self
      else removeAllChildrenLoop F S del n h1 self

/-- The statement `delete self`: the destructor `ccHObject::~ccHObject` (lines 72-98) runs.
Deleting an object twice is undefined (`none`); `fuel` bounds the depth of the nested
deletions, and `none` is returned when the bound is reached. -/
def deleteObject (F : DEPENDENCY_FLAGS) (S : CCShareable) : Nat → Heap → ObjId → Option Heap
  | 0, _, _ => none
  | fuel + 1, h, self =>
    if self ∈ h.deleted then none
    else
      let h0 : Heap := { h with deleted := self :: h.deleted }
      -- process dependencies
      match forEachObject (destructorStep F S (deleteObject F S fuel) self) h0
          ((h0.objects self).m_dependencies.map Prod.fst) with
      | none => none
      | some h1 =>
        -- m_dependencies.clear();
        let h2 := h1.setDependencies self []
        -- removeAllChildren();
        removeAllChildrenLoop F S (deleteObject F S fuel)
          (h2.objects self).m_children.length h2 self

/-- The method `ccHObject::removeAllChildren` (lines 735-751). -/
def removeAllChildren (F : DEPENDENCY_FLAGS) (S : CCShareable) (fuel : Nat) (h : Heap)
    (self : ObjId) : Option Heap :=
  removeAllChildrenLoop F S (deleteObject F S fuel) (h.objects self).m_children.length h self

/-- The method `ccHObject::removeChild(int pos)` (lines 705-733). An invalid position is
undefined (`none`), and so is the final `erase` when `pos` is no longer a position of
`m_children`. -/
def removeChildAt (F : DEPENDENCY_FLAGS) (S : CCShareable) (fuel : Nat) (h : Heap)
    (self : ObjId) (pos : Int) : Option Heap :=
  if pos < 0 then none
  else
    match (h.objects self).m_children.get? pos.toNat with
    | none => none
    | some child =>
      -- backup dependency flags
      let flags := getDependencyFlagsWith h self child
      -- remove any dependency (bilateral)
      let h1 := removeDependencyWith h self child
      let h2 := removeDependencyWith h1 child self
      let destroyed : Option Heap :=
        if hasFlag flags F.DP_DELETE_OTHER then
          releaseOrDelete S (deleteObject F S fuel) h2 child
        else if getParent h2 child = some self then some (setParent h2 child none)
        else some h2
      match destroyed with
      | none => none
      | some h3 =>
        -- m_children.erase(m_children.begin()+pos);
        if pos.toNat < (h3.objects self).m_children.length then
          some (h3.setChildren self ((h3.objects self).m_children.eraseIdx pos.toNat))
        else none

/-- The method `ccHObject::removeChild(ccHObject* child)` (lines 698-703). -/
def removeChild (F : DEPENDENCY_FLAGS) (S : CCShareable) (fuel : Nat) (h : Heap)
    (self child : ObjId) : Option Heap :=
  let pos := getChildIndex h self child
  if pos ≥ 0 then removeChildAt F S fuel h self pos else some h

/-! ## Relations between heaps used in the statements -/

/-- The heap `h'` differs from `h` in dependency maps only: the same objects have been
deleted, and every object has the same parent, children, link count and class. -/
def Heap.sameButDependencies (h h' : Heap) : Prop :=
  h'.deleted = h.deleted ∧
    ∀ z : ObjId, (h'.objects z).m_parent = (h.objects z).m_parent
      ∧ (h'.objects z).m_children = (h.objects z).m_children
      ∧ (h'.objects z).isLeaf = (h.objects z).isLeaf
      ∧ (h'.objects z).isShareable = (h.objects z).isShareable
      ∧ (h'.objects z).m_linkCount = (h.objects z).m_linkCount

/-- Every dependency entry of `h` is still there in `h'`, with at least the same bits. -/
def Heap.dependenciesGrow (h h' : Heap) : Prop :=
  ∀ (z k : ObjId) (v : Int), mapFind (h.objects z).m_dependencies k = some v →
    ∃ v', mapFind (h'.objects z).m_dependencies k = some v' ∧ hasFlag v' v = true

/-- The object `x` holds with `y` flags that contain every bit of `flags`. -/
def Heap.holds (h : Heap) (x y : ObjId) (flags : Int) : Prop :=
  ∃ v, mapFind (h.objects x).m_dependencies y = some v ∧ hasFlag v flags = true

/-! ## Concrete values and heaps -/

/-- The values of `DEPENDENCY_FLAGS` in `ccHObject.h`: `DP_PARENT_OF_OTHER` (24) includes
`DP_DELETE_OTHER` (8). -/
def headerFlags : DEPENDENCY_FLAGS where
  DP_NOTIFY_OTHER_ON_DELETE := 1
  DP_DELETE_OTHER := 8
  DP_PARENT_OF_OTHER := 24

/-- An instance of the `CCShareable` operations, a plain link count: `link()` increments
it; `release()` decrements it when it is above 1 and deletes the object otherwise. -/
def linkCounting : CCShareable where
  link n := n + 1
  release n := if n > 1 then some (n - 1) else none

/-- A freshly built group: no parent, no child, no dependency. -/
def newObject : ccHObject where
  m_parent := none
  m_children := []
  m_dependencies := []
  isLeaf := false
  isShareable := false
  m_linkCount := 0

/-- A heap of freshly built groups. -/
def freshHeap : Heap where
  objects := fun _ => newObject
  deleted := []

/-- The group 0 with the children 1 and 2, as two calls `addChild(child)` (default flags
`DP_PARENT_OF_OTHER`) on fresh objects leave them. -/
def groupHeap : Heap where
  objects := fun i =>
    if i = 0 then { newObject with m_children := [1, 2], m_dependencies := [(1, 25), (2, 25)] }
    else if i = 1 then { newObject with m_parent := some 0, m_dependencies := [(0, 1)] }
    else if i = 2 then { newObject with m_parent := some 0, m_dependencies := [(0, 1)] }
    else newObject
  deleted := []

/-- The heap `groupHeap` when the memory is exhausted: the next insertion into a children
vector throws `std::bad_alloc`. -/
def exhaustedGroupHeap : Heap :=
  { groupHeap with bad_alloc := [true] }

/-- The group 0 with the children 1 and 2 (as in `groupHeap`), the object 1 holding
moreover `DP_DELETE_OTHER` on its sibling 2, as `addDependency(2, DP_DELETE_OTHER)`
called on the object 1 leaves the heap. -/
def ownedSiblingHeap : Heap where
  objects := fun i =>
    if i = 0 then { newObject with m_children := [1, 2], m_dependencies := [(1, 25), (2, 25)] }
    else if i = 1 then
      { newObject with m_parent := some 0, m_dependencies := [(0, 1), (2, 9)] }
    else if i = 2 then
      { newObject with m_parent := some 0, m_dependencies := [(0, 1), (1, 1)] }
    else newObject
  deleted := []

/-- The group 0 with the children 1, 2 and 3, the object 2 holding moreover
`DP_DELETE_OTHER` on its elder sibling 1. -/
def ownedElderSiblingHeap : Heap where
  objects := fun i =>
    if i = 0 then
      { newObject with
        m_children := [1, 2, 3], m_dependencies := [(1, 25), (2, 25), (3, 25)] }
    else if i = 1 then
      { newObject with m_parent := some 0, m_dependencies := [(0, 1), (2, 1)] }
    else if i = 2 then
      { newObject with m_parent := some 0, m_dependencies := [(0, 1), (1, 9)] }
    else if i = 3 then { newObject with m_parent := some 0, m_dependencies := [(0, 1)] }
    else newObject
  deleted := []

end ObjectGraph

/-! # The object graph: transfer of children -/

namespace ObjectGraph

/-- The method `ccHObject::transferChild` (lines 396-411), `child` being non-null
(`assert(child)`): the heap when the method returns; the final assertion is
`transferAssertion` on that heap. The call `newParent.addChild(child, flags)` takes the
default insertion index -1. -/
def transferChild (F : DEPENDENCY_FLAGS) (S : CCShareable) (fuel : Nat) (h : Heap)
    (self child newParent : ObjId) : Option Heap :=
  -- remove link from old parent
  let childDependencyFlags := getDependencyFlagsWith h child self
  let parentDependencyFlags := getDependencyFlagsWith h self child
  let h1 := detachChild h self (some child)
  -- newParent.addChild(child, parentDependencyFlags);
  match addChild F S fuel h1 newParent (some child) parentDependencyFlags (-1) with
  | none => none
  | some (_, h2) =>
    -- child->addDependency(&newParent, childDependencyFlags);
    addDependency F fuel h2 child (some newParent) childDependencyFlags true

/-- The expression of the assertions of `transferChild` and `transferChildren`:
`child->getParent() == &newParent || child->getParent() == 0`. -/
def transferAssertion (h : Heap) (child newParent : ObjId) : Bool :=
  decide (getParent h child = some newParent) || decide (getParent h child = none)

/-- The body of the loop of `transferChildren` (lines 417-427) for one child, the
assertion left out. When `newParent` is the node itself and accepts children, `addChild`
inserts into the vector that the loop iterates over: undefined (`none`). -/
def transferChildrenStep (F : DEPENDENCY_FLAGS) (S : CCShareable) (fuel : Nat)
    (self newParent : ObjId) (h : Heap) (child : ObjId) : Option Heap :=
  if newParent = self ∧ (h.objects self).isLeaf = false then none
  else
    -- remove link from old parent
    let childDependencyFlags := getDependencyFlagsWith h child self
    let fatherDependencyFlags := getDependencyFlagsWith h self child
    -- we must explicitely remove any depedency with the child as we don't call 'detachChild'
    let h1 := removeDependencyWith h self child
    let h2 := removeDependencyWith h1 child self
    -- newParent.addChild(child, fatherDependencyFlags);
    match addChild F S fuel h2 newParent (some child) fatherDependencyFlags (-1) with
    | none => none
    | some (_, h3) =>
      -- child->addDependency(&newParent, childDependencyFlags);
      addDependency F fuel h3 child (some newParent) childDependencyFlags true

/-- The loop of `transferChildren` over the children: the value of the assertion after
every step, in order, and the heap at the end. -/
def transferChildrenLoop (F : DEPENDENCY_FLAGS) (S : CCShareable) (fuel : Nat)
    (self newParent : ObjId) : List ObjId → Heap → Option (List Bool × Heap)
  | [], h => some ([], h)
  | child :: rest, h =>
    match transferChildrenStep F S fuel self newParent h child with
    | none => none
    | some h1 =>
      match transferChildrenLoop F S fuel self newParent rest h1 with
      | none => none
      | some (asserted, h2) => some (transferAssertion h1 child newParent :: asserted, h2)

/-- The method `ccHObject::transferChildren` (lines 413-433): the value of the assertion
for every child, in order, and the heap when the method returns (`m_children` cleared).
The parameter `forceFatherDependent` is not used by the method. -/
def transferChildren (F : DEPENDENCY_FLAGS) (S : CCShareable) (fuel : Nat) (h : Heap)
    (self newParent : ObjId) : Option (List Bool × Heap) :=
  match transferChildrenLoop F S fuel self newParent (h.objects self).m_children h with
  | none => none
  | some (asserted, h1) => some (asserted, h1.setChildren self [])

/-- The group 10 with the children 11 and 12, added with the default flags
`DP_PARENT_OF_OTHER`, and the group 13 that lists the object 11 as well without being its
parent: the heap after `addChild(11, DP_NONE)` called on the object 13. -/
def sharedChildHeap : Heap where
  objects := fun i =>
    if i = 10 then
      { newObject with m_children := [11, 12], m_dependencies := [(11, 25), (12, 25)] }
    else if i = 11 then
      { newObject with m_parent := some 10, m_dependencies := [(10, 1), (13, 1)] }
    else if i = 12 then { newObject with m_parent := some 10, m_dependencies := [(10, 1)] }
    else if i = 13 then { newObject with m_children := [11], m_dependencies := [(11, 1)] }
    else newObject
  deleted := []

/-- The group 10 with the children 11 and 12, added with the default flags
`DP_PARENT_OF_OTHER`, and the object 15, a leaf (`isLeaf()` returns true). -/
def leafHeap : Heap where
  objects := fun i =>
    if i = 10 then
      { newObject with m_children := [11, 12], m_dependencies := [(11, 25), (12, 25)] }
    else if i = 11 then { newObject with m_parent := some 10, m_dependencies := [(10, 1)] }
    else if i = 12 then { newObject with m_parent := some 10, m_dependencies := [(10, 1)] }
    else if i = 15 then { newObject with isLeaf := true }
    else newObject
  deleted := []

end ObjectGraph

/-! # The object graph: cascades of destructions -/

namespace ObjectGraph

/-- What the destructions between the heap `h` and the heap `h'` may have changed: the
objects deleted in `h` are deleted in `h'`; no dependency entry has been added; the
children list of an object `z` that is not deleted in `h'` is the same, unless one of
its children is deleted in `h'` and held a dependency with `z` (it may have notified
`z`, which then erased it from its list). -/
def Heap.afterDestructions (h h' : Heap) : Prop :=
  (∀ d, d ∈ h.deleted → d ∈ h'.deleted)
  ∧ (∀ z k, mapFind (h.objects z).m_dependencies k = none →
      mapFind (h'.objects z).m_dependencies k = none)
  ∧ (∀ z, z ∉ h'.deleted →
      (∀ d, d ∈ h'.deleted → d ∈ (h.objects z).m_children →
        mapFind (h.objects d).m_dependencies z = none) →
      (h'.objects z).m_children = (h.objects z).m_children)

/-- The group 0 with the children 1 and 3, the child 1 being itself a group with the child
2: the heap after `addChild(1)` and `addChild(3)` called on the object 0 and `addChild(2)`
called on the object 1, with the default flags `DP_PARENT_OF_OTHER`. -/
def nestedGroupHeap : Heap where
  objects := fun i =>
    if i = 0 then { newObject with m_children := [1, 3], m_dependencies := [(1, 25), (3, 25)] }
    else if i = 1 then
      { newObject with
        m_parent := some 0, m_children := [2], m_dependencies := [(0, 1), (2, 25)] }
    else if i = 2 then { newObject with m_parent := some 1, m_dependencies := [(1, 1)] }
    else if i = 3 then { newObject with m_parent := some 0, m_dependencies := [(0, 1)] }
    else newObject
  deleted := []

end ObjectGraph
/-! # Rendering dispatch (draw) -/

namespace Rendering

/-- The draw context as `draw` reads it: the window `_win` (`none` is the null pointer)
and the values that the macros of the header give for the context. -/
structure CC_DRAW_CONTEXT where
  _win : Option Nat
  MACRO_Draw2D : Bool
  MACRO_Draw3D : Bool
  MACRO_Foreground : Bool
  MACRO_DrawPointNames : Bool
  MACRO_DrawTriangleNames : Bool
  MACRO_DrawNames : Bool
  MACRO_SkipSelected : Bool
  MACRO_SkipUnselected : Bool

/-- The values of `m_selectionBehavior` that `draw` handles. -/
inductive SelectionBehavior where
  | SELECTION_AA_BBOX
  | SELECTION_FIT_BBOX
  | SELECTION_IGNORED
  deriving DecidableEq

/-- The calls that `draw` makes, the entity concerned being named by its `uniqueID`:
`glMultMatrixf id` multiplies by `m_glTrans` of the entity, `glMultFitMatrix id` by the
matrix that `getFitBB` gives for it. -/
inductive Call where
  | glMatrixMode
  | glPushMatrix
  | glMultMatrixf (id : Nat)
  | glMultFitMatrix (id : Nat)
  | glPopMatrix
  | glColor3ubv
  | drawMeOnly (id : Nat)
  | drawNameIn3D (id : Nat)
  | drawBB (id : Nat)
  | drawFitBB (id : Nat)
  deriving DecidableEq

/-- An entity with the subtree of its children, as `draw` reads it.

* `isEnabled`: what `isEnabled()` returns;
* `kindOfPointCloud`, `kindOfMesh`: what `isKindOf(CC_TYPES::POINT_CLOUD)` and
  `isKindOf(CC_TYPES::MESH)` return;
* `fitBBValid`: whether the box that `getFitBB` returns is valid. -/
inductive ccHObject where
  | mk (uniqueID : Nat) (isEnabled : Bool) (m_visible : Bool) (m_selected : Bool)
      (m_currentDisplay : Option Nat) (kindOfPointCloud : Bool) (kindOfMesh : Bool)
      (m_glTransEnabled : Bool) (m_showNameIn3D : Bool)
      (m_selectionBehavior : SelectionBehavior) (fitBBValid : Bool)
      (m_children : List ccHObject) : ccHObject

/-- The value of `drawInThisContext` once computed (lines 556-561): the entity is visible
or selected and displayed in the window of the context, and passes the test on the
element picking mode. -/
def drawInThisContext (context : CC_DRAW_CONTEXT) (m_visible m_selected : Bool)
    (m_currentDisplay : Option Nat) (kindOfPointCloud kindOfMesh : Bool) : Bool :=
  -- bool drawInThisContext = ((m_visible || m_selected) && m_currentDisplay == context._win);
  let shown := (m_visible || m_selected) && decide (m_currentDisplay = context._win)
  -- drawInThisContext &= ((!MACRO_DrawPointNames(context) || isKindOf(POINT_CLOUD)) ||
  --                       (!MACRO_DrawTriangleNames(context) || isKindOf(MESH)));
  shown && ((!context.MACRO_DrawPointNames || kindOfPointCloud)
    || (!context.MACRO_DrawTriangleNames || kindOfMesh))

mutual
/-- The method `ccHObject::draw` (lines 548-623): the calls it makes, in order. -/
def draw : ccHObject → CC_DRAW_CONTEXT → List Call
  | .mk uid isEnabled m_visible m_selected m_currentDisplay kindOfPointCloud kindOfMesh
      m_glTransEnabled m_showNameIn3D m_selectionBehavior fitBBValid children, context =>
    -- if (!isEnabled()) return;
    if !isEnabled then []
    else
      let draw3D := context.MACRO_Draw3D
      let inContext := drawInThisContext context m_visible m_selected m_currentDisplay
        kindOfPointCloud kindOfMesh
      -- apply 3D 'temporary' transformation (for display only)
      (if draw3D && m_glTransEnabled then
        [Call.glMatrixMode, Call.glPushMatrix, Call.glMultMatrixf uid]
      else [])
      -- draw entity
      ++ (if m_visible && inContext then
            (if (!m_selected || !context.MACRO_SkipSelected)
                && (m_selected || !context.MACRO_SkipUnselected) then
              [Call.glColor3ubv, Call.drawMeOnly uid]
              ++ (if m_showNameIn3D && context.MACRO_Draw2D && context.MACRO_Foreground
                    && !context.MACRO_DrawNames then [Call.drawNameIn3D uid]
                  else [])
            else [])
          else [])
      -- draw entity's children
      ++ draw_children children context
      -- if the entity is currently selected, we draw its bounding-box
      ++ (if m_selected && draw3D && inContext && !context.MACRO_DrawNames then
            (match m_selectionBehavior with
              | .SELECTION_AA_BBOX => [Call.drawBB uid]
              | .SELECTION_FIT_BBOX =>
                if fitBBValid then
                  [Call.glMatrixMode, Call.glPushMatrix, Call.glMultFitMatrix uid,
                    Call.drawFitBB uid, Call.glPopMatrix]
                else []
              | .SELECTION_IGNORED => [])
          else [])
      ++ (if draw3D && m_glTransEnabled then [Call.glPopMatrix] else [])
/-- The loop of `draw` over `m_children`. -/
def draw_children : List ccHObject → CC_DRAW_CONTEXT → List Call
  | [], _ => []
  | c :: cs, context => draw c context ++ draw_children cs context
end

/-- The context of a pass that requests point names only (picking of points), in the
window 1: 3D pass, `MACRO_DrawNames` holds as for every kind of names. -/
def pointPickingContext : CC_DRAW_CONTEXT where
  _win := some 1
  MACRO_Draw2D := false
  MACRO_Draw3D := true
  MACRO_Foreground := false
  MACRO_DrawPointNames := true
  MACRO_DrawTriangleNames := false
  MACRO_DrawNames := true
  MACRO_SkipSelected := false
  MACRO_SkipUnselected := false

/-- The same pass, requesting point names and triangle names. -/
def elementPickingContext : CC_DRAW_CONTEXT :=
  { pointPickingContext with MACRO_DrawTriangleNames := true }

/-- An enabled, visible, unselected entity without children, shown in the window 1. -/
def shownEntity (uid : Nat) (kindOfPointCloud kindOfMesh : Bool) : ccHObject :=
  .mk uid true true false (some 1) kindOfPointCloud kindOfMesh false false
    .SELECTION_AA_BBOX false []

end Rendering

/-! # Theorems -/

namespace SceneTree

variable {Mat Box : Type}


/-- C1, on the code: in `siblingsExample` the second child, whose path holds the root's
scaling by 2 only, receives the scaling by 6 (the first child's transformation was
multiplied into the shared matrix), where the path composition is the scaling by 2. -/
theorem applyGLTransformation_recursive_sibling_leak :
    (applyGLTransformation_recursive siblingsExample none).1
        = [(0, scaling 2), (1, scaling 6), (2, scaling 6)]
      ∧ applyGLTransformation_spec siblingsExample []
        = [(0, scaling 2), (1, scaling 6), (2, scaling 2)]
      ∧ (applyGLTransformation_recursive siblingsExample none).1
        ≠ applyGLTransformation_spec siblingsExample [] := by
  decide

/-- On the code: below a root whose GL transformation is disabled every child receives a
null pointer and allocates its own matrix, and the applications are those of the paths:
the first child is scaled by 3 and the second receives nothing. -/
theorem applyGLTransformation_recursive_null_pointer :
    (applyGLTransformation_recursive siblingsBelowPlainRoot none).1 = [(1, scaling 3)]
      ∧ applyGLTransformation_spec siblingsBelowPlainRoot [] = [(1, scaling 3)] := by
  decide

/-- The loop of `getBB` adds, in order, the boxes of the enabled children. -/
theorem getBB_children_eq (ops : ccBBoxOps Mat Box) (cs : List (ccHObject Mat Box))
    (w : Bool) (d : Option Nat) (box : Box) :
    getBB_children ops cs w d box
      = ((cs.filter (fun c => c.isEnabled)).map (fun c => getBB ops c false w d)).foldl
          ops.add box := by
  induction cs generalizing box with
  | nil => simp [getBB_children]
  | cons c cs ih =>
    rw [getBB_children, ih]
    cases hc : c.isEnabled <;> simp [hc]

/-- With no display filter `getBB` is the united box of the specification. -/
theorem getBB_eq_getBB_spec (ops : ccBBoxOps Mat Box) (n : ccHObject Mat Box)
    (relative withGLfeatures : Bool) :
    getBB ops n relative withGLfeatures none = getBB_spec ops n relative withGLfeatures := by
  cases n with
  | mk i e cur g t o b cs =>
    rw [getBB, getBB_children_eq]
    cases relative <;> cases g <;>
      simp [getBB_spec, ccHObject.m_children, ccHObject.m_glTransEnabled, ccHObject.m_glTrans]

/-- C2: with no display filter, `getBB` is the node's own box united with
`getBB(false, withGLfeatures, NULL)` of every enabled child and multiplied by the GL
transformation exactly when the united box is valid, `relative` is false and the
transformation is enabled; a disabled child, whatever its subtree, contributes nothing;
a plain `ccHObject` with no enabled child returns the invalid box `ccBBox()`. -/
theorem getBB_without_display (ops : ccBBoxOps Mat Box) (n : ccHObject Mat Box)
    (relative withGLfeatures : Bool) :
    getBB ops n relative withGLfeatures none = getBB_spec ops n relative withGLfeatures
      ∧ (∀ (before after : List (ccHObject Mat Box)) (c : ccHObject Mat Box),
          c.isEnabled = false →
          getBB ops (n.withChildren (before ++ c :: after)) relative withGLfeatures none
            = getBB ops (n.withChildren (before ++ after)) relative withGLfeatures none)
      ∧ (ops.isValid ops.empty = false → n.isPlain = true →
          (∀ c ∈ n.m_children, c.isEnabled = false) →
          getBB ops n relative withGLfeatures none = ops.empty
            ∧ ops.isValid (getBB ops n relative withGLfeatures none) = false) := by
  refine ⟨getBB_eq_getBB_spec ops n relative withGLfeatures, ?_, ?_⟩
  · intro before after c hc
    rw [getBB_eq_getBB_spec, getBB_eq_getBB_spec]
    cases n with
    | mk i e cur g t o b cs =>
      simp [getBB_spec, ccHObject.withChildren, ccHObject.m_children, getMyOwnBB, getDisplayBB,
        ccHObject.m_glTransEnabled, ccHObject.m_glTrans, List.filter_cons, hc]
  · intro hempty hplain hdis
    have hfilter : n.m_children.filter (fun c => c.isEnabled) = [] := by
      rw [List.filter_eq_nil_iff]
      intro c hc
      simp [hdis c hc]
    have hbox : getBB ops n relative withGLfeatures none = ops.empty := by
      rw [getBB_eq_getBB_spec]
      cases n with
      | mk i e cur g t o b cs =>
        simp only [ccHObject.isPlain, Bool.and_eq_true, Option.isNone_iff_eq_none] at hplain
        obtain ⟨ho, hb⟩ := hplain
        subst ho
        subst hb
        simp only [ccHObject.m_children] at hfilter
        cases withGLfeatures <;>
          simp [getBB_spec, ccHObject.m_children, hfilter, getMyOwnBB, getDisplayBB, hempty]
    exact ⟨hbox, by rw [hbox]; exact hempty⟩

/-- C2 at a concrete group: the disabled cloud of extent [5, 9] is ignored and the
enabled one of extent [1, 3] is scaled by the group's factor 2; a plain node whose only
child is disabled has the invalid box. -/
theorem getBB_without_display_witness :
    getBB intervalBoxes groupExample false false none = some (2, 6)
      ∧ getBB intervalBoxes emptyGroupExample false false none = none
      ∧ intervalBoxes.isValid (getBB intervalBoxes emptyGroupExample false false none)
          = false :=
  ⟨by decide,
   ((getBB_without_display intervalBoxes emptyGroupExample false false).2.2
      (by decide) (by decide) (by decide)).1,
   ((getBB_without_display intervalBoxes emptyGroupExample false false).2.2
      (by decide) (by decide) (by decide)).2⟩

end SceneTree

namespace Serialization

variable {Mat : Type} {colorSize : Nat}

/-- A successful `write` appends the bytes. -/
theorem QFile.write_ok {f f' : QFile} {bytes : List Byte} (h : f.write bytes = (true, f')) :
    f'.data = f.data ++ bytes := by
  unfold QFile.write at h
  split at h <;> simp at h <;> rw [← h] 

/-- Reading from a file without faults. -/
theorem QFile.read_noFault (d : List Byte) (n : Nat) :
    QFile.read ⟨d, []⟩ n = (some (d.take n), ⟨d.drop n, []⟩) := rfl

/-- Reading one byte from a file without faults. -/
theorem QFile.read_one (b : Byte) (d : List Byte) :
    QFile.read ⟨b :: d, []⟩ 1 = (some [b], ⟨d, []⟩) := rfl

/-- Reading an array back from a file without faults. -/
theorem QFile.read_ofFn {n : Nat} (c : Fin n → Byte) (d : List Byte) :
    QFile.read ⟨List.ofFn c ++ d, []⟩ n = (some (List.ofFn c), ⟨d, []⟩) := by
  have h1 : (List.ofFn c ++ d).take n = List.ofFn c := by
    rw [List.take_append_of_le_length (by simp)]
    apply List.take_of_length_le; simp
  have h2 : (List.ofFn c ++ d).drop n = d := by
    rw [List.drop_append_of_le_length (by simp)]
    simp [List.drop_of_length_le]
  simp [QFile.read, h1, h2]

/-- A `bool` read back from the byte written for it. -/
theorem storeBool_one (old b : Bool) : storeBool old [boolByte b] = b := by
  cases b <;> simp [storeBool, boolByte]

/-- An array read back from the bytes written for it. -/
theorem storeBytes_ofFn {n : Nat} (old new : Fin n → Byte) :
    storeBytes old (List.ofFn new) = new := by
  funext i
  simp [storeBytes, List.get?_eq_getElem?, List.getElem?_ofFn]

/-- C3: reading with `fromFile_MeOnly` (data version at least 24, a file without faults)
the bytes that a successful `toFile_MeOnly` has appended succeeds, consumes exactly these
bytes (what follows them, `rest`, is left), and restores every serialized member: the
temporary colour when the colour is overridden and the GL transformation when it is enabled,
the matrix being assumed to round-trip. -/
theorem fromFile_MeOnly_toFile_MeOnly (mf : ccGLMatrixFile Mat) (s r : ccDrawableObject Mat colorSize)
    (out out' : QFile) (rest : List Byte) (dataVersion flags : Int)
    (hv : 24 ≤ dataVersion) (hmat : mf.RoundTrips dataVersion flags)
    (hw : toFile_MeOnly mf s out = (true, out')) :
    ∃ (bytes : List Byte) (r' : ccDrawableObject Mat colorSize),
      out'.data = out.data ++ bytes
      ∧ fromFile_MeOnly mf r ⟨bytes ++ rest, []⟩ dataVersion flags = (true, r', ⟨rest, []⟩)
      ∧ r'.m_visible = s.m_visible
      ∧ r'.m_lockedVisibility = s.m_lockedVisibility
      ∧ r'.m_colorsDisplayed = s.m_colorsDisplayed
      ∧ r'.m_normalsDisplayed = s.m_normalsDisplayed
      ∧ r'.m_sfDisplayed = s.m_sfDisplayed
      ∧ r'.m_colorIsOverriden = s.m_colorIsOverriden
      ∧ (s.m_colorIsOverriden = true → r'.m_tempColor = s.m_tempColor)
      ∧ r'.m_glTransEnabled = s.m_glTransEnabled
      ∧ (s.m_glTransEnabled = true → r'.m_glTrans = s.m_glTrans)
      ∧ r'.m_showNameIn3D = s.m_showNameIn3D := by
  unfold toFile_MeOnly at hw
  split at hw
  · simp at hw
  rename_i o1 h1
  split at hw
  · simp at hw
  rename_i o2 h2
  split at hw
  · simp at hw
  rename_i o3 h3
  split at hw
  · simp at hw
  rename_i o4 h4
  split at hw
  · simp at hw
  rename_i o5 h5
  split at hw
  · simp at hw
  rename_i o6 h6
  split at hw
  · simp at hw
  rename_i o7 h7
  split at hw
  · simp at hw
  rename_i o8 h8
  split at hw
  · simp at hw
  rename_i o9 h9
  split at hw
  · simp at hw
  rename_i o10 h10
  simp only [Prod.mk.injEq, true_and] at hw
  subst hw
  have d1 := QFile.write_ok h1
  have d2 := QFile.write_ok h2
  have d3 := QFile.write_ok h3
  have d4 := QFile.write_ok h4
  have d5 := QFile.write_ok h5
  have d6 := QFile.write_ok h6
  have d8 := QFile.write_ok h8
  have d10 := QFile.write_ok h10
  have hv' : dataVersion ≥ 24 := hv
  cases hc : s.m_colorIsOverriden <;> cases hg : s.m_glTransEnabled
  · simp only [hc, hg, Bool.false_eq_true, if_false, Prod.mk.injEq, true_and] at h7 h9
    subst h7; subst h9
    refine ⟨[boolByte s.m_visible, boolByte s.m_lockedVisibility, boolByte s.m_colorsDisplayed,
      boolByte s.m_normalsDisplayed, boolByte s.m_sfDisplayed, boolByte s.m_colorIsOverriden,
      boolByte s.m_glTransEnabled, boolByte s.m_showNameIn3D], ?_⟩
    simp [fromFile_MeOnly, QFile.read_one, storeBool_one, hc, hg, hv', d10, d8, d6, d5, d4, d3,
      d2, d1]
  · simp only [hc, hg, Bool.false_eq_true, if_false, if_true, Prod.mk.injEq, true_and] at h7 h9
    subst h7
    obtain ⟨mb, hmb, hread⟩ := hmat s.m_glTrans r.m_glTrans _ _ h9
    refine ⟨[boolByte s.m_visible, boolByte s.m_lockedVisibility, boolByte s.m_colorsDisplayed,
      boolByte s.m_normalsDisplayed, boolByte s.m_sfDisplayed, boolByte s.m_colorIsOverriden,
      boolByte s.m_glTransEnabled] ++ (mb ++ [boolByte s.m_showNameIn3D]), ?_⟩
    have hread' := hread (boolByte s.m_showNameIn3D :: rest)
    simp [fromFile_MeOnly, QFile.read_one, storeBool_one, hc, hg, hv', d10, d8, d6, d5, d4, d3,
      d2, d1, hmb, hread']
  · simp only [hc, hg, Bool.false_eq_true, if_false, if_true, Prod.mk.injEq, true_and] at h7 h9
    subst h9
    have d7 := QFile.write_ok h7
    refine ⟨[boolByte s.m_visible, boolByte s.m_lockedVisibility, boolByte s.m_colorsDisplayed,
      boolByte s.m_normalsDisplayed, boolByte s.m_sfDisplayed, boolByte s.m_colorIsOverriden]
      ++ (List.ofFn s.m_tempColor ++ [boolByte s.m_glTransEnabled, boolByte s.m_showNameIn3D]),
      ?_⟩
    simp [fromFile_MeOnly, QFile.read_one, QFile.read_ofFn, storeBool_one, storeBytes_ofFn, hc,
      hg, hv', d10, d8, d7, d6, d5, d4, d3, d2, d1]
  · simp only [hc, hg, if_true] at h7 h9
    have d7 := QFile.write_ok h7
    obtain ⟨mb, hmb, hread⟩ := hmat s.m_glTrans r.m_glTrans _ _ h9
    refine ⟨[boolByte s.m_visible, boolByte s.m_lockedVisibility, boolByte s.m_colorsDisplayed,
      boolByte s.m_normalsDisplayed, boolByte s.m_sfDisplayed, boolByte s.m_colorIsOverriden]
      ++ (List.ofFn s.m_tempColor ++ ([boolByte s.m_glTransEnabled] ++
        (mb ++ [boolByte s.m_showNameIn3D]))), ?_⟩
    have hread' := hread (boolByte s.m_showNameIn3D :: rest)
    simp [fromFile_MeOnly, QFile.read_one, QFile.read_ofFn, storeBool_one, storeBytes_ofFn, hc,
      hg, hv', d10, d8, d7, d6, d5, d4, d3, d2, d1, hmb, hread']

/-- The matrix stored as 64 raw bytes round-trips for every data version from 20 on. -/
theorem rawMatrixFile_roundTrips (dataVersion flags : Int) (hv : 20 ≤ dataVersion) :
    rawMatrixFile.RoundTrips dataVersion flags := by
  intro m m0 out out' hw
  refine ⟨List.ofFn m, QFile.write_ok hw, ?_⟩
  intro rest
  have hlt : ¬ dataVersion < 20 := not_lt.mpr hv
  simp only [rawMatrixFile, if_neg hlt, QFile.read_ofFn, storeBytes_ofFn]

/-- C3 at a concrete state: `drawableExample` written to an empty file and read back at
data version 24 into a freshly built object. -/
theorem fromFile_MeOnly_toFile_MeOnly_witness :
    ∃ (bytes : List Byte) (r' : ccDrawableObject (Fin 64 → Byte) 3),
      (toFile_MeOnly rawMatrixFile drawableExample ⟨[], []⟩).2.data = [] ++ bytes
      ∧ fromFile_MeOnly rawMatrixFile drawableDefault ⟨bytes ++ [7, 7], []⟩ 24 0
          = (true, r', ⟨[7, 7], []⟩)
      ∧ r'.m_visible = drawableExample.m_visible
      ∧ r'.m_lockedVisibility = drawableExample.m_lockedVisibility
      ∧ r'.m_colorsDisplayed = drawableExample.m_colorsDisplayed
      ∧ r'.m_normalsDisplayed = drawableExample.m_normalsDisplayed
      ∧ r'.m_sfDisplayed = drawableExample.m_sfDisplayed
      ∧ r'.m_colorIsOverriden = drawableExample.m_colorIsOverriden
      ∧ (drawableExample.m_colorIsOverriden = true →
          r'.m_tempColor = drawableExample.m_tempColor)
      ∧ r'.m_glTransEnabled = drawableExample.m_glTransEnabled
      ∧ (drawableExample.m_glTransEnabled = true → r'.m_glTrans = drawableExample.m_glTrans)
      ∧ r'.m_showNameIn3D = drawableExample.m_showNameIn3D :=
  fromFile_MeOnly_toFile_MeOnly rawMatrixFile drawableExample drawableDefault ⟨[], []⟩
    (toFile_MeOnly rawMatrixFile drawableExample ⟨[], []⟩).2 [7, 7] 24 0 (by decide)
    (rawMatrixFile_roundTrips 24 0 (by decide)) rfl

end Serialization

namespace Serialization

/-! ## toFile -/

/-- A `write` only appends to the file, whatever it returns. -/
theorem QFile.write_appends (bytes : List Byte) : Appends (fun out => out.write bytes) := by
  intro out
  cases hf : out.faults with
  | nil => exact ⟨bytes, by simp [QFile.write, hf]⟩
  | cons b later =>
    cases b with
    | true => exact ⟨[], by simp [QFile.write, hf]⟩
    | false => exact ⟨bytes, by simp [QFile.write, hf]⟩

/-- What a writer that only appends leaves in the file. -/
theorem Appends.data_eq {w : QFile → Bool × QFile} (hw : Appends w) {out o : QFile}
    {r : Bool} (h : w out = (r, o)) : ∃ bytes : List Byte, o.data = out.data ++ bytes := by
  obtain ⟨b, e⟩ := hw out
  rw [h] at e
  exact ⟨b, e⟩

/-- The count of the first loop of `toFile`: the number of serializable children, modulo
2^32. -/
theorem countSerializable_eq (cs : List ccHObject) :
    ∀ count : Nat, count < 4294967296 →
      countSerializable cs count
        = (count + (cs.filter (fun c => c.isSerializable)).length) % 4294967296 := by
  induction cs with
  | nil =>
    intro count hc
    simp [countSerializable, Nat.mod_eq_of_lt hc]
  | cons c cs ih =>
    intro count hc
    cases hser : c.isSerializable with
    | false => simp [countSerializable, hser, ih count hc]
    | true =>
      simp only [countSerializable, hser, if_true, List.filter_cons_of_pos, List.length_cons]
      rw [ih _ (Nat.mod_lt _ (by decide))]
      omega

/-- With fewer than 2^32 children the count is the number of serializable children. -/
theorem countSerializable_of_lt (cs : List ccHObject) (hlen : cs.length < 4294967296) :
    countSerializable cs 0 = (cs.filter (fun c => c.isSerializable)).length := by
  rw [countSerializable_eq cs 0 (by decide), Nat.zero_add]
  exact Nat.mod_eq_of_lt (lt_of_le_of_lt (List.length_filter_le _ _) hlen)

/-- The four bytes of a count hold its value modulo 2^32. -/
theorem uint32Value_uint32Bytes (n : Nat) : uint32Value (uint32Bytes n) = n % 4294967296 := by
  simp only [uint32Value, uint32Bytes]
  omega

/-- The method `toFile`, unfolded. -/
theorem toFile_eq (n : ccHObject) (out : QFile) :
    toFile n out
      = match n.header out with
        | (false, o1) => (false, o1)
        | (true, o1) =>
        match n.ownData o1 with
        | (false, o2) => (false, o2)
        | (true, o2) =>
        match o2.write (uint32Bytes (countSerializable n.m_children 0)) with
        | (false, o3) => (false, o3)
        | (true, o3) =>
        match toFile_children n.m_children o3 with
        | (false, o4) => (false, o4)
        | (true, o4) =>
        match o4.write n.m_selectionBehavior with
        | (false, o5) => (false, o5)
        | (true, o5) => (true, o5) := by
  cases n with
  | mk header ownData ser sel children =>
    simp only [toFile, ccHObject.header, ccHObject.ownData, ccHObject.m_children,
      ccHObject.m_selectionBehavior]

/-- The loop of `toFile` over the children, unfolded. -/
theorem toFile_children_cons (c : ccHObject) (cs : List ccHObject) (out : QFile) :
    toFile_children (c :: cs) out
      = if c.isSerializable = true then
          match toFile c out with
          | (false, o) => (false, o)
          | (true, o) => toFile_children cs o
        else toFile_children cs out := by
  simp only [toFile_children]

mutual
/-- The method `toFile` only appends to the file when the headers and own data of the
subtree do. -/
theorem toFile_appends : ∀ n : ccHObject, n.WritersAppend → Appends (toFile n)
  | .mk header ownData ser sel children, hw => by
    intro out
    simp only [ccHObject.WritersAppend] at hw
    obtain ⟨hh, ho, hc⟩ := hw
    rw [toFile_eq]
    simp only [ccHObject.header, ccHObject.ownData, ccHObject.m_children,
      ccHObject.m_selectionBehavior]
    split
    · rename_i o1 h1
      exact hh.data_eq h1
    rename_i o1 h1
    obtain ⟨b1, e1⟩ := hh.data_eq h1
    split
    · rename_i o2 h2
      obtain ⟨b2, e2⟩ := ho.data_eq h2
      exact ⟨b1 ++ b2, by simp only [e2, e1, List.append_assoc]⟩
    rename_i o2 h2
    obtain ⟨b2, e2⟩ := ho.data_eq h2
    split
    · rename_i o3 h3
      obtain ⟨b3, e3⟩ := (QFile.write_appends _).data_eq h3
      exact ⟨b1 ++ (b2 ++ b3), by simp only [e3, e2, e1, List.append_assoc]⟩
    rename_i o3 h3
    obtain ⟨b3, e3⟩ := (QFile.write_appends _).data_eq h3
    split
    · rename_i o4 h4
      obtain ⟨b4, e4⟩ := (toFile_children_appends children hc).data_eq h4
      exact ⟨b1 ++ (b2 ++ (b3 ++ b4)), by simp only [e4, e3, e2, e1, List.append_assoc]⟩
    rename_i o4 h4
    obtain ⟨b4, e4⟩ := (toFile_children_appends children hc).data_eq h4
    split
    · rename_i o5 h5
      obtain ⟨b5, e5⟩ := (QFile.write_appends _).data_eq h5
      exact ⟨b1 ++ (b2 ++ (b3 ++ (b4 ++ b5))),
        by simp only [e5, e4, e3, e2, e1, List.append_assoc]⟩
    · rename_i o5 h5
      obtain ⟨b5, e5⟩ := (QFile.write_appends _).data_eq h5
      exact ⟨b1 ++ (b2 ++ (b3 ++ (b4 ++ b5))),
        by simp only [e5, e4, e3, e2, e1, List.append_assoc]⟩
/-- The loop of `toFile` over the children only appends to the file when the headers and
own data of the subtrees do. -/
theorem toFile_children_appends :
    ∀ cs : List ccHObject, WritersAppend_children cs → Appends (toFile_children cs)
  | [], _ => by
    intro out
    exact ⟨[], by simp [toFile_children]⟩
  | c :: cs, hw => by
    intro out
    simp only [WritersAppend_children] at hw
    obtain ⟨hc, hcs⟩ := hw
    rw [toFile_children_cons]
    split
    · split
      · rename_i o h1
        exact (toFile_appends c hc).data_eq h1
      · rename_i o h1
        obtain ⟨b1, e1⟩ := (toFile_appends c hc).data_eq h1
        obtain ⟨b2, e2⟩ := toFile_children_appends cs hcs o
        exact ⟨b1 ++ b2, by simp only [e2, e1, List.append_assoc]⟩
    · exact toFile_children_appends cs hcs out
end

/-- The loop of `toFile` over the children, when it succeeds, appends one record for each
serializable child, in the order of the children, and nothing else. -/
theorem toFile_children_records :
    ∀ (cs : List ccHObject) (out out' : QFile), WritersAppend_children cs →
      toFile_children cs out = (true, out') →
      ∃ records : List (List Byte),
        List.Forall₂ IsRecordOf (cs.filter (fun c => c.isSerializable)) records
          ∧ out'.data = out.data ++ records.flatten := by
  intro cs
  induction cs with
  | nil =>
    intro out out' _ hres
    simp only [toFile_children, Prod.mk.injEq, true_and] at hres
    subst hres
    exact ⟨[], by simp, by simp⟩
  | cons c cs ih =>
    intro out out' hw hres
    simp only [WritersAppend_children] at hw
    obtain ⟨hc, hcs⟩ := hw
    rw [toFile_children_cons] at hres
    cases hser : c.isSerializable with
    | false =>
      rw [hser] at hres
      simp only [Bool.false_eq_true, if_false] at hres
      obtain ⟨records, hrec, hdata⟩ := ih out out' hcs hres
      exact ⟨records, by simpa [hser] using hrec, hdata⟩
    | true =>
      rw [hser] at hres
      simp only [if_true] at hres
      split at hres
      · simp at hres
      · rename_i o h1
        obtain ⟨r, er⟩ := (toFile_appends c hc).data_eq h1
        obtain ⟨records, hrec, hdata⟩ := ih o out' hcs hres
        refine ⟨r :: records, ?_, ?_⟩
        · rw [List.filter_cons_of_pos (by simpa using hser)]
          exact List.Forall₂.cons ⟨out, o, h1, er⟩ hrec
        · simp only [hdata, er, List.flatten_cons, List.append_assoc]

/-- The loop of `toFile` over the children goes on after the children that succeed. -/
theorem toFile_children_append :
    ∀ (pre rest : List ccHObject) (out o : QFile), toFile_children pre out = (true, o) →
      toFile_children (pre ++ rest) out = toFile_children rest o := by
  intro pre
  induction pre with
  | nil =>
    intro rest out o hres
    simp only [toFile_children, Prod.mk.injEq, true_and] at hres
    subst hres
    rfl
  | cons c cs ih =>
    intro rest out o hres
    rw [toFile_children_cons] at hres
    rw [List.cons_append, toFile_children_cons]
    split
    · rename_i hser
      rw [if_pos hser] at hres
      split at hres
      · simp at hres
      · rename_i o1 h1
        exact ih rest o1 o hres
    · rename_i hser
      rw [if_neg hser] at hres
      exact ih rest out o hres

/-- C14: `toFile` on the file `out`. When it returns true (the object has fewer than 2^32
children, and the headers and own data of the subtree are written at the end of the file),
it has appended the header, the own data, the four bytes of the number of serializable
children, one record for each serializable child in the order of the children (the other
children are skipped), and the selection behaviour. It returns false, with the file as the
failing step left it, as soon as the header, the own data, the write of the count, a
serializable child or the write of the selection behaviour fails, and true otherwise. -/
theorem toFile_layout (n : ccHObject) (out : QFile) :
    (∀ out', toFile n out = (true, out') → n.m_children.length < 4294967296 →
      n.WritersAppend →
      ∃ (headerBytes ownBytes : List Byte) (records : List (List Byte)) (o1 o2 : QFile),
        n.header out = (true, o1) ∧ o1.data = out.data ++ headerBytes
        ∧ n.ownData o1 = (true, o2) ∧ o2.data = o1.data ++ ownBytes
        ∧ List.Forall₂ IsRecordOf (n.m_children.filter (fun c => c.isSerializable)) records
        ∧ records.length = (n.m_children.filter (fun c => c.isSerializable)).length
        ∧ uint32Value (uint32Bytes records.length) = records.length
        ∧ out'.data = out.data ++ headerBytes ++ ownBytes ++ uint32Bytes records.length
            ++ records.flatten ++ n.m_selectionBehavior)
    ∧ (∀ o1, n.header out = (false, o1) → toFile n out = (false, o1))
    ∧ (∀ o1 o2, n.header out = (true, o1) → n.ownData o1 = (false, o2) →
        toFile n out = (false, o2))
    ∧ (∀ o1 o2 o3, n.header out = (true, o1) → n.ownData o1 = (true, o2) →
        o2.write (uint32Bytes (countSerializable n.m_children 0)) = (false, o3) →
        toFile n out = (false, o3))
    ∧ (∀ o1 o2 o3 o4, n.header out = (true, o1) → n.ownData o1 = (true, o2) →
        o2.write (uint32Bytes (countSerializable n.m_children 0)) = (true, o3) →
        toFile_children n.m_children o3 = (false, o4) → toFile n out = (false, o4))
    ∧ (∀ (before after : List ccHObject) (c : ccHObject) (o oc o' : QFile),
        toFile_children before o = (true, oc) → c.isSerializable = true →
        toFile c oc = (false, o') →
        toFile_children (before ++ c :: after) o = (false, o'))
    ∧ (∀ o1 o2 o3 o4 o5 (ok : Bool), n.header out = (true, o1) → n.ownData o1 = (true, o2) →
        o2.write (uint32Bytes (countSerializable n.m_children 0)) = (true, o3) →
        toFile_children n.m_children o3 = (true, o4) →
        o4.write n.m_selectionBehavior = (ok, o5) → toFile n out = (ok, o5)) := by
  refine ⟨?_, ?_, ?_, ?_, ?_, ?_, ?_⟩
  · intro out' hres hlen hw
    have hwc : WritersAppend_children n.m_children ∧ Appends n.header ∧ Appends n.ownData := by
      cases n with
      | mk header ownData ser sel children =>
        simp only [ccHObject.WritersAppend] at hw
        exact ⟨hw.2.2, hw.1, hw.2.1⟩
    obtain ⟨hc, hh, ho⟩ := hwc
    rw [toFile_eq] at hres
    split at hres
    · simp at hres
    rename_i o1 h1
    split at hres
    · simp at hres
    rename_i o2 h2
    split at hres
    · simp at hres
    rename_i o3 h3
    split at hres
    · simp at hres
    rename_i o4 h4
    split at hres
    · simp at hres
    rename_i o5 h5
    simp only [Prod.mk.injEq, true_and] at hres
    subst hres
    obtain ⟨hb, e1⟩ := hh.data_eq h1
    obtain ⟨ob, e2⟩ := ho.data_eq h2
    have e3 := QFile.write_ok h3
    obtain ⟨records, hrec, e4⟩ := toFile_children_records _ _ _ hc h4
    have e5 := QFile.write_ok h5
    have hcount : records.length = (n.m_children.filter (fun c => c.isSerializable)).length :=
      (List.Forall₂.length_eq hrec).symm
    have hlt : records.length < 4294967296 := by
      rw [hcount]
      exact lt_of_le_of_lt (List.length_filter_le _ _) hlen
    refine ⟨hb, ob, records, o1, o2, h1, e1, h2, e2, hrec, hcount, ?_, ?_⟩
    · rw [uint32Value_uint32Bytes]
      exact Nat.mod_eq_of_lt hlt
    · rw [e5, e4, e3, e2, e1, countSerializable_of_lt _ hlen, hcount]
  · intro o1 h1
    rw [toFile_eq, h1]
  · intro o1 o2 h1 h2
    rw [toFile_eq, h1]
    simp only [h2]
  · intro o1 o2 o3 h1 h2 h3
    rw [toFile_eq, h1]
    simp only [h2, h3]
  · intro o1 o2 o3 o4 h1 h2 h3 h4
    rw [toFile_eq, h1]
    simp only [h2, h3, h4]
  · intro before after c o oc o' hpre hser hfail
    rw [toFile_children_append before (c :: after) o oc hpre, toFile_children_cons,
      if_pos hser, hfail]
  · intro o1 o2 o3 o4 o5 ok h1 h2 h3 h4 h5
    rw [toFile_eq, h1]
    simp only [h2, h3, h4, h5]
    cases ok <;> rfl

/-- The objects built by `taggedObject` write at the end of the file. -/
theorem taggedObject_writersAppend (tag : Byte) (ser : Bool) (children : List ccHObject)
    (hc : WritersAppend_children children) : (taggedObject tag ser children).WritersAppend := by
  simp only [taggedObject, ccHObject.WritersAppend]
  exact ⟨QFile.write_appends _, QFile.write_appends _, hc⟩

/-- The objects of `groupExample` write at the end of the file. -/
theorem groupExample_writersAppend : groupExample.WritersAppend := by
  apply taggedObject_writersAppend
  simp only [WritersAppend_children, and_true]
  exact ⟨taggedObject_writersAppend _ _ _ (by simp only [WritersAppend_children]),
    taggedObject_writersAppend _ _ _ (by simp only [WritersAppend_children]),
    taggedObject_writersAppend _ _ _ (by simp only [WritersAppend_children])⟩

/-- C14 at a concrete input: `groupExample` written to an empty file. -/
theorem toFile_layout_witness :
    ∃ (headerBytes ownBytes : List Byte) (records : List (List Byte)) (o1 o2 : QFile),
      groupExample.header ⟨[], []⟩ = (true, o1) ∧ o1.data = [] ++ headerBytes
      ∧ groupExample.ownData o1 = (true, o2) ∧ o2.data = o1.data ++ ownBytes
      ∧ List.Forall₂ IsRecordOf
          (groupExample.m_children.filter (fun c => c.isSerializable)) records
      ∧ records.length = (groupExample.m_children.filter (fun c => c.isSerializable)).length
      ∧ uint32Value (uint32Bytes records.length) = records.length
      ∧ (toFile groupExample ⟨[], []⟩).2.data
          = [] ++ headerBytes ++ ownBytes ++ uint32Bytes records.length
            ++ records.flatten ++ groupExample.m_selectionBehavior :=
  (toFile_layout groupExample ⟨[], []⟩).1 (toFile groupExample ⟨[], []⟩).2 rfl (by decide)
    groupExample_writersAppend

/-- The file that `toFile` writes for `groupExample`: header, own data, the count 2, the
records of the first and the third child, the selection behaviour; and what is left when
the fifth write (the own data of the first child) fails. -/
theorem toFile_groupExample :
    (toFile groupExample ⟨[], []⟩).1 = true
      ∧ (toFile groupExample ⟨[], []⟩).2.data
        = [72, 1, 77, 2, 0, 0, 0,
            72, 2, 77, 0, 0, 0, 0, 0, 0, 0, 0,
            72, 4, 77, 0, 0, 0, 0, 0, 0, 0, 0,
            0, 0, 0, 0]
      ∧ (toFile groupExample ⟨[], [false, false, false, false, true]⟩).1 = false
      ∧ (toFile groupExample ⟨[], [false, false, false, false, true]⟩).2.data
        = [72, 1, 77, 2, 0, 0, 0, 72, 2] := by
  decide

/-- A writer that is skipped unless a condition holds only appends when it does. -/
theorem Appends.ite {w : QFile → Bool × QFile} (hw : Appends w) (c : Bool) :
    Appends (fun out => if c = true then w out else (true, out)) := by
  intro out
  cases c with
  | true => simpa using hw out
  | false => exact ⟨[], by simp⟩

/-- The method `toFile_MeOnly` only appends to the file when the matrix does. -/
theorem toFile_MeOnly_appends {Mat : Type} {colorSize : Nat} (mf : ccGLMatrixFile Mat)
    (hmat : ∀ m, Appends (mf.toFile m)) (s : ccDrawableObject Mat colorSize) :
    Appends (toFile_MeOnly mf s) := by
  intro out
  have hcolor := (QFile.write_appends (List.ofFn s.m_tempColor)).ite s.m_colorIsOverriden
  have hmatrix := (hmat s.m_glTrans).ite s.m_glTransEnabled
  unfold toFile_MeOnly
  split
  · rename_i o1 h1
    exact (QFile.write_appends _).data_eq h1
  rename_i o1 h1
  obtain ⟨b1, e1⟩ := (QFile.write_appends _).data_eq h1
  split
  · rename_i o2 h2
    obtain ⟨b2, e2⟩ := (QFile.write_appends _).data_eq h2
    exact ⟨b1 ++ b2, by simp only [e2, e1, List.append_assoc]⟩
  rename_i o2 h2
  obtain ⟨b2, e2⟩ := (QFile.write_appends _).data_eq h2
  split
  · rename_i o3 h3
    obtain ⟨b3, e3⟩ := (QFile.write_appends _).data_eq h3
    exact ⟨b1 ++ (b2 ++ b3), by simp only [e3, e2, e1, List.append_assoc]⟩
  rename_i o3 h3
  obtain ⟨b3, e3⟩ := (QFile.write_appends _).data_eq h3
  split
  · rename_i o4 h4
    obtain ⟨b4, e4⟩ := (QFile.write_appends _).data_eq h4
    exact ⟨b1 ++ (b2 ++ (b3 ++ b4)), by simp only [e4, e3, e2, e1, List.append_assoc]⟩
  rename_i o4 h4
  obtain ⟨b4, e4⟩ := (QFile.write_appends _).data_eq h4
  split
  · rename_i o5 h5
    obtain ⟨b5, e5⟩ := (QFile.write_appends _).data_eq h5
    exact ⟨b1 ++ (b2 ++ (b3 ++ (b4 ++ b5))),
      by simp only [e5, e4, e3, e2, e1, List.append_assoc]⟩
  rename_i o5 h5
  obtain ⟨b5, e5⟩ := (QFile.write_appends _).data_eq h5
  split
  · rename_i o6 h6
    obtain ⟨b6, e6⟩ := (QFile.write_appends _).data_eq h6
    exact ⟨b1 ++ (b2 ++ (b3 ++ (b4 ++ (b5 ++ b6)))),
      by simp only [e6, e5, e4, e3, e2, e1, List.append_assoc]⟩
  rename_i o6 h6
  obtain ⟨b6, e6⟩ := (QFile.write_appends _).data_eq h6
  split
  · rename_i o7 h7
    obtain ⟨b7, e7⟩ := hcolor.data_eq h7
    exact ⟨b1 ++ (b2 ++ (b3 ++ (b4 ++ (b5 ++ (b6 ++ b7))))),
      by simp only [e7, e6, e5, e4, e3, e2, e1, List.append_assoc]⟩
  rename_i o7 h7
  obtain ⟨b7, e7⟩ := hcolor.data_eq h7
  split
  · rename_i o8 h8
    obtain ⟨b8, e8⟩ := (QFile.write_appends _).data_eq h8
    exact ⟨b1 ++ (b2 ++ (b3 ++ (b4 ++ (b5 ++ (b6 ++ (b7 ++ b8)))))),
      by simp only [e8, e7, e6, e5, e4, e3, e2, e1, List.append_assoc]⟩
  rename_i o8 h8
  obtain ⟨b8, e8⟩ := (QFile.write_appends _).data_eq h8
  split
  · rename_i o9 h9
    obtain ⟨b9, e9⟩ := hmatrix.data_eq h9
    exact ⟨b1 ++ (b2 ++ (b3 ++ (b4 ++ (b5 ++ (b6 ++ (b7 ++ (b8 ++ b9))))))),
      by simp only [e9, e8, e7, e6, e5, e4, e3, e2, e1, List.append_assoc]⟩
  rename_i o9 h9
  obtain ⟨b9, e9⟩ := hmatrix.data_eq h9
  split
  · rename_i o10 h10
    obtain ⟨b10, e10⟩ := (QFile.write_appends _).data_eq h10
    exact ⟨b1 ++ (b2 ++ (b3 ++ (b4 ++ (b5 ++ (b6 ++ (b7 ++ (b8 ++ (b9 ++ b10)))))))),
      by simp only [e10, e9, e8, e7, e6, e5, e4, e3, e2, e1, List.append_assoc]⟩
  · rename_i o10 h10
    obtain ⟨b10, e10⟩ := (QFile.write_appends _).data_eq h10
    exact ⟨b1 ++ (b2 ++ (b3 ++ (b4 ++ (b5 ++ (b6 ++ (b7 ++ (b8 ++ (b9 ++ b10)))))))),
      by simp only [e10, e9, e8, e7, e6, e5, e4, e3, e2, e1, List.append_assoc]⟩

/-- A plain `ccHObject` writes at the end of the file when its header, the matrix and its
children do. -/
theorem plainObject_writersAppend {Mat : Type} {colorSize : Nat} (mf : ccGLMatrixFile Mat)
    (hmat : ∀ m, Appends (mf.toFile m)) (s : ccDrawableObject Mat colorSize)
    (header : QFile → Bool × QFile) (hheader : Appends header) (sel : List Byte)
    (children : List ccHObject) (hc : WritersAppend_children children) :
    (plainObject mf s header sel children).WritersAppend := by
  simp only [plainObject, ccHObject.WritersAppend]
  exact ⟨hheader, toFile_MeOnly_appends mf hmat s, hc⟩

end Serialization
namespace ObjectGraph

/-! ## Bits of integers -/

/-- Two integers with the same bits are equal. -/
theorem int_eq_of_testBit_eq {a b : Int} (h : ∀ k, Int.testBit a k = Int.testBit b k) :
    a = b := by
  cases a with
  | ofNat m =>
    cases b with
    | ofNat n =>
      congr 1
      exact Nat.eq_of_testBit_eq h
    | negSucc n =>
      exfalso
      have h1 := h (max m n)
      have hm : Nat.testBit m (max m n) = false :=
        Nat.testBit_lt_two_pow (lt_of_le_of_lt (le_max_left m n) (Nat.lt_two_pow _))
      have hn : Nat.testBit n (max m n) = false :=
        Nat.testBit_lt_two_pow (lt_of_le_of_lt (le_max_right m n) (Nat.lt_two_pow _))
      simp [Int.testBit, hm, hn] at h1
  | negSucc m =>
    cases b with
    | ofNat n =>
      exfalso
      have h1 := h (max m n)
      have hm : Nat.testBit m (max m n) = false :=
        Nat.testBit_lt_two_pow (lt_of_le_of_lt (le_max_left m n) (Nat.lt_two_pow _))
      have hn : Nat.testBit n (max m n) = false :=
        Nat.testBit_lt_two_pow (lt_of_le_of_lt (le_max_right m n) (Nat.lt_two_pow _))
      simp [Int.testBit, hm, hn] at h1
    | negSucc n =>
      congr 1
      apply Nat.eq_of_testBit_eq
      intro k
      have h1 := h k
      simpa [Int.testBit] using h1

/-- After `flags |= current` the bits of `flags` are set. -/
theorem hasFlag_lor_left (a b : Int) : hasFlag (Int.lor a b) a = true := by
  simp only [hasFlag, decide_eq_true_eq]
  apply int_eq_of_testBit_eq
  intro k
  rw [Int.testBit_land, Int.testBit_lor]
  cases Int.testBit a k <;> cases Int.testBit b k <;> rfl

/-- After `flags |= current` the bits of `current` are set. -/
theorem hasFlag_lor_right (a b : Int) : hasFlag (Int.lor a b) b = true := by
  simp only [hasFlag, decide_eq_true_eq]
  apply int_eq_of_testBit_eq
  intro k
  rw [Int.testBit_land, Int.testBit_lor]
  cases Int.testBit a k <;> cases Int.testBit b k <;> rfl

/-- Every value holds its own bits. -/
theorem hasFlag_self (a : Int) : hasFlag a a = true := by
  simp only [hasFlag, decide_eq_true_eq]
  apply int_eq_of_testBit_eq
  intro k
  rw [Int.testBit_land]
  cases Int.testBit a k <;> rfl

/-- Holding the bits of a value is transitive. -/
theorem hasFlag_trans {a b c : Int} (h1 : hasFlag c b = true) (h2 : hasFlag b a = true) :
    hasFlag c a = true := by
  simp only [hasFlag, decide_eq_true_eq] at h1 h2 ⊢
  apply int_eq_of_testBit_eq
  intro k
  have e1 := congrArg (fun x => Int.testBit x k) h1
  have e2 := congrArg (fun x => Int.testBit x k) h2
  simp only [Int.testBit_land] at e1 e2
  rw [Int.testBit_land]
  revert e1 e2
  cases Int.testBit a k <;> cases Int.testBit b k <;> cases Int.testBit c k <;> simp

/-- The value 0 holds no bit of a value other than 0. -/
theorem hasFlag_zero_left {a : Int} (h : a ≠ 0) : hasFlag 0 a = false := by
  simp only [hasFlag, decide_eq_false_iff_not]
  intro h0
  apply h
  rw [← h0]
  apply int_eq_of_testBit_eq
  intro k
  have hz : Int.testBit 0 k = false := by
    show Nat.testBit 0 k = false
    simp
  rw [Int.testBit_land, hz]
  rfl

/-! ## The dependency map -/

/-- The value just assigned is found. -/
theorem mapFind_mapAssign_self (m : DependencyMap) (k : ObjId) (v : Int) :
    mapFind (mapAssign m k v) k = some v := by
  induction m with
  | nil => simp [mapAssign, mapFind]
  | cons e rest ih =>
    obtain ⟨k', v'⟩ := e
    unfold mapAssign
    by_cases h1 : k = k'
    · simp [h1, mapFind]
    · by_cases h2 : k < k'
      · simp [h1, h2, mapFind]
      · simp [h1, h2, mapFind, ih]

/-- An assignment leaves the other keys as they are. -/
theorem mapFind_mapAssign_ne (m : DependencyMap) {k k' : ObjId} (v : Int) (h : k' ≠ k) :
    mapFind (mapAssign m k v) k' = mapFind m k' := by
  induction m with
  | nil => simp [mapAssign, mapFind, h]
  | cons e rest ih =>
    obtain ⟨k0, v0⟩ := e
    unfold mapAssign
    by_cases h1 : k = k0
    · subst h1
      simp [mapFind, h]
    · by_cases h2 : k < k0
      · simp [h1, h2, mapFind, h]
      · simp [h1, h2, mapFind, ih]

/-- An erased key is not found. -/
theorem mapFind_mapErase_self (m : DependencyMap) (k : ObjId) :
    mapFind (mapErase m k) k = none := by
  induction m with
  | nil => simp [mapErase, mapFind]
  | cons e rest ih =>
    obtain ⟨k0, v0⟩ := e
    by_cases h1 : k0 = k
    · simpa [mapErase, List.filter_cons, h1] using ih
    · have h2 : k ≠ k0 := fun e => h1 e.symm
      simpa [mapErase, List.filter_cons, h1, mapFind, h2] using ih

/-- An erasure leaves the other keys as they are. -/
theorem mapFind_mapErase_ne (m : DependencyMap) {k k' : ObjId} (h : k' ≠ k) :
    mapFind (mapErase m k) k' = mapFind m k' := by
  induction m with
  | nil => simp [mapErase, mapFind]
  | cons e rest ih =>
    obtain ⟨k0, v0⟩ := e
    by_cases h1 : k0 = k
    · subst h1
      simpa [mapErase, List.filter_cons, mapFind, h] using ih
    · by_cases h2 : k' = k0
      · simp [mapErase, List.filter_cons, h1, mapFind, h2]
      · simpa [mapErase, List.filter_cons, h1, mapFind, h2] using ih

/-- An erasure adds no entry. -/
theorem mapFind_mapErase_none (m : DependencyMap) (k k' : ObjId)
    (h : mapFind m k' = none) : mapFind (mapErase m k) k' = none := by
  by_cases hk : k' = k
  · subst hk
    exact mapFind_mapErase_self m k'
  · rw [mapFind_mapErase_ne m hk]
    exact h

/-! ## The heap -/

/-- The object at the address just written. -/
@[simp] theorem Heap.set_objects_self (h : Heap) (x : ObjId) (o : ccHObject) :
    (h.set x o).objects x = o := by
  simp [Heap.set]

/-- The objects at the other addresses. -/
theorem Heap.set_objects_ne (h : Heap) {x y : ObjId} (o : ccHObject) (hne : y ≠ x) :
    (h.set x o).objects y = h.objects y := by
  simp [Heap.set, hne]

/-- The object at any address after a write. -/
theorem Heap.set_objects (h : Heap) (x y : ObjId) (o : ccHObject) :
    (h.set x o).objects y = if y = x then o else h.objects y := rfl

/-- A write deletes nothing. -/
@[simp] theorem Heap.set_deleted (h : Heap) (x : ObjId) (o : ccHObject) :
    (h.set x o).deleted = h.deleted := rfl

/-- The dependency map at the address just written. -/
@[simp] theorem Heap.setDependencies_self (h : Heap) (x : ObjId) (m : DependencyMap) :
    ((h.setDependencies x m).objects x).m_dependencies = m := by
  simp [Heap.setDependencies]

/-- The objects at the other addresses after a dependency map is written. -/
theorem Heap.setDependencies_ne (h : Heap) {x y : ObjId} (m : DependencyMap) (hne : y ≠ x) :
    (h.setDependencies x m).objects y = h.objects y := by
  simp [Heap.setDependencies, Heap.set, hne]

/-- Writing a dependency map changes dependency maps only. -/
theorem Heap.sameButDependencies_setDependencies (h : Heap) (x : ObjId) (m : DependencyMap) :
    h.sameButDependencies (h.setDependencies x m) := by
  refine ⟨rfl, fun z => ?_⟩
  by_cases hz : z = x
  · subst hz
    simp [Heap.setDependencies]
  · simp [Heap.setDependencies, Heap.set, hz]

/-- Nothing differs from itself. -/
theorem Heap.sameButDependencies_refl (h : Heap) : h.sameButDependencies h :=
  ⟨rfl, fun _ => ⟨rfl, rfl, rfl, rfl, rfl⟩⟩

/-- Differing in dependency maps only is transitive. -/
theorem Heap.sameButDependencies_trans {h1 h2 h3 : Heap} (h12 : h1.sameButDependencies h2)
    (h23 : h2.sameButDependencies h3) : h1.sameButDependencies h3 := by
  refine ⟨h23.1.trans h12.1, fun z => ?_⟩
  obtain ⟨a1, a2, a3, a4, a5⟩ := h12.2 z
  obtain ⟨b1, b2, b3, b4, b5⟩ := h23.2 z
  exact ⟨b1.trans a1, b2.trans a2, b3.trans a3, b4.trans a4, b5.trans a5⟩

/-- Every heap grows into itself. -/
theorem Heap.dependenciesGrow_refl (h : Heap) : h.dependenciesGrow h :=
  fun _ _ v hv => ⟨v, hv, hasFlag_self v⟩

/-- Growth of the dependency entries is transitive. -/
theorem Heap.dependenciesGrow_trans {h1 h2 h3 : Heap} (h12 : h1.dependenciesGrow h2)
    (h23 : h2.dependenciesGrow h3) : h1.dependenciesGrow h3 := by
  intro z k v hv
  obtain ⟨v2, hv2, hf2⟩ := h12 z k v hv
  obtain ⟨v3, hv3, hf3⟩ := h23 z k v2 hv2
  exact ⟨v3, hv3, hasFlag_trans hf3 hf2⟩

/-- Assigning to an entry a value that holds the bits of the former one makes the
dependency entries grow. -/
theorem Heap.dependenciesGrow_assign (h : Heap) (x y : ObjId) (v : Int)
    (hv : ∀ cur, mapFind (h.objects x).m_dependencies y = some cur → hasFlag v cur = true) :
    h.dependenciesGrow
      (h.setDependencies x (mapAssign (h.objects x).m_dependencies y v)) := by
  intro z k w hw
  by_cases hz : z = x
  · subst hz
    by_cases hk : k = y
    · subst hk
      exact ⟨v, by simp [mapFind_mapAssign_self], hv w hw⟩
    · exact ⟨w, by simp [mapFind_mapAssign_ne _ _ hk, hw], hasFlag_self w⟩
  · exact ⟨w, by rw [Heap.setDependencies_ne h _ hz]; exact hw, hasFlag_self w⟩

/-! ## addDependency -/

/-- One call of `addDependency` on a non-null object: either it returns at once, the heap
unchanged (the flags are not positive, or `additive` is set and the flags held already
contain `flags`), or it assigns to the entry a value `v` that contains `flags` (and the
former value, when `additive` is set) and goes on with the call on the other object. -/
theorem addDependency_unfold (F : DEPENDENCY_FLAGS) (fuel : Nat) (h : Heap)
    (self other : ObjId) (flags : Int) (additive : Bool) :
    (addDependency F (fuel + 1) h self (some other) flags additive = some h
        ∧ (flags ≤ 0 ∨ (additive = true ∧ h.holds self other flags)))
      ∨ (0 < flags ∧ ¬ (additive = true ∧ h.holds self other flags)
        ∧ ∃ v, hasFlag v flags = true
          ∧ (additive = true → ∀ cur,
              mapFind (h.objects self).m_dependencies other = some cur → hasFlag v cur = true)
          ∧ addDependency F (fuel + 1) h self (some other) flags additive
            = addDependency F fuel
                (h.setDependencies self (mapAssign (h.objects self).m_dependencies other v))
                other (some self) F.DP_NOTIFY_OTHER_ON_DELETE true) := by
  by_cases hneg : flags < 0
  · left
    exact ⟨by simp [addDependency, hneg], Or.inl (le_of_lt hneg)⟩
  by_cases hzero : flags = 0
  · left
    exact ⟨by simp [addDependency, hzero], Or.inl (le_of_eq hzero)⟩
  have hpos : 0 < flags := lt_of_le_of_ne (not_lt.mp hneg) (Ne.symm hzero)
  cases additive with
  | false =>
    right
    refine ⟨hpos, by simp, flags, hasFlag_self flags, by simp, ?_⟩
    simp [addDependency, hneg, hzero]
  | true =>
    cases hfind : mapFind (h.objects self).m_dependencies other with
    | none =>
      right
      refine ⟨hpos, ?_, flags, hasFlag_self flags, ?_, ?_⟩
      · simp [Heap.holds, hfind]
      · simp
      · simp [addDependency, hneg, hzero, hfind]
    | some cur =>
      by_cases hcur : hasFlag cur flags = true
      · left
        refine ⟨by simp [addDependency, hneg, hzero, hfind, hcur], Or.inr ⟨rfl, cur, hfind, hcur⟩⟩
      · right
        refine ⟨hpos, ?_, Int.lor flags cur, hasFlag_lor_left flags cur, ?_, ?_⟩
        · simp only [Heap.holds, hfind, true_and, not_exists, not_and]
          intro v hv
          cases hv
          exact hcur
        · intro _ cur' hcur'
          cases hcur'
          exact hasFlag_lor_right flags cur
        · simp [addDependency, hneg, hzero, hfind, hcur]

/-- The call `addDependency(NULL, ...)` returns at once. -/
theorem addDependency_null (F : DEPENDENCY_FLAGS) (fuel : Nat) (h : Heap) (self : ObjId)
    (flags : Int) (additive : Bool) :
    addDependency F (fuel + 1) h self none flags additive = some h := by
  simp [addDependency]

/-- The method `addDependency` changes dependency maps only. -/
theorem addDependency_sameButDependencies (F : DEPENDENCY_FLAGS) (fuel : Nat) :
    ∀ (h h' : Heap) (self : ObjId) (other : Option ObjId) (flags : Int) (additive : Bool),
      addDependency F fuel h self other flags additive = some h' →
      h.sameButDependencies h' := by
  induction fuel with
  | zero =>
    intro h h' self other flags additive hres
    simp [addDependency] at hres
  | succ fuel ih =>
    intro h h' self other flags additive hres
    cases other with
    | none =>
      rw [addDependency_null] at hres
      cases hres
      exact Heap.sameButDependencies_refl h
    | some other =>
      rcases addDependency_unfold F fuel h self other flags additive with
        ⟨h0, _⟩ | ⟨_, _, v, _, _, hrec⟩
      · rw [h0] at hres
        cases hres
        exact Heap.sameButDependencies_refl h
      · rw [hrec] at hres
        exact Heap.sameButDependencies_trans
          (Heap.sameButDependencies_setDependencies h self _) (ih _ _ _ _ _ _ hres)

/-- An additive call of `addDependency` removes no entry and no bit. -/
theorem addDependency_dependenciesGrow (F : DEPENDENCY_FLAGS) (fuel : Nat) :
    ∀ (h h' : Heap) (self : ObjId) (other : Option ObjId) (flags : Int),
      addDependency F fuel h self other flags true = some h' → h.dependenciesGrow h' := by
  induction fuel with
  | zero =>
    intro h h' self other flags hres
    simp [addDependency] at hres
  | succ fuel ih =>
    intro h h' self other flags hres
    cases other with
    | none =>
      rw [addDependency_null] at hres
      cases hres
      exact Heap.dependenciesGrow_refl h
    | some other =>
      rcases addDependency_unfold F fuel h self other flags true with
        ⟨h0, _⟩ | ⟨_, _, v, _, hv, hrec⟩
      · rw [h0] at hres
        cases hres
        exact Heap.dependenciesGrow_refl h
      · rw [hrec] at hres
        exact Heap.dependenciesGrow_trans
          (Heap.dependenciesGrow_assign h self other v (hv rfl)) (ih _ _ _ _ _ hres)

/-- After `addDependency(other, flags)` with positive flags, the flags held with `other`
contain `flags`. -/
theorem addDependency_holds (F : DEPENDENCY_FLAGS) (fuel : Nat) (h h' : Heap)
    (self other : ObjId) (flags : Int) (additive : Bool) (hpos : 0 < flags)
    (hres : addDependency F fuel h self (some other) flags additive = some h') :
    h'.holds self other flags := by
  cases fuel with
  | zero => simp [addDependency] at hres
  | succ fuel =>
    rcases addDependency_unfold F fuel h self other flags additive with
      ⟨h0, hwhy⟩ | ⟨_, _, v, hvf, _, hrec⟩
    · rw [h0] at hres
      cases hres
      rcases hwhy with hle | ⟨_, hh⟩
      · exact absurd hpos (not_lt.mpr hle)
      · exact hh
    · rw [hrec] at hres
      have hgrow := addDependency_dependenciesGrow F fuel _ _ _ _ _ hres
      obtain ⟨v', hv', hf'⟩ := hgrow self other v (by simp [mapFind_mapAssign_self])
      exact ⟨v', hv', hasFlag_trans hf' hvf⟩

/-- A notification request that is already satisfied returns at once. -/
theorem addDependency_notify_of_holds (F : DEPENDENCY_FLAGS) (fuel : Nat) (h : Heap)
    (x y : ObjId) (hh : h.holds x y F.DP_NOTIFY_OTHER_ON_DELETE) :
    addDependency F (fuel + 1) h x (some y) F.DP_NOTIFY_OTHER_ON_DELETE true = some h := by
  rcases addDependency_unfold F fuel h x y F.DP_NOTIFY_OTHER_ON_DELETE true with
    ⟨h0, _⟩ | ⟨_, hnot, _⟩
  · exact h0
  · exact absurd ⟨rfl, hh⟩ hnot

/-- Assigning a value that contains `flags` makes the entry hold `flags`. -/
theorem Heap.holds_assign (h : Heap) (x y : ObjId) (v flags : Int)
    (hv : hasFlag v flags = true) :
    (h.setDependencies x (mapAssign (h.objects x).m_dependencies y v)).holds x y flags :=
  ⟨v, by simp [mapFind_mapAssign_self], hv⟩

/-- A notification request returns within two calls when the other object is already
notified. -/
theorem addDependency_notify_of_holds_back (F : DEPENDENCY_FLAGS) (fuel : Nat) (h : Heap)
    (x y : ObjId) (hh : h.holds y x F.DP_NOTIFY_OTHER_ON_DELETE) :
    ∃ h', addDependency F (fuel + 2) h x (some y) F.DP_NOTIFY_OTHER_ON_DELETE true
      = some h' := by
  rcases addDependency_unfold F (fuel + 1) h x y F.DP_NOTIFY_OTHER_ON_DELETE true with
    ⟨h0, _⟩ | ⟨_, _, v, hvf, _, hrec⟩
  · exact ⟨h, h0⟩
  · rw [hrec]
    refine ⟨_, addDependency_notify_of_holds F fuel _ y x ?_⟩
    by_cases hxy : y = x
    · subst hxy
      exact Heap.holds_assign h y y v _ hvf
    · obtain ⟨w, hw, hwf⟩ := hh
      exact ⟨w, by rw [Heap.setDependencies_ne h _ hxy]; exact hw, hwf⟩

/-- A notification request returns within three calls. -/
theorem addDependency_notify_total (F : DEPENDENCY_FLAGS) (fuel : Nat) (h : Heap)
    (x y : ObjId) :
    ∃ h', addDependency F (fuel + 3) h x (some y) F.DP_NOTIFY_OTHER_ON_DELETE true
      = some h' := by
  rcases addDependency_unfold F (fuel + 2) h x y F.DP_NOTIFY_OTHER_ON_DELETE true with
    ⟨h0, _⟩ | ⟨_, _, v, hvf, _, hrec⟩
  · exact ⟨h, h0⟩
  · rw [hrec]
    exact addDependency_notify_of_holds_back F fuel _ y x (Heap.holds_assign h x y v _ hvf)

/-- The method `addDependency` returns: the calls it makes on the two objects are never
nested more than four deep. -/
theorem addDependency_total (F : DEPENDENCY_FLAGS) (fuel : Nat) (hfuel : 4 ≤ fuel) (h : Heap)
    (self : ObjId) (other : Option ObjId) (flags : Int) (additive : Bool) :
    ∃ h', addDependency F fuel h self other flags additive = some h' := by
  obtain ⟨n, rfl⟩ : ∃ n, fuel = n + 4 := ⟨fuel - 4, by omega⟩
  cases other with
  | none => exact ⟨h, addDependency_null F _ h self flags additive⟩
  | some other =>
    rcases addDependency_unfold F (n + 3) h self other flags additive with
      ⟨h0, _⟩ | ⟨_, _, v, _, _, hrec⟩
    · exact ⟨h, h0⟩
    · rw [hrec]
      exact addDependency_notify_total F n _ other self

/-- The flags read by `getDependencyFlagsWith` contain positive `flags` exactly when the
entry exists and contains them. -/
theorem hasFlag_getDependencyFlagsWith (h : Heap) (x y : ObjId) (flags : Int)
    (hpos : 0 < flags) :
    hasFlag (getDependencyFlagsWith h x y) flags = true ↔ h.holds x y flags := by
  unfold getDependencyFlagsWith Heap.holds
  cases hfind : mapFind (h.objects x).m_dependencies y with
  | none => simp [hasFlag_zero_left (ne_of_gt hpos)]
  | some v => simp

/-- C4, as amended: `A.addDependency(B, flags, additive)` with positive flags returns;
when `additive` is set and the flags that A already holds with B contain every bit of
`flags`, the heap is unchanged; in every other case the flags that B holds with A
afterwards contain `DP_NOTIFY_OTHER_ON_DELETE`. -/
theorem addDependency_notifies_unless_unchanged (F : DEPENDENCY_FLAGS)
    (hN : 0 < F.DP_NOTIFY_OTHER_ON_DELETE) (fuel : Nat) (hfuel : 4 ≤ fuel) (h : Heap)
    (A B : ObjId) (flags : Int) (hflags : 0 < flags) (additive : Bool) :
    ∃ h', addDependency F fuel h A (some B) flags additive = some h'
      ∧ ((additive = true ∧ hasFlag (getDependencyFlagsWith h A B) flags = true) → h' = h)
      ∧ (¬ (additive = true ∧ hasFlag (getDependencyFlagsWith h A B) flags = true) →
          hasFlag (getDependencyFlagsWith h' B A) F.DP_NOTIFY_OTHER_ON_DELETE = true) := by
  obtain ⟨h', hres⟩ := addDependency_total F fuel hfuel h A (some B) flags additive
  refine ⟨h', hres, ?_, ?_⟩
  · obtain ⟨n, rfl⟩ : ∃ n, fuel = n + 1 := ⟨fuel - 1, by omega⟩
    rintro ⟨hadd, hhas⟩
    rw [hasFlag_getDependencyFlagsWith h A B flags hflags] at hhas
    rcases addDependency_unfold F n h A B flags additive with ⟨h0, _⟩ | ⟨_, hnot, _⟩
    · rw [h0] at hres
      cases hres
      rfl
    · exact absurd ⟨hadd, hhas⟩ hnot
  · obtain ⟨n, rfl⟩ : ∃ n, fuel = n + 1 := ⟨fuel - 1, by omega⟩
    intro hnot
    rw [hasFlag_getDependencyFlagsWith h A B flags hflags] at hnot
    rw [hasFlag_getDependencyFlagsWith h' B A _ hN]
    rcases addDependency_unfold F n h A B flags additive with
      ⟨_, hwhy⟩ | ⟨_, _, v, _, _, hrec⟩
    · rcases hwhy with hle | hh
      · exact absurd hflags (not_lt.mpr hle)
      · exact absurd hh hnot
    · rw [hrec] at hres
      exact addDependency_holds F n _ h' B A _ true hN hres

/-- C4, as amended, at a concrete input: object 1 adds the dependency `DP_DELETE_OTHER`
on object 2 in a heap of fresh objects. -/
theorem addDependency_notifies_unless_unchanged_witness :
    ∃ h', addDependency headerFlags 4 freshHeap 1 (some 2) 8 true = some h'
      ∧ ((true = true ∧ hasFlag (getDependencyFlagsWith freshHeap 1 2) 8 = true) →
          h' = freshHeap)
      ∧ (¬ (true = true ∧ hasFlag (getDependencyFlagsWith freshHeap 1 2) 8 = true) →
          hasFlag (getDependencyFlagsWith h' 2 1) headerFlags.DP_NOTIFY_OTHER_ON_DELETE
            = true) :=
  addDependency_notifies_unless_unchanged headerFlags (by decide) 4 (by decide) freshHeap
    1 2 8 (by decide) true

/-- C4, as stated, fails: object 1 adds `DP_DELETE_OTHER` on object 2, object 2 then drops
its dependency with object 1 (`removeDependencyWith`); when object 1 adds the same
dependency again, the call returns at once and object 2 holds no flag with object 1,
so not `DP_NOTIFY_OTHER_ON_DELETE`. -/
theorem addDependency_again_not_notified :
    ((addDependency headerFlags 4 freshHeap 1 (some 2) 8 true).bind fun h1 =>
      addDependency headerFlags 4 (removeDependencyWith h1 2 1) 1 (some 2) 8 true).map
        (fun h => (getDependencyFlagsWith h 1 2, getDependencyFlagsWith h 2 1,
          hasFlag (getDependencyFlagsWith h 2 1) headerFlags.DP_NOTIFY_OTHER_ON_DELETE))
      = some (9, 0, false) := by
  decide

/-! ## addChild -/

/-- The children of every object after `self->m_children = cs`. -/
theorem Heap.setChildren_children (h : Heap) (x y : ObjId) (cs : List ObjId) :
    ((h.setChildren x cs).objects y).m_children
      = if y = x then cs else (h.objects y).m_children := by
  by_cases hy : y = x
  · subst hy
    simp [Heap.setChildren]
  · simp [Heap.setChildren, Heap.set, hy]

/-- Writing `m_children` leaves the dependency maps as they are. -/
@[simp] theorem Heap.setChildren_dependencies (h : Heap) (x y : ObjId) (cs : List ObjId) :
    ((h.setChildren x cs).objects y).m_dependencies = (h.objects y).m_dependencies := by
  by_cases hy : y = x
  · subst hy
    simp [Heap.setChildren]
  · simp [Heap.setChildren, Heap.set, hy]

/-- Writing `m_children` leaves the parents as they are. -/
@[simp] theorem Heap.setChildren_parent (h : Heap) (x y : ObjId) (cs : List ObjId) :
    ((h.setChildren x cs).objects y).m_parent = (h.objects y).m_parent := by
  by_cases hy : y = x
  · subst hy
    simp [Heap.setChildren]
  · simp [Heap.setChildren, Heap.set, hy]

/-- Writing `m_children` deletes nothing. -/
@[simp] theorem Heap.setChildren_deleted (h : Heap) (x : ObjId) (cs : List ObjId) :
    (h.setChildren x cs).deleted = h.deleted := rfl

/-- The parents after `setParent`. -/
theorem setParent_parent (h : Heap) (x y : ObjId) (p : Option ObjId) :
    ((setParent h x p).objects y).m_parent = if y = x then p else (h.objects y).m_parent := by
  by_cases hy : y = x
  · subst hy
    simp [setParent]
  · simp [setParent, Heap.set, hy]

/-- The method `setParent` leaves the dependency maps as they are. -/
@[simp] theorem setParent_dependencies (h : Heap) (x y : ObjId) (p : Option ObjId) :
    ((setParent h x p).objects y).m_dependencies = (h.objects y).m_dependencies := by
  by_cases hy : y = x
  · subst hy
    simp [setParent]
  · simp [setParent, Heap.set, hy]

/-- The method `setParent` leaves the children as they are. -/
@[simp] theorem setParent_children (h : Heap) (x y : ObjId) (p : Option ObjId) :
    ((setParent h x p).objects y).m_children = (h.objects y).m_children := by
  by_cases hy : y = x
  · subst hy
    simp [setParent]
  · simp [setParent, Heap.set, hy]

/-- The method `setParent` deletes nothing. -/
@[simp] theorem setParent_deleted (h : Heap) (x : ObjId) (p : Option ObjId) :
    (setParent h x p).deleted = h.deleted := rfl

/-- The objects are the same once an insertion has been tried. -/
@[simp] theorem Heap.afterInsertion_objects (h : Heap) :
    h.afterInsertion.objects = h.objects := rfl

/-- Trying an insertion deletes nothing. -/
@[simp] theorem Heap.afterInsertion_deleted (h : Heap) :
    h.afterInsertion.deleted = h.deleted := rfl

/-- The method `addChild` when the insertion throws `std::bad_alloc`: false is returned
and no object has changed. -/
theorem addChild_bad_alloc (F : DEPENDENCY_FLAGS) (S : CCShareable) (fuel : Nat) (h : Heap)
    (self c : ObjId) (dependencyFlags insertIndex : Int)
    (hleaf : (h.objects self).isLeaf = false) (hmem : h.bad_alloc.head? = some true) :
    addChild F S fuel h self (some c) dependencyFlags insertIndex
      = some (false, h.afterInsertion) := by
  simp only [addChild, hleaf, Bool.false_eq_true, if_false, hmem, if_true]

/-- The steps of a successful `addChild` (the insertion does not throw): the insertion
gives `h1`, the request for a notification by the child gives `h2`, the dependency on the
child gives `h3`, and the result differs from `h3` by the child's parent (and link count)
only. -/
theorem addChild_steps (F : DEPENDENCY_FLAGS) (S : CCShareable) (fuel : Nat)
    (hfuel : 4 ≤ fuel) (h : Heap) (self c : ObjId) (dependencyFlags insertIndex : Int)
    (hleaf : (h.objects self).isLeaf = false) (hmem : h.bad_alloc.head? ≠ some true) :
    ∃ h2 h3 h',
      addChild F S fuel h self (some c) dependencyFlags insertIndex = some (true, h')
      ∧ addDependency F fuel
          (h.afterInsertion.setChildren self
            (if insertIndex < 0 ∨ insertIndex.toNat ≥ (h.objects self).m_children.length then
              (h.objects self).m_children ++ [c]
            else (h.objects self).m_children.take insertIndex.toNat
              ++ c :: (h.objects self).m_children.drop insertIndex.toNat))
          c (some self) F.DP_NOTIFY_OTHER_ON_DELETE true = some h2
      ∧ (if dependencyFlags ≠ 0 then addDependency F fuel h2 self (some c) dependencyFlags true
          else some h2) = some h3
      ∧ h'.deleted = h3.deleted
      ∧ (∀ z, (h'.objects z).m_dependencies = (h3.objects z).m_dependencies)
      ∧ (∀ z, (h'.objects z).m_children = (h3.objects z).m_children)
      ∧ (∀ z, (h'.objects z).m_parent
          = if z = c ∧ hasFlag dependencyFlags F.DP_PARENT_OF_OTHER = true then some self
            else (h3.objects z).m_parent) := by
  obtain ⟨h2, hh2⟩ := addDependency_total F fuel hfuel
    (h.afterInsertion.setChildren self
      (if insertIndex < 0 ∨ insertIndex.toNat ≥ (h.objects self).m_children.length then
        (h.objects self).m_children ++ [c]
      else (h.objects self).m_children.take insertIndex.toNat
        ++ c :: (h.objects self).m_children.drop insertIndex.toNat))
    c (some self) F.DP_NOTIFY_OTHER_ON_DELETE true
  obtain ⟨h3, hh3⟩ : ∃ h3, (if dependencyFlags ≠ 0 then
      addDependency F fuel h2 self (some c) dependencyFlags true else some h2) = some h3 := by
    by_cases hz : dependencyFlags ≠ 0
    · rw [if_pos hz]
      exact addDependency_total F fuel hfuel h2 self (some c) dependencyFlags true
    · rw [if_neg hz]
      exact ⟨h2, rfl⟩
  by_cases hp : hasFlag dependencyFlags F.DP_PARENT_OF_OTHER = true
  · by_cases hs : ((setParent h3 c (some self)).objects c).isShareable = true
    · refine ⟨h2, h3, (setParent h3 c (some self)).set c
        { (setParent h3 c (some self)).objects c with
          m_linkCount := S.link ((setParent h3 c (some self)).objects c).m_linkCount },
        ?_, hh2, hh3, ?_, ?_, ?_, ?_⟩
      · simp only [addChild, hleaf, Bool.false_eq_true, if_false, hmem, hh2, hh3, hp,
          if_true, hs]
      · simp
      · intro z
        by_cases hz : z = c
        · subst hz
          simp
        · simp [Heap.set_objects_ne _ _ hz]
      · intro z
        by_cases hz : z = c
        · subst hz
          simp
        · simp [Heap.set_objects_ne _ _ hz]
      · intro z
        by_cases hz : z = c
        · subst hz
          simp [hp, setParent]
        · simp [Heap.set_objects_ne _ _ hz, setParent_parent, hz]
    · refine ⟨h2, h3, setParent h3 c (some self), ?_, hh2, hh3, ?_, ?_, ?_, ?_⟩
      · simp only [addChild, hleaf, Bool.false_eq_true, if_false, hmem, hh2, hh3, hp,
          if_true, hs]
      · simp
      · intro z
        simp
      · intro z
        simp
      · intro z
        simp [setParent_parent, hp]
  · refine ⟨h2, h3, h3, ?_, hh2, hh3, rfl, fun _ => rfl, fun _ => rfl, ?_⟩
    · simp only [addChild, hleaf, Bool.false_eq_true, if_false, hmem, hh2, hh3, hp]
    · intro z
      simp [hp]

/-- C5: `addChild` returns false and leaves the whole heap (children lists, dependency
maps, parent pointers) unchanged when the child is null or the receiving node is a
leaf. -/
theorem addChild_rejects (F : DEPENDENCY_FLAGS) (S : CCShareable) (fuel : Nat) (h : Heap)
    (self : ObjId) (child : Option ObjId) (dependencyFlags insertIndex : Int)
    (hbad : child = none ∨ (h.objects self).isLeaf = true) :
    addChild F S fuel h self child dependencyFlags insertIndex = some (false, h) := by
  cases child with
  | none => simp [addChild]
  | some c =>
    rcases hbad with hnull | hleaf
    · cases hnull
    · simp [addChild, hleaf]

/-- C5 at a concrete input: a null child is refused by the group 0 of `groupHeap`. -/
theorem addChild_rejects_witness :
    addChild headerFlags linkCounting 4 groupHeap 0 none 24 (-1) = some (false, groupHeap) :=
  addChild_rejects headerFlags linkCounting 4 groupHeap 0 none 24 (-1) (Or.inl rfl)

/-- The heap `groupHeap` is what two calls of `addChild` build. -/
theorem groupHeap_built :
    ((addChild headerFlags linkCounting 4 freshHeap 0 (some 1) 24 (-1)).bind fun r =>
      addChild headerFlags linkCounting 4 r.2 0 (some 2) 24 (-1)).map
        (fun r => (r.1, List.map (fun i : ObjId =>
          ((r.2.objects i).m_parent, (r.2.objects i).m_children,
            (r.2.objects i).m_dependencies)) [0, 1, 2, 3]))
      = some (true, List.map (fun i : ObjId =>
          ((groupHeap.objects i).m_parent, (groupHeap.objects i).m_children,
            (groupHeap.objects i).m_dependencies)) [0, 1, 2, 3]) := by
  rfl

/-- A dependency entry is held in a heap with the same dependency maps. -/
theorem Heap.holds_congr {h h' : Heap} {x y : ObjId} {flags : Int}
    (hdeps : (h'.objects x).m_dependencies = (h.objects x).m_dependencies)
    (hh : h.holds x y flags) : h'.holds x y flags := by
  obtain ⟨v, hv, hf⟩ := hh
  exact ⟨v, by rw [hdeps]; exact hv, hf⟩

/-- A dependency entry that is held is still held after the entries have grown. -/
theorem Heap.holds_of_dependenciesGrow {h h' : Heap} {x y : ObjId} {flags : Int}
    (hg : h.dependenciesGrow h') (hh : h.holds x y flags) : h'.holds x y flags := by
  obtain ⟨v, hv, hf⟩ := hh
  obtain ⟨v', hv', hf'⟩ := hg x y v hv
  exact ⟨v', hv', hasFlag_trans hf' hf⟩

/-- C7: after `P.addChild(child, flags, index)` on a node that is not a leaf, the
insertion not throwing `std::bad_alloc` (the call returns true), the flags that the child
holds with P contain `DP_NOTIFY_OTHER_ON_DELETE`; when `flags > 0` the flags that P holds
with the child contain every bit of `flags`; the child's parent is P when
`(flags & DP_PARENT_OF_OTHER) == DP_PARENT_OF_OTHER` and is unchanged otherwise. -/
theorem addChild_dependencies_and_parent (F : DEPENDENCY_FLAGS) (S : CCShareable)
    (hN : 0 < F.DP_NOTIFY_OTHER_ON_DELETE) (fuel : Nat) (hfuel : 4 ≤ fuel) (h : Heap)
    (P c : ObjId) (dependencyFlags insertIndex : Int)
    (hleaf : (h.objects P).isLeaf = false) (hmem : h.bad_alloc.head? ≠ some true) :
    ∃ h', addChild F S fuel h P (some c) dependencyFlags insertIndex = some (true, h')
      ∧ hasFlag (getDependencyFlagsWith h' c P) F.DP_NOTIFY_OTHER_ON_DELETE = true
      ∧ (0 < dependencyFlags →
          hasFlag (getDependencyFlagsWith h' P c) dependencyFlags = true)
      ∧ getParent h' c
          = if hasFlag dependencyFlags F.DP_PARENT_OF_OTHER = true then some P
            else getParent h c := by
  obtain ⟨h2, h3, h', hres, hh2, hh3, _, hdeps, _, hpar⟩ :=
    addChild_steps F S fuel hfuel h P c dependencyFlags insertIndex hleaf hmem
  have h12 := addDependency_sameButDependencies F fuel _ _ _ _ _ _ hh2
  have hold2 : h2.holds c P F.DP_NOTIFY_OTHER_ON_DELETE :=
    addDependency_holds F fuel _ h2 c P _ true hN hh2
  refine ⟨h', hres, ?_, ?_, ?_⟩
  · rw [hasFlag_getDependencyFlagsWith h' c P _ hN]
    apply Heap.holds_congr (hdeps c)
    by_cases hz : dependencyFlags ≠ 0
    · rw [if_pos hz] at hh3
      exact Heap.holds_of_dependenciesGrow
        (addDependency_dependenciesGrow F fuel _ _ _ _ _ hh3) hold2
    · rw [if_neg hz] at hh3
      cases hh3
      exact hold2
  · intro hpos
    rw [hasFlag_getDependencyFlagsWith h' P c _ hpos]
    apply Heap.holds_congr (hdeps P)
    rw [if_pos (ne_of_gt hpos)] at hh3
    exact addDependency_holds F fuel _ h3 P c _ true hpos hh3
  · have h23 : h2.sameButDependencies h3 := by
      by_cases hz : dependencyFlags ≠ 0
      · rw [if_pos hz] at hh3
        exact addDependency_sameButDependencies F fuel _ _ _ _ _ _ hh3
      · rw [if_neg hz] at hh3
        cases hh3
        exact Heap.sameButDependencies_refl h2
    unfold getParent
    rw [hpar c, (h23.2 c).1, (h12.2 c).1, Heap.setChildren_parent]
    simp

/-- C7 at a concrete input: the object 3 added to the group 0 with the flag
`DP_DELETE_OTHER` only. -/
theorem addChild_dependencies_and_parent_witness :
    ∃ h', addChild headerFlags linkCounting 4 groupHeap 0 (some 3) 8 (-1) = some (true, h')
      ∧ hasFlag (getDependencyFlagsWith h' 3 0) headerFlags.DP_NOTIFY_OTHER_ON_DELETE = true
      ∧ (0 < (8 : Int) → hasFlag (getDependencyFlagsWith h' 0 3) 8 = true)
      ∧ getParent h' 3
          = if hasFlag 8 headerFlags.DP_PARENT_OF_OTHER = true then some 0
            else getParent groupHeap 3 :=
  addChild_dependencies_and_parent headerFlags linkCounting (by decide) 4 (by decide)
    groupHeap 0 3 8 (-1) rfl (by decide)

/-! ## Removing dependencies and children -/

/-- The dependency maps after `removeDependencyWith`. -/
theorem removeDependencyWith_dependencies (h : Heap) (x y z : ObjId) :
    ((removeDependencyWith h x y).objects z).m_dependencies
      = if z = x then mapErase (h.objects x).m_dependencies y
        else (h.objects z).m_dependencies := by
  by_cases hz : z = x
  · subst hz
    simp [removeDependencyWith]
  · simp [removeDependencyWith, Heap.setDependencies_ne h _ hz, hz]

/-- The method `removeDependencyWith` leaves the parents as they are. -/
@[simp] theorem removeDependencyWith_parent (h : Heap) (x y z : ObjId) :
    ((removeDependencyWith h x y).objects z).m_parent = (h.objects z).m_parent :=
  ((Heap.sameButDependencies_setDependencies h x _).2 z).1

/-- The method `removeDependencyWith` leaves the children as they are. -/
@[simp] theorem removeDependencyWith_children (h : Heap) (x y z : ObjId) :
    ((removeDependencyWith h x y).objects z).m_children = (h.objects z).m_children :=
  ((Heap.sameButDependencies_setDependencies h x _).2 z).2.1

/-- The method `removeDependencyWith` leaves the link counts as they are. -/
@[simp] theorem removeDependencyWith_linkCount (h : Heap) (x y z : ObjId) :
    ((removeDependencyWith h x y).objects z).m_linkCount = (h.objects z).m_linkCount :=
  ((Heap.sameButDependencies_setDependencies h x _).2 z).2.2.2.2

/-- The method `removeDependencyWith` leaves `isShareable` as it is. -/
@[simp] theorem removeDependencyWith_isShareable (h : Heap) (x y z : ObjId) :
    ((removeDependencyWith h x y).objects z).isShareable = (h.objects z).isShareable :=
  ((Heap.sameButDependencies_setDependencies h x _).2 z).2.2.2.1

/-- The method `removeDependencyWith` deletes nothing. -/
@[simp] theorem removeDependencyWith_deleted (h : Heap) (x y : ObjId) :
    (removeDependencyWith h x y).deleted = h.deleted := rfl

/-- The entry removed by `removeDependencyWith` is not found. -/
theorem removeDependencyWith_find_self (h : Heap) (x y : ObjId) :
    mapFind ((removeDependencyWith h x y).objects x).m_dependencies y = none := by
  rw [removeDependencyWith_dependencies, if_pos rfl]
  exact mapFind_mapErase_self _ _

/-- The method `removeDependencyWith` adds no entry. -/
theorem removeDependencyWith_find_none (h : Heap) (x y z k : ObjId)
    (hnone : mapFind (h.objects z).m_dependencies k = none) :
    mapFind ((removeDependencyWith h x y).objects z).m_dependencies k = none := by
  rw [removeDependencyWith_dependencies]
  split
  · rename_i hz
    subst hz
    exact mapFind_mapErase_none _ _ _ hnone
  · exact hnone

/-- No entry, no flag. -/
theorem getDependencyFlagsWith_of_find_none (h : Heap) (x y : ObjId)
    (hnone : mapFind (h.objects x).m_dependencies y = none) :
    getDependencyFlagsWith h x y = 0 := by
  simp [getDependencyFlagsWith, hnone]

/-- One turn of the loop of `detatchAllChildren`, unfolded. -/
theorem detatchStep_eq (P : ObjId) (h : Heap) (c : ObjId) :
    detatchStep P h c
      = if getParent (removeDependencyWith (removeDependencyWith h P c) c P) c = some P then
          setParent (removeDependencyWith (removeDependencyWith h P c) c P) c none
        else removeDependencyWith (removeDependencyWith h P c) c P := rfl

/-- One turn of the loop of `detatchAllChildren` adds no entry. -/
theorem detatchStep_find_none (P : ObjId) (h : Heap) (c z k : ObjId)
    (hnone : mapFind (h.objects z).m_dependencies k = none) :
    mapFind ((detatchStep P h c).objects z).m_dependencies k = none := by
  rw [detatchStep_eq]
  have h2 := removeDependencyWith_find_none _ c P z k
    (removeDependencyWith_find_none h P c z k hnone)
  split
  · rw [setParent_dependencies]
    exact h2
  · exact h2

/-- One turn of the loop of `detatchAllChildren` removes the parent's entry for the
child. -/
theorem detatchStep_find_parent (P : ObjId) (h : Heap) (c : ObjId) :
    mapFind ((detatchStep P h c).objects P).m_dependencies c = none := by
  rw [detatchStep_eq]
  have h2 := removeDependencyWith_find_none _ c P P c (removeDependencyWith_find_self h P c)
  split
  · rw [setParent_dependencies]
    exact h2
  · exact h2

/-- One turn of the loop of `detatchAllChildren` removes the child's entry for the
parent. -/
theorem detatchStep_find_child (P : ObjId) (h : Heap) (c : ObjId) :
    mapFind ((detatchStep P h c).objects c).m_dependencies P = none := by
  rw [detatchStep_eq]
  have h2 := removeDependencyWith_find_self (removeDependencyWith h P c) c P
  split
  · rw [setParent_dependencies]
    exact h2
  · exact h2

/-- The parents after one turn of the loop of `detatchAllChildren`. -/
theorem detatchStep_parent (P : ObjId) (h : Heap) (c z : ObjId) :
    ((detatchStep P h c).objects z).m_parent
      = if z = c ∧ (h.objects z).m_parent = some P then none else (h.objects z).m_parent := by
  unfold detatchStep getParent
  by_cases hp : (h.objects c).m_parent = some P
  · simp only [removeDependencyWith_parent, hp, if_true, setParent_parent]
    by_cases hz : z = c
    · subst hz
      simp [hp]
    · simp [hz]
  · simp only [removeDependencyWith_parent, hp, if_false]
    by_cases hz : z = c
    · subst hz
      simp [hp]
    · simp [hz]

/-- One turn of the loop of `detatchAllChildren` leaves the children as they are. -/
@[simp] theorem detatchStep_children (P : ObjId) (h : Heap) (c z : ObjId) :
    ((detatchStep P h c).objects z).m_children = (h.objects z).m_children := by
  rw [detatchStep_eq]
  split <;> simp

/-- One turn of the loop of `detatchAllChildren` leaves the link counts as they are. -/
@[simp] theorem detatchStep_linkCount (P : ObjId) (h : Heap) (c z : ObjId) :
    ((detatchStep P h c).objects z).m_linkCount = (h.objects z).m_linkCount := by
  rw [detatchStep_eq]
  split
  · by_cases hz : z = c
    · subst hz
      simp [setParent]
    · simp [setParent, Heap.set_objects_ne _ _ hz]
  · simp

/-- One turn of the loop of `detatchAllChildren` deletes nothing. -/
@[simp] theorem detatchStep_deleted (P : ObjId) (h : Heap) (c : ObjId) :
    (detatchStep P h c).deleted = h.deleted := by
  rw [detatchStep_eq]
  split <;> simp

/-- The loop of `detatchAllChildren` adds no entry. -/
theorem detatchLoop_find_none (P : ObjId) (L : List ObjId) :
    ∀ (h : Heap) (z k : ObjId), mapFind (h.objects z).m_dependencies k = none →
      mapFind ((L.foldl (detatchStep P) h).objects z).m_dependencies k = none := by
  induction L with
  | nil => intro h z k hnone; exact hnone
  | cons a L ih =>
    intro h z k hnone
    exact ih _ z k (detatchStep_find_none P h a z k hnone)

/-- The loop of `detatchAllChildren` removes, for every child, both entries between the
parent and the child. -/
theorem detatchLoop_find (P : ObjId) (L : List ObjId) :
    ∀ (h : Heap) (c : ObjId), c ∈ L →
      mapFind ((L.foldl (detatchStep P) h).objects P).m_dependencies c = none
      ∧ mapFind ((L.foldl (detatchStep P) h).objects c).m_dependencies P = none := by
  induction L with
  | nil => intro h c hc; simp at hc
  | cons a L ih =>
    intro h c hc
    rcases List.mem_cons.mp hc with hca | hcL
    · subst hca
      exact ⟨detatchLoop_find_none P L _ P c (detatchStep_find_parent P h c),
        detatchLoop_find_none P L _ c P (detatchStep_find_child P h c)⟩
    · exact ih _ c hcL

/-- The parents after the loop of `detatchAllChildren`. -/
theorem detatchLoop_parent (P : ObjId) (L : List ObjId) :
    ∀ (h : Heap) (z : ObjId),
      ((L.foldl (detatchStep P) h).objects z).m_parent
        = if z ∈ L ∧ (h.objects z).m_parent = some P then none
          else (h.objects z).m_parent := by
  induction L with
  | nil => intro h z; simp
  | cons a L ih =>
    intro h z
    rw [List.foldl_cons, ih, detatchStep_parent]
    by_cases hza : z = a
    · subst hza
      by_cases hp : (h.objects z).m_parent = some P
      · simp [hp]
      · simp [hp]
    · simp [hza]

/-- The loop of `detatchAllChildren` leaves children, link counts and deleted objects as
they are. -/
theorem detatchLoop_frame (P : ObjId) (L : List ObjId) :
    ∀ (h : Heap), (L.foldl (detatchStep P) h).deleted = h.deleted
      ∧ ∀ z, ((L.foldl (detatchStep P) h).objects z).m_children = (h.objects z).m_children
        ∧ ((L.foldl (detatchStep P) h).objects z).m_linkCount = (h.objects z).m_linkCount := by
  induction L with
  | nil => intro h; exact ⟨rfl, fun _ => ⟨rfl, rfl⟩⟩
  | cons a L ih =>
    intro h
    obtain ⟨hd, hz⟩ := ih (detatchStep P h a)
    refine ⟨by rw [List.foldl_cons, hd]; simp, fun z => ?_⟩
    rw [List.foldl_cons, (hz z).1, (hz z).2]
    simp

/-- The method `detachChild` is one turn of the loop of `detatchAllChildren` followed by
the removal from `m_children`. -/
theorem detachChild_eq (h : Heap) (P c : ObjId) :
    detachChild h P (some c)
      = if getChildIndex (detatchStep P h c) P c ≥ 0 then
          (detatchStep P h c).setChildren P
            (((detatchStep P h c).objects P).m_children.eraseIdx
              (getChildIndex (detatchStep P h c) P c).toNat)
        else detatchStep P h c := rfl

/-- C8: after `P.detachChild(child)` the flags that P holds with the child and the flags
that the child holds with P are both 0, the child's parent is null when it was P and
is unchanged otherwise, and no object has been deleted or released;
`detatchAllChildren` does the same for every child and leaves P without children. -/
theorem detachChild_detatchAllChildren (h : Heap) (P c : ObjId) :
    (getDependencyFlagsWith (detachChild h P (some c)) P c = 0
      ∧ getDependencyFlagsWith (detachChild h P (some c)) c P = 0
      ∧ getParent (detachChild h P (some c)) c
          = (if getParent h c = some P then none else getParent h c)
      ∧ (detachChild h P (some c)).deleted = h.deleted
      ∧ ∀ z, ((detachChild h P (some c)).objects z).m_linkCount = (h.objects z).m_linkCount)
    ∧ (∀ d ∈ (h.objects P).m_children,
        getDependencyFlagsWith (detatchAllChildren h P) P d = 0
        ∧ getDependencyFlagsWith (detatchAllChildren h P) d P = 0
        ∧ getParent (detatchAllChildren h P) d
            = (if getParent h d = some P then none else getParent h d))
    ∧ ((detatchAllChildren h P).objects P).m_children = []
    ∧ (detatchAllChildren h P).deleted = h.deleted
    ∧ ∀ z, ((detatchAllChildren h P).objects z).m_linkCount = (h.objects z).m_linkCount := by
  refine ⟨?_, ?_, ?_, ?_, ?_⟩
  · rw [detachChild_eq]
    split
    · refine ⟨?_, ?_, ?_, ?_, ?_⟩
      · apply getDependencyFlagsWith_of_find_none
        rw [Heap.setChildren_dependencies]
        exact detatchStep_find_parent P h c
      · apply getDependencyFlagsWith_of_find_none
        rw [Heap.setChildren_dependencies]
        exact detatchStep_find_child P h c
      · unfold getParent
        rw [Heap.setChildren_parent, detatchStep_parent]
        simp
      · simp
      · intro z
        by_cases hz : z = P
        · subst hz
          simp [Heap.setChildren]
        · simp [Heap.setChildren, Heap.set_objects_ne _ _ hz]
    · refine ⟨?_, ?_, ?_, ?_, ?_⟩
      · exact getDependencyFlagsWith_of_find_none _ _ _ (detatchStep_find_parent P h c)
      · exact getDependencyFlagsWith_of_find_none _ _ _ (detatchStep_find_child P h c)
      · unfold getParent
        rw [detatchStep_parent]
        simp
      · simp
      · intro z
        simp
  · intro d hd
    obtain ⟨h1, h2⟩ := detatchLoop_find P (h.objects P).m_children h d hd
    refine ⟨?_, ?_, ?_⟩
    · apply getDependencyFlagsWith_of_find_none
      unfold detatchAllChildren
      rw [Heap.setChildren_dependencies]
      exact h1
    · apply getDependencyFlagsWith_of_find_none
      unfold detatchAllChildren
      rw [Heap.setChildren_dependencies]
      exact h2
    · unfold getParent detatchAllChildren
      rw [Heap.setChildren_parent, detatchLoop_parent]
      simp [hd]
  · unfold detatchAllChildren
    simp [Heap.setChildren]
  · unfold detatchAllChildren
    rw [Heap.setChildren_deleted]
    exact (detatchLoop_frame P _ h).1
  · intro z
    unfold detatchAllChildren
    rw [← ((detatchLoop_frame P (h.objects P).m_children h).2 z).2]
    by_cases hz : z = P
    · subst hz
      simp [Heap.setChildren]
    · simp [Heap.setChildren, Heap.set_objects_ne _ _ hz]

/-! ## getChildIndex and the removal of one child -/

/-- The loop of `getChildIndex` returns -1 for an object that is not in the list. -/
theorem getChildIndexFrom_of_not_mem (c : ObjId) (L : List ObjId) :
    ∀ i : Nat, c ∉ L → getChildIndexFrom L c i = -1 := by
  induction L with
  | nil => intro i _; rfl
  | cons a L ih =>
    intro i hc
    have hne : a ≠ c := fun e => hc (by simp [e])
    have hL : c ∉ L := fun e => hc (List.mem_cons_of_mem a e)
    simp [getChildIndexFrom, hne, ih (i + 1) hL]

/-- The loop of `getChildIndex` returns the position `n` of the first occurrence of an
object of the list (counted from the start index `i`): the object stands at `n`, and
erasing the position `n` erases the first occurrence. -/
theorem getChildIndexFrom_of_mem (c : ObjId) (L : List ObjId) :
    ∀ i : Nat, c ∈ L → ∃ n : Nat, getChildIndexFrom L c i = ((i + n : Nat) : Int)
      ∧ L.get? n = some c ∧ L.eraseIdx n = L.erase c := by
  induction L with
  | nil => intro i hc; simp at hc
  | cons a L ih =>
    intro i hc
    by_cases hac : a = c
    · subst hac
      exact ⟨0, by simp [getChildIndexFrom], by simp, by simp⟩
    · have hL : c ∈ L := by
        rcases List.mem_cons.mp hc with e | e
        · exact absurd e.symm hac
        · exact e
      obtain ⟨n, hn, hget, herase⟩ := ih (i + 1) hL
      refine ⟨n + 1, ?_, by simpa using hget, ?_⟩
      · simp only [getChildIndexFrom, hac, if_false, hn]
        congr 1
        omega
      · have hbeq : (a == c) = false := by simpa using hac
        simp [List.erase_cons, hbeq, herase]

/-- The method `getChildIndex` returns -1 exactly for the objects that are not children. -/
theorem getChildIndex_eq_neg_one_iff (h : Heap) (P c : ObjId) :
    getChildIndex h P c = -1 ↔ c ∉ (h.objects P).m_children := by
  constructor
  · intro hidx hc
    obtain ⟨n, hn, _, _⟩ := getChildIndexFrom_of_mem c _ 0 hc
    unfold getChildIndex at hidx
    rw [hn] at hidx
    omega
  · intro hc
    exact getChildIndexFrom_of_not_mem c _ 0 hc

/-- The children left by `children.erase(children.begin() + getChildIndex(c))`, done when
the index is not negative: the list without the first occurrence of `c`. -/
theorem eraseIdx_getChildIndexFrom (c : ObjId) (L : List ObjId) :
    (if getChildIndexFrom L c 0 ≥ 0 then L.eraseIdx (getChildIndexFrom L c 0).toNat else L)
      = L.erase c := by
  by_cases hc : c ∈ L
  · obtain ⟨n, hn, _, herase⟩ := getChildIndexFrom_of_mem c L 0 hc
    rw [hn, if_pos (by omega)]
    simpa using herase
  · rw [getChildIndexFrom_of_not_mem c L 0 hc, if_neg (by omega)]
    exact (List.erase_of_not_mem hc).symm

/-- The children of P after `detachChild`. -/
theorem detachChild_children (h : Heap) (P c : ObjId) :
    ((detachChild h P (some c)).objects P).m_children = (h.objects P).m_children.erase c := by
  rw [detachChild_eq, ← eraseIdx_getChildIndexFrom c (h.objects P).m_children]
  have hidx : getChildIndex (detatchStep P h c) P c
      = getChildIndexFrom (h.objects P).m_children c 0 := by
    simp [getChildIndex]
  rw [hidx]
  split
  · simp [Heap.setChildren]
  · simp

/-- The children of P after `onDeletionOf`. -/
theorem onDeletionOf_children (h : Heap) (P c : ObjId) :
    ((onDeletionOf h P c).objects P).m_children = (h.objects P).m_children.erase c := by
  rw [← eraseIdx_getChildIndexFrom c (h.objects P).m_children]
  have hidx : getChildIndex (removeDependencyWith h P c) P c
      = getChildIndexFrom (h.objects P).m_children c 0 := by
    simp [getChildIndex]
  simp only [onDeletionOf, hidx]
  split
  · simp [Heap.setChildren]
  · simp

/-- The method `removeChild(int pos)` on a child that the node does not own
(no `DP_DELETE_OTHER`): one turn of the loop of `detatchAllChildren`, then the removal
of the position `pos`. -/
theorem removeChildAt_of_not_owned (F : DEPENDENCY_FLAGS) (S : CCShareable) (fuel : Nat)
    (h : Heap) (P : ObjId) (pos : Nat) (child : ObjId)
    (hget : (h.objects P).m_children.get? pos = some child)
    (hflag : hasFlag (getDependencyFlagsWith h P child) F.DP_DELETE_OTHER = false) :
    removeChildAt F S fuel h P (pos : Int)
      = some ((detatchStep P h child).setChildren P
          ((h.objects P).m_children.eraseIdx pos)) := by
  have hlt : pos < (h.objects P).m_children.length := by
    rcases Nat.lt_or_ge pos (h.objects P).m_children.length with hlt | hge
    · exact hlt
    · rw [List.get?_eq_none.mpr hge] at hget
      cases hget
  have hnneg : ¬ ((pos : Int) < 0) := by omega
  unfold removeChildAt
  simp only [hnneg, if_false, Int.toNat_ofNat, hget, hflag, Bool.false_eq_true]
  by_cases hp : getParent (removeDependencyWith (removeDependencyWith h P child) child P)
      child = some P
  · simp [hp, detatchStep_eq, hlt]
  · simp [hp, detatchStep_eq, hlt]

/-- The method `removeChild(int pos)` on a child that the node owns (`DP_DELETE_OTHER`):
the child is released or deleted, then the position `pos` is erased. -/
theorem removeChildAt_of_owned (F : DEPENDENCY_FLAGS) (S : CCShareable) (fuel : Nat)
    (h h3 : Heap) (P : ObjId) (pos : Nat) (child : ObjId)
    (hget : (h.objects P).m_children.get? pos = some child)
    (hflag : hasFlag (getDependencyFlagsWith h P child) F.DP_DELETE_OTHER = true)
    (hdestroy : releaseOrDelete S (deleteObject F S fuel)
      (removeDependencyWith (removeDependencyWith h P child) child P) child = some h3)
    (hpos : pos < (h3.objects P).m_children.length) :
    removeChildAt F S fuel h P (pos : Int)
      = some (h3.setChildren P ((h3.objects P).m_children.eraseIdx pos)) := by
  have hnneg : ¬ ((pos : Int) < 0) := by omega
  unfold removeChildAt
  simp only [hnneg, if_false, Int.toNat_ofNat, hget, hflag, if_true, hdestroy, hpos]

/-- The method `removeChild(int pos)` on a shareable child that the node owns and that
`release()` does not delete: the link count is updated and the position `pos` erased. -/
theorem removeChildAt_of_released (F : DEPENDENCY_FLAGS) (S : CCShareable) (fuel : Nat)
    (h : Heap) (P : ObjId) (pos : Nat) (child : ObjId)
    (hget : (h.objects P).m_children.get? pos = some child)
    (hflag : hasFlag (getDependencyFlagsWith h P child) F.DP_DELETE_OTHER = true)
    (hsh : (h.objects child).isShareable = true)
    (hrel : (S.release (h.objects child).m_linkCount).isSome = true) :
    ∃ h', removeChildAt F S fuel h P (pos : Int) = some h'
      ∧ (h'.objects P).m_children = (h.objects P).m_children.eraseIdx pos := by
  have hlt : pos < (h.objects P).m_children.length := by
    rcases Nat.lt_or_ge pos (h.objects P).m_children.length with hlt | hge
    · exact hlt
    · rw [List.get?_eq_none.mpr hge] at hget
      cases hget
  obtain ⟨n, hn⟩ := Option.isSome_iff_exists.mp hrel
  have hdestroy : releaseOrDelete S (deleteObject F S fuel)
      (removeDependencyWith (removeDependencyWith h P child) child P) child
      = some ((removeDependencyWith (removeDependencyWith h P child) child P).set child
          { (removeDependencyWith (removeDependencyWith h P child) child P).objects child
            with m_linkCount := n }) := by
    unfold releaseOrDelete
    rw [removeDependencyWith_isShareable, removeDependencyWith_isShareable,
      removeDependencyWith_linkCount, removeDependencyWith_linkCount, hsh, if_pos rfl, hn]
  have hchildren : (((removeDependencyWith (removeDependencyWith h P child) child P).set
      child
      { (removeDependencyWith (removeDependencyWith h P child) child P).objects child
        with m_linkCount := n }).objects P).m_children = (h.objects P).m_children := by
    by_cases hP : P = child
    · subst hP
      simp
    · rw [Heap.set_objects_ne _ _ hP]
      simp
  refine ⟨_, removeChildAt_of_owned F S fuel h _ P pos child hget hflag hdestroy
    (by rw [hchildren]; exact hlt), ?_⟩
  rw [Heap.setChildren_children, if_pos rfl, hchildren]

/-- C9: `detachChild(c)`, `onDeletionOf(c)` and `removeChild(c)` (when `c` is not deleted
by the removal: the node does not hold `DP_DELETE_OTHER` with it, or `c` is shareable and
`release()` keeps it) leave the children list with exactly the first occurrence of `c`
erased, hence the other children in their order; when `c` is not a child
(`getChildIndex(c) = -1`) the list is unchanged. -/
theorem removal_keeps_order (F : DEPENDENCY_FLAGS) (S : CCShareable) (fuel : Nat)
    (h : Heap) (P c : ObjId) :
    ((detachChild h P (some c)).objects P).m_children = (h.objects P).m_children.erase c
    ∧ ((onDeletionOf h P c).objects P).m_children = (h.objects P).m_children.erase c
    ∧ ((hasFlag (getDependencyFlagsWith h P c) F.DP_DELETE_OTHER = false
          ∨ ((h.objects c).isShareable = true
              ∧ (S.release (h.objects c).m_linkCount).isSome = true)) →
        ∃ h', removeChild F S fuel h P c = some h'
          ∧ (h'.objects P).m_children = (h.objects P).m_children.erase c)
    ∧ ((h.objects P).m_children.erase c).Sublist (h.objects P).m_children
    ∧ (getChildIndex h P c = -1 →
        (h.objects P).m_children.erase c = (h.objects P).m_children
        ∧ removeChild F S fuel h P c = some h) := by
  refine ⟨detachChild_children h P c, onDeletionOf_children h P c, ?_,
    List.erase_sublist _ _, ?_⟩
  · intro hkept
    by_cases hc : c ∈ (h.objects P).m_children
    · obtain ⟨n, hn, hget, herase⟩ := getChildIndexFrom_of_mem c _ 0 hc
      have hidx : getChildIndex h P c = (n : Int) := by
        unfold getChildIndex
        rw [hn]
        simp
      have hcall : removeChild F S fuel h P c = removeChildAt F S fuel h P (n : Int) := by
        unfold removeChild
        simp only [hidx]
        rw [if_pos (by omega)]
      by_cases hflag : hasFlag (getDependencyFlagsWith h P c) F.DP_DELETE_OTHER = true
      · rcases hkept with hno | ⟨hsh, hrel⟩
        · rw [hflag] at hno
          cases hno
        · obtain ⟨h', hres, hch⟩ :=
            removeChildAt_of_released F S fuel h P n c hget hflag hsh hrel
          exact ⟨h', by rw [hcall]; exact hres, by rw [hch, herase]⟩
      · have hflag' : hasFlag (getDependencyFlagsWith h P c) F.DP_DELETE_OTHER = false := by
          simpa using hflag
        refine ⟨(detatchStep P h c).setChildren P ((h.objects P).m_children.eraseIdx n),
          ?_, ?_⟩
        · rw [hcall]
          exact removeChildAt_of_not_owned F S fuel h P n c hget hflag'
        · simp [Heap.setChildren, herase]
    · refine ⟨h, ?_, (List.erase_of_not_mem hc).symm⟩
      have hidx := (getChildIndex_eq_neg_one_iff h P c).mpr hc
      unfold removeChild
      simp only [hidx]
      rw [if_neg (by omega)]
  · intro hidx
    have hc := (getChildIndex_eq_neg_one_iff h P c).mp hidx
    refine ⟨List.erase_of_not_mem hc, ?_⟩
    unfold removeChild
    simp only [hidx]
    rw [if_neg (by omega)]

/-- C9 at a concrete input: the object 3, added at the head of the group 0 with the flag
`DP_NOTIFY_OTHER_ON_DELETE` only, is removed again; the children 1 and 2 stay in order. -/
theorem removal_keeps_order_example :
    ((addChild headerFlags linkCounting 4 groupHeap 0 (some 3) 1 0).bind fun r =>
      removeChild headerFlags linkCounting 0 r.2 0 3).map
        (fun h' => (h'.objects 0).m_children) = some [1, 2]
    ∧ ((detachChild groupHeap 0 (some 1)).objects 0).m_children = [2]
    ∧ ((onDeletionOf groupHeap 0 1).objects 0).m_children = [2] := by
  decide

/-! ## removeChild(int) -/

/-- The heap `ownedSiblingHeap` is what `addDependency` builds from `groupHeap`, and
`ownedElderSiblingHeap` what `addChild` and `addDependency` build from it. -/
theorem ownedSiblingHeap_built :
    (addDependency headerFlags 4 groupHeap 1 (some 2) 8 true).map
        (fun h => List.map (fun i : ObjId =>
          ((h.objects i).m_parent, (h.objects i).m_children, (h.objects i).m_dependencies))
          [0, 1, 2, 3])
      = some (List.map (fun i : ObjId =>
          ((ownedSiblingHeap.objects i).m_parent, (ownedSiblingHeap.objects i).m_children,
            (ownedSiblingHeap.objects i).m_dependencies)) [0, 1, 2, 3])
    ∧ ((addChild headerFlags linkCounting 4 groupHeap 0 (some 3) 24 (-1)).bind fun r =>
        addDependency headerFlags 4 r.2 2 (some 1) 8 true).map
        (fun h => List.map (fun i : ObjId =>
          ((h.objects i).m_parent, (h.objects i).m_children, (h.objects i).m_dependencies))
          [0, 1, 2, 3, 4])
      = some (List.map (fun i : ObjId =>
          ((ownedElderSiblingHeap.objects i).m_parent,
            (ownedElderSiblingHeap.objects i).m_children,
            (ownedElderSiblingHeap.objects i).m_dependencies)) [0, 1, 2, 3, 4]) := by
  constructor <;> rfl

/-- On the code: in `ownedElderSiblingHeap` the group 0 has the children [1, 2, 3] and the
child 2 holds `DP_DELETE_OTHER` with its elder sibling 1. `removeChild(1)` deletes the
child 2 and, through it, the object 1, which leaves the list; the final `erase` at the
position 1 then removes the object 3: the deleted object 2 stays in the children list and
the live object 3 is lost. -/
theorem removeChildAt_stale_position :
    (removeChildAt headerFlags linkCounting 3 ownedElderSiblingHeap 0 1).map
        (fun h' => ((h'.objects 0).m_children, h'.deleted)) = some ([2], [1, 2]) := by
  decide

/-- The loop of `removeAllChildren` on an object without any dependency deletes nothing:
it empties `m_children` and touches nothing else. -/
theorem removeAllChildrenLoop_no_dependency (F : DEPENDENCY_FLAGS) (S : CCShareable)
    (del : Heap → ObjId → Option Heap) (hD : F.DP_DELETE_OTHER ≠ 0) (x : ObjId) (n : Nat) :
    ∀ h : Heap, (h.objects x).m_dependencies = [] → (h.objects x).m_children.length ≤ n →
      ∃ h', removeAllChildrenLoop F S del n h x = some h'
        ∧ h'.deleted = h.deleted
        ∧ (∀ z, z ≠ x → h'.objects z = h.objects z)
        ∧ (h'.objects x).m_dependencies = []
        ∧ (h'.objects x).m_children = [] := by
  induction n with
  | zero =>
    intro h hdeps hlen
    have hnil : (h.objects x).m_children = [] := List.length_eq_zero.mp (by omega)
    exact ⟨h, by simp [removeAllChildrenLoop, hnil], rfl, fun _ _ => rfl, hdeps, hnil⟩
  | succ n ih =>
    intro h hdeps hlen
    cases hlast : (h.objects x).m_children.getLast? with
    | none =>
      have hnil : (h.objects x).m_children = [] := List.getLast?_eq_none_iff.mp hlast
      exact ⟨h, by simp [removeAllChildrenLoop, hlast], rfl, fun _ _ => rfl, hdeps, hnil⟩
    | some child =>
      have hdeps1 : ((h.setChildren x (h.objects x).m_children.dropLast).objects x).m_dependencies
          = [] := by
        rw [Heap.setChildren_dependencies]
        exact hdeps
      have hlen1 : ((h.setChildren x (h.objects x).m_children.dropLast).objects x).m_children.length
          ≤ n := by
        rw [Heap.setChildren_children, if_pos rfl, List.length_dropLast]
        omega
      obtain ⟨h', hres, hdel, hothers, hd', hc'⟩ := ih _ hdeps1 hlen1
      have hflag : hasFlag (getDependencyFlagsWith
          (h.setChildren x (h.objects x).m_children.dropLast) x child) F.DP_DELETE_OTHER
          = false := by
        rw [getDependencyFlagsWith_of_find_none _ _ _ (by rw [hdeps1]; rfl)]
        exact hasFlag_zero_left hD
      refine ⟨h', ?_, by rw [hdel]; rfl, ?_, hd', hc'⟩
      · simp only [removeAllChildrenLoop, hlast, hflag, Bool.false_eq_true, if_false]
        exact hres
      · intro z hz
        rw [hothers z hz]
        exact Heap.set_objects_ne _ _ hz

/-- The statement `delete x` on an object without any dependency: the destructor notifies
and deletes nothing; it empties `m_children` of `x` and touches no other object. -/
theorem deleteObject_no_dependency (F : DEPENDENCY_FLAGS) (S : CCShareable)
    (hD : F.DP_DELETE_OTHER ≠ 0) (fuel : Nat) (h : Heap) (x : ObjId)
    (hdeps : (h.objects x).m_dependencies = []) (hlive : x ∉ h.deleted) :
    ∃ h', deleteObject F S (fuel + 1) h x = some h'
      ∧ h'.deleted = x :: h.deleted
      ∧ (∀ z, z ≠ x → h'.objects z = h.objects z)
      ∧ (h'.objects x).m_dependencies = []
      ∧ (h'.objects x).m_children = [] := by
  have hdeps2 : ((Heap.setDependencies { h with deleted := x :: h.deleted } x
      []).objects x).m_dependencies = [] := by
    simp
  obtain ⟨h', hres, hdel, hothers, hd', hc'⟩ :=
    removeAllChildrenLoop_no_dependency F S (deleteObject F S fuel) hD x
      ((Heap.setDependencies { h with deleted := x :: h.deleted } x
        []).objects x).m_children.length _ hdeps2 (le_refl _)
  refine ⟨h', ?_, by rw [hdel]; rfl, ?_, hd', hc'⟩
  · simp only [deleteObject, hlive, if_false, hdeps, List.map_nil, forEachObject]
    exact hres
  · intro z hz
    rw [hothers z hz]
    exact Heap.setDependencies_ne _ _ hz

/-- The dependency maps after one turn of the loop of `detatchAllChildren`, for a child
other than the parent. -/
theorem detatchStep_dependencies_child (P : ObjId) (h : Heap) (c : ObjId) (hne : c ≠ P) :
    ((detatchStep P h c).objects c).m_dependencies = mapErase (h.objects c).m_dependencies P := by
  rw [detatchStep_eq]
  split
  · rw [setParent_dependencies, removeDependencyWith_dependencies, if_pos rfl,
      removeDependencyWith_dependencies, if_neg hne]
  · rw [removeDependencyWith_dependencies, if_pos rfl, removeDependencyWith_dependencies,
      if_neg hne]

/-- The two erasures at the head of `removeChild(int)`: the parent has no entry for the
child, the child none for the parent, and nothing else differs. -/
theorem removeDependencyWith_both (h : Heap) (P c : ObjId) :
    mapFind ((removeDependencyWith (removeDependencyWith h P c) c P).objects P).m_dependencies
        c = none
    ∧ mapFind ((removeDependencyWith (removeDependencyWith h P c) c P).objects c).m_dependencies
        P = none
    ∧ (removeDependencyWith (removeDependencyWith h P c) c P).deleted = h.deleted
    ∧ ∀ z, ((removeDependencyWith (removeDependencyWith h P c) c P).objects z).m_children
          = (h.objects z).m_children
        ∧ ((removeDependencyWith (removeDependencyWith h P c) c P).objects z).m_linkCount
          = (h.objects z).m_linkCount
        ∧ ((removeDependencyWith (removeDependencyWith h P c) c P).objects z).isShareable
          = (h.objects z).isShareable :=
  ⟨removeDependencyWith_find_none _ c P P c (removeDependencyWith_find_self h P c),
    removeDependencyWith_find_self _ c P, by simp, fun z => by simp⟩

end ObjectGraph
namespace ObjectGraph

/-! ## removeDependencyFlag -/

/-- The bits of `flags & ~flag`: those of `flags` that are not in `flag`. -/
theorem testBit_land_lnot (flags flag : Int) (k : Nat) :
    Int.testBit (Int.land flags (Int.lnot flag)) k
      = (Int.testBit flags k && !Int.testBit flag k) := by
  rw [Int.testBit_land, Int.testBit_lnot]

/-- The value of `flags & ~flag` for two natural numbers, in a form that evaluates. -/
theorem land_lnot_ofNat (m n : Nat) :
    Int.land (Int.ofNat m) (Int.lnot (Int.ofNat n)) = Int.ofNat (m ^^^ (m &&& n)) := by
  apply int_eq_of_testBit_eq
  intro k
  rw [testBit_land_lnot]
  show (Nat.testBit m k && !Nat.testBit n k) = Nat.testBit (m ^^^ (m &&& n)) k
  rw [Nat.testBit_xor, Nat.testBit_and]
  cases Nat.testBit m k <;> cases Nat.testBit n k <;> rfl

/-- C13: `removeDependencyFlag(other, flag)`. When the flags held with `other` contain
every bit of `flag`, the flags read afterwards are the old ones with the bits of `flag`
cleared, and the entry is erased when no bit remains (it holds the new flags otherwise);
when they do not, the heap is unchanged. In both cases the entries for the other keys
and the other objects are unchanged. -/
theorem removeDependencyFlag_spec (h : Heap) (self other : ObjId) (flag : Int) :
    (hasFlag (getDependencyFlagsWith h self other) flag = true →
      getDependencyFlagsWith (removeDependencyFlag h self other flag) self other
          = Int.land (getDependencyFlagsWith h self other) (Int.lnot flag)
      ∧ (∀ k : Nat,
          Int.testBit (getDependencyFlagsWith (removeDependencyFlag h self other flag)
              self other) k
            = (Int.testBit (getDependencyFlagsWith h self other) k && !Int.testBit flag k))
      ∧ mapFind ((removeDependencyFlag h self other flag).objects self).m_dependencies other
          = (if Int.land (getDependencyFlagsWith h self other) (Int.lnot flag) = 0 then none
             else some (Int.land (getDependencyFlagsWith h self other) (Int.lnot flag))))
    ∧ (hasFlag (getDependencyFlagsWith h self other) flag = false →
        removeDependencyFlag h self other flag = h)
    ∧ (∀ k, k ≠ other →
        mapFind ((removeDependencyFlag h self other flag).objects self).m_dependencies k
          = mapFind (h.objects self).m_dependencies k)
    ∧ (∀ z, z ≠ self →
        (removeDependencyFlag h self other flag).objects z = h.objects z) := by
  have hfind : hasFlag (getDependencyFlagsWith h self other) flag = true →
      mapFind ((removeDependencyFlag h self other flag).objects self).m_dependencies other
        = (if Int.land (getDependencyFlagsWith h self other) (Int.lnot flag) = 0 then none
           else some (Int.land (getDependencyFlagsWith h self other) (Int.lnot flag))) := by
    intro hflag
    by_cases hz : Int.land (getDependencyFlagsWith h self other) (Int.lnot flag) = 0
    · simp only [removeDependencyFlag, hflag, if_true, hz, ne_eq, not_true_eq_false, if_false,
        Heap.setDependencies_self]
      exact mapFind_mapErase_self _ _
    · simp only [removeDependencyFlag, hflag, if_true, hz, ne_eq, not_false_eq_true,
        Heap.setDependencies_self, if_false]
      exact mapFind_mapAssign_self _ _ _
  have hread : hasFlag (getDependencyFlagsWith h self other) flag = true →
      getDependencyFlagsWith (removeDependencyFlag h self other flag) self other
        = Int.land (getDependencyFlagsWith h self other) (Int.lnot flag) := by
    intro hflag
    rw [getDependencyFlagsWith, hfind hflag]
    by_cases hz : Int.land (getDependencyFlagsWith h self other) (Int.lnot flag) = 0
    · rw [if_pos hz, hz]
    · rw [if_neg hz]
  refine ⟨fun hflag => ⟨hread hflag, ?_, hfind hflag⟩, ?_, ?_, ?_⟩
  · intro k
    rw [hread hflag, testBit_land_lnot]
  · intro hflag
    simp [removeDependencyFlag, hflag]
  · intro k hk
    by_cases hflag : hasFlag (getDependencyFlagsWith h self other) flag = true
    · by_cases hz : Int.land (getDependencyFlagsWith h self other) (Int.lnot flag) = 0
      · simp only [removeDependencyFlag, hflag, if_true, hz, ne_eq, not_true_eq_false,
          if_false, Heap.setDependencies_self]
        exact mapFind_mapErase_ne _ hk
      · simp only [removeDependencyFlag, hflag, if_true, hz, ne_eq, not_false_eq_true,
          Heap.setDependencies_self, if_false]
        exact mapFind_mapAssign_ne _ _ hk
    · simp [removeDependencyFlag, hflag]
  · intro z hz
    unfold removeDependencyFlag
    simp only
    split
    · split
      · exact Heap.setDependencies_ne h _ hz
      · exact Heap.setDependencies_ne h _ hz
    · rfl

/-- C13 at concrete inputs: the group 0 of `groupHeap` holds the flags 25 with its child 1;
removing `DP_DELETE_OTHER` (8) leaves 17, and the entry for the child 2 is as before;
the child 1 holds the flag 1 with the group, and removing it erases the entry. -/
theorem removeDependencyFlag_spec_witness :
    getDependencyFlagsWith (removeDependencyFlag groupHeap 0 1 8) 0 1 = 17
    ∧ getDependencyFlagsWith (removeDependencyFlag groupHeap 0 1 8) 0 2 = 25
    ∧ ((removeDependencyFlag groupHeap 1 0 1).objects 1).m_dependencies = [] := by
  have h8 : Int.land 25 (Int.lnot 8) = 17 := land_lnot_ofNat 25 8
  have h1 : Int.land 1 (Int.lnot 1) = 0 := land_lnot_ofNat 1 1
  have hf0 : getDependencyFlagsWith groupHeap 0 1 = 25 := by decide
  have hf1 : getDependencyFlagsWith groupHeap 1 0 = 1 := by decide
  have hflag0 : hasFlag (getDependencyFlagsWith groupHeap 0 1) 8 = true := by decide
  have hflag1 : hasFlag (getDependencyFlagsWith groupHeap 1 0) 1 = true := by decide
  refine ⟨?_, ?_, ?_⟩
  · rw [(removeDependencyFlag_spec groupHeap 0 1 8).1 hflag0 |>.1, hf0, h8]
  · unfold getDependencyFlagsWith
    rw [(removeDependencyFlag_spec groupHeap 0 1 8).2.2.1 2 (by decide)]
    decide
  · simp only [removeDependencyFlag, hflag1, if_true, hf1, h1, ne_eq, not_true_eq_false,
      if_false, Heap.setDependencies_self]
    decide

end ObjectGraph

namespace ObjectGraph

/-! ## transferChild and transferChildren -/

/-- The heap `sharedChildHeap` is what three calls of `addChild` build from fresh objects,
the last one with the flags `DP_NONE`. -/
theorem sharedChildHeap_built :
    (((addChild headerFlags linkCounting 4 freshHeap 10 (some 11) 24 (-1)).bind fun r =>
      addChild headerFlags linkCounting 4 r.2 10 (some 12) 24 (-1)).bind fun r =>
      addChild headerFlags linkCounting 4 r.2 13 (some 11) 0 (-1)).map
        (fun r => (r.1, List.map (fun i : ObjId =>
          ((r.2.objects i).m_parent, (r.2.objects i).m_children,
            (r.2.objects i).m_dependencies)) [10, 11, 12, 13, 14]))
      = some (true, List.map (fun i : ObjId =>
          ((sharedChildHeap.objects i).m_parent, (sharedChildHeap.objects i).m_children,
            (sharedChildHeap.objects i).m_dependencies)) [10, 11, 12, 13, 14]) := by
  rfl

/-- C11, on the code: in `sharedChildHeap` the group 13 lists the object 11, whose parent
is the group 10. After `transferChild(11, 14)` called on the group 13, the object 11 is a
child of the object 14 and its parent is still the group 10, neither the new parent 14
nor null: the assertion fails. -/
theorem transferChild_assertion_fails :
    (transferChild headerFlags linkCounting 4 sharedChildHeap 13 11 14).map
        (fun h' => (getParent h' 11, transferAssertion h' 11 14, (h'.objects 13).m_children,
          (h'.objects 14).m_children))
      = some (some 10, false, [], [11]) := by
  decide

/-- C12, on the code: `transferChildren(14)` called on the group 13 of `sharedChildHeap`
leaves the parent of the object 11 at the group 10, and the assertion fails for it;
`transferChildren(15)` called on the group 10 of `leafHeap`, the object 15 being a leaf
that refuses children, leaves the parent of both children at the group 10, whose children
list is cleared, and the assertion fails for both. -/
theorem transferChildren_assertion_fails :
    (transferChildren headerFlags linkCounting 4 sharedChildHeap 13 14).map
        (fun r => (r.1, getParent r.2 11, (r.2.objects 13).m_children,
          (r.2.objects 14).m_children))
      = some ([false], some 10, [], [11])
    ∧ (transferChildren headerFlags linkCounting 4 leafHeap 10 15).map
        (fun r => (r.1, getParent r.2 11, getParent r.2 12, (r.2.objects 10).m_children,
          (r.2.objects 15).m_children))
      = some ([false, false], some 10, some 10, [], []) := by
  decide

/-- The parents after `addChild` of a non-null child: the child's parent is the node when
the flags contain `DP_PARENT_OF_OTHER`, the node is not a leaf and the insertion does not
throw, and no other parent changes. -/
theorem addChild_parent (F : DEPENDENCY_FLAGS) (S : CCShareable) (fuel : Nat)
    (hfuel : 4 ≤ fuel) (h : Heap) (N c : ObjId) (dependencyFlags insertIndex : Int) :
    ∃ ok h', addChild F S fuel h N (some c) dependencyFlags insertIndex = some (ok, h')
      ∧ ∀ z, (h'.objects z).m_parent
          = if z = c ∧ hasFlag dependencyFlags F.DP_PARENT_OF_OTHER = true
                ∧ (h.objects N).isLeaf = false ∧ h.bad_alloc.head? ≠ some true then some N
            else (h.objects z).m_parent := by
  cases hleaf : (h.objects N).isLeaf with
  | true =>
    exact ⟨false, h, by simp [addChild, hleaf], fun z => by simp⟩
  | false =>
    by_cases hmem : h.bad_alloc.head? = some true
    · exact ⟨false, h.afterInsertion,
        addChild_bad_alloc F S fuel h N c dependencyFlags insertIndex hleaf hmem,
        fun z => by simp [hmem]⟩
    obtain ⟨h2, h3, h', hres, hh2, hh3, _, _, _, hpar⟩ :=
      addChild_steps F S fuel hfuel h N c dependencyFlags insertIndex hleaf hmem
    have h12 := addDependency_sameButDependencies F fuel _ _ _ _ _ _ hh2
    have h23 : h2.sameButDependencies h3 := by
      by_cases hz : dependencyFlags ≠ 0
      · rw [if_pos hz] at hh3
        exact addDependency_sameButDependencies F fuel _ _ _ _ _ _ hh3
      · rw [if_neg hz] at hh3
        cases hh3
        exact Heap.sameButDependencies_refl h2
    refine ⟨true, h', hres, fun z => ?_⟩
    rw [hpar z, (h23.2 z).1, (h12.2 z).1, Heap.setChildren_parent]
    simp [hmem]

/-- Writing `m_children` leaves `isLeaf` as it is. -/
@[simp] theorem Heap.setChildren_isLeaf (h : Heap) (x y : ObjId) (cs : List ObjId) :
    ((h.setChildren x cs).objects y).isLeaf = (h.objects y).isLeaf := by
  by_cases hy : y = x
  · subst hy
    simp [Heap.setChildren]
  · simp [Heap.setChildren, Heap.set, hy]

/-- The method `setParent` leaves `isLeaf` as it is. -/
@[simp] theorem setParent_isLeaf (h : Heap) (x y : ObjId) (p : Option ObjId) :
    ((setParent h x p).objects y).isLeaf = (h.objects y).isLeaf := by
  by_cases hy : y = x
  · subst hy
    simp [setParent]
  · simp [setParent, Heap.set, hy]

/-- The method `removeDependencyWith` leaves `isLeaf` as it is. -/
@[simp] theorem removeDependencyWith_isLeaf (h : Heap) (x y z : ObjId) :
    ((removeDependencyWith h x y).objects z).isLeaf = (h.objects z).isLeaf :=
  ((Heap.sameButDependencies_setDependencies h x _).2 z).2.2.1

/-- The method `removeDependencyWith` leaves the state of the memory as it is. -/
@[simp] theorem removeDependencyWith_bad_alloc (h : Heap) (x y : ObjId) :
    (removeDependencyWith h x y).bad_alloc = h.bad_alloc := rfl

/-- The method `detachChild` leaves the state of the memory as it is. -/
theorem detachChild_bad_alloc (h : Heap) (P c : ObjId) :
    (detachChild h P (some c)).bad_alloc = h.bad_alloc := by
  rw [detachChild_eq, detatchStep_eq]
  split <;> split <;> rfl

/-- The method `detachChild` leaves `isLeaf` as it is. -/
theorem detachChild_isLeaf (h : Heap) (P c z : ObjId) :
    ((detachChild h P (some c)).objects z).isLeaf = (h.objects z).isLeaf := by
  rw [detachChild_eq, detatchStep_eq]
  split <;> split <;> simp

/-- The parents after `detachChild`: the child's parent is null when it was the node,
and no other parent changes. -/
theorem detachChild_parent (h : Heap) (P c z : ObjId) :
    ((detachChild h P (some c)).objects z).m_parent
      = if z = c ∧ (h.objects z).m_parent = some P then none else (h.objects z).m_parent := by
  rw [detachChild_eq]
  split
  · rw [Heap.setChildren_parent, detatchStep_parent]
  · rw [detatchStep_parent]

/-- The method `transferChild` returns, and the child's parent afterwards is the new
parent when the flags that the node held with the child contain `DP_PARENT_OF_OTHER` and
the new parent accepts the child (it is not a leaf and the insertion does not throw);
otherwise it is null when it was the node, and unchanged when it was another object. -/
theorem transferChild_parent (F : DEPENDENCY_FLAGS) (S : CCShareable) (fuel : Nat)
    (hfuel : 4 ≤ fuel) (h : Heap) (P c N : ObjId) :
    ∃ h', transferChild F S fuel h P c N = some h'
      ∧ getParent h' c
          = if hasFlag (getDependencyFlagsWith h P c) F.DP_PARENT_OF_OTHER = true
                ∧ (h.objects N).isLeaf = false ∧ h.bad_alloc.head? ≠ some true then some N
            else if getParent h c = some P then none
            else getParent h c := by
  obtain ⟨ok, h2, hadd, hpar2⟩ := addChild_parent F S fuel hfuel (detachChild h P (some c)) N c
    (getDependencyFlagsWith h P c) (-1)
  obtain ⟨h', hres⟩ := addDependency_total F fuel hfuel h2 c (some N)
    (getDependencyFlagsWith h c P) true
  have hsame := addDependency_sameButDependencies F fuel _ _ _ _ _ _ hres
  refine ⟨h', ?_, ?_⟩
  · simp only [transferChild, hadd]
    exact hres
  · unfold getParent
    rw [(hsame.2 c).1, hpar2 c, detachChild_isLeaf, detachChild_parent,
      detachChild_bad_alloc]
    simp

/-- The assertion of `transferChild` holds exactly when the flags that the node held with
the child contain `DP_PARENT_OF_OTHER` and the new parent accepts the child (it is not a
leaf and the insertion does not throw), or the child's parent was the node, the new parent
or null. -/
theorem transferChild_assertion_iff (F : DEPENDENCY_FLAGS) (S : CCShareable) (fuel : Nat)
    (hfuel : 4 ≤ fuel) (h : Heap) (P c N : ObjId) :
    ∃ h', transferChild F S fuel h P c N = some h'
      ∧ (transferAssertion h' c N = true ↔
          ((hasFlag (getDependencyFlagsWith h P c) F.DP_PARENT_OF_OTHER = true
              ∧ (h.objects N).isLeaf = false ∧ h.bad_alloc.head? ≠ some true)
            ∨ getParent h c = some P ∨ getParent h c = some N ∨ getParent h c = none)) := by
  obtain ⟨h', hres, hpar⟩ := transferChild_parent F S fuel hfuel h P c N
  refine ⟨h', hres, ?_⟩
  unfold transferAssertion
  rw [hpar]
  by_cases hflag : hasFlag (getDependencyFlagsWith h P c) F.DP_PARENT_OF_OTHER = true
      ∧ (h.objects N).isLeaf = false ∧ h.bad_alloc.head? ≠ some true
  · simp [hflag]
  · rw [if_neg hflag]
    by_cases hP : getParent h c = some P
    · simp [hP]
    · rw [if_neg hP]
      simp [hflag, hP]

/-- One step of `transferChildren` towards another object than the node returns, and the
child's parent afterwards is the new parent when the flags that the node held with the
child contain `DP_PARENT_OF_OTHER` and the new parent accepts the child (it is not a leaf
and the insertion does not throw); otherwise it is unchanged, also when it was the node. -/
theorem transferChildrenStep_parent (F : DEPENDENCY_FLAGS) (S : CCShareable) (fuel : Nat)
    (hfuel : 4 ≤ fuel) (h : Heap) (P c N : ObjId) (hne : N ≠ P) :
    ∃ h', transferChildrenStep F S fuel P N h c = some h'
      ∧ getParent h' c
          = if hasFlag (getDependencyFlagsWith h P c) F.DP_PARENT_OF_OTHER = true
                ∧ (h.objects N).isLeaf = false ∧ h.bad_alloc.head? ≠ some true then some N
            else getParent h c := by
  obtain ⟨ok, h3, hadd, hpar3⟩ := addChild_parent F S fuel hfuel
    (removeDependencyWith (removeDependencyWith h P c) c P) N c
    (getDependencyFlagsWith h P c) (-1)
  obtain ⟨h', hres⟩ := addDependency_total F fuel hfuel h3 c (some N)
    (getDependencyFlagsWith h c P) true
  have hsame := addDependency_sameButDependencies F fuel _ _ _ _ _ _ hres
  have hguard : ¬ (N = P ∧ (h.objects P).isLeaf = false) := fun hg => hne hg.1
  refine ⟨h', ?_, ?_⟩
  · simp only [transferChildrenStep, hguard, if_false, hadd]
    exact hres
  · unfold getParent
    rw [(hsame.2 c).1, hpar3 c]
    simp

end ObjectGraph
namespace ObjectGraph

/-! ## Cascades of destructions -/

/-- The heap `nestedGroupHeap` is what three calls of `addChild` build. -/
theorem nestedGroupHeap_built :
    (((addChild headerFlags linkCounting 4 freshHeap 0 (some 1) 24 (-1)).bind fun r =>
      addChild headerFlags linkCounting 4 r.2 0 (some 3) 24 (-1)).bind fun r =>
      addChild headerFlags linkCounting 4 r.2 1 (some 2) 24 (-1)).map
        (fun r => (r.1, List.map (fun i : ObjId =>
          ((r.2.objects i).m_parent, (r.2.objects i).m_children,
            (r.2.objects i).m_dependencies)) [0, 1, 2, 3, 4]))
      = some (true, List.map (fun i : ObjId =>
          ((nestedGroupHeap.objects i).m_parent, (nestedGroupHeap.objects i).m_children,
            (nestedGroupHeap.objects i).m_dependencies)) [0, 1, 2, 3, 4]) := by
  rfl

/-- No destruction changes nothing. -/
theorem Heap.afterDestructions_refl (h : Heap) : h.afterDestructions h :=
  ⟨fun _ hd => hd, fun _ _ hn => hn, fun _ _ _ => rfl⟩

/-- Destructions follow each other. -/
theorem Heap.afterDestructions_trans {h1 h2 h3 : Heap} (h12 : h1.afterDestructions h2)
    (h23 : h2.afterDestructions h3) : h1.afterDestructions h3 := by
  obtain ⟨d12, n12, c12⟩ := h12
  obtain ⟨d23, n23, c23⟩ := h23
  refine ⟨fun d hd => d23 d (d12 d hd), fun z k hn => n23 z k (n12 z k hn), ?_⟩
  intro z hz hsib
  have hz2 : z ∉ h2.deleted := fun hm => hz (d23 z hm)
  have e12 : (h2.objects z).m_children = (h1.objects z).m_children :=
    c12 z hz2 (fun d hd hm => hsib d (d23 d hd) hm)
  have e23 : (h3.objects z).m_children = (h2.objects z).m_children :=
    c23 z hz (fun d hd hm => n12 d z (hsib d hd (by rw [← e12]; exact hm)))
  rw [e23, e12]

/-- A step that deletes nothing, adds no dependency entry and changes the children of
deleted objects only. -/
theorem Heap.afterDestructions_of_children {h h' : Heap}
    (hdel : ∀ d, d ∈ h.deleted → d ∈ h'.deleted)
    (hdeps : ∀ z k, mapFind (h.objects z).m_dependencies k = none →
      mapFind (h'.objects z).m_dependencies k = none)
    (hch : ∀ z, z ∉ h'.deleted → (h'.objects z).m_children = (h.objects z).m_children) :
    h.afterDestructions h' :=
  ⟨hdel, hdeps, fun z hz _ => hch z hz⟩

/-- No bit is set in `0 & n`. -/
theorem land_zero_left (n : Int) : Int.land 0 n = 0 := by
  apply int_eq_of_testBit_eq
  intro k
  rw [Int.testBit_land]
  have h0 : Int.testBit 0 k = false := by
    show Nat.testBit 0 k = false
    exact Nat.zero_testBit k
  rw [h0, Bool.false_and]

/-- The method `removeDependencyFlag` adds no dependency entry. -/
theorem removeDependencyFlag_find_none (h : Heap) (x y : ObjId) (flag : Int) (z k : ObjId)
    (hn : mapFind (h.objects z).m_dependencies k = none) :
    mapFind ((removeDependencyFlag h x y flag).objects z).m_dependencies k = none := by
  by_cases hflag : hasFlag (getDependencyFlagsWith h x y) flag = true
  · by_cases hzero : Int.land (getDependencyFlagsWith h x y) (Int.lnot flag) = 0
    · have hdef : removeDependencyFlag h x y flag
          = h.setDependencies x (mapErase (h.objects x).m_dependencies y) := by
        simp [removeDependencyFlag, hflag, hzero]
      rw [hdef]
      exact removeDependencyWith_find_none h x y z k hn
    · have hdef : removeDependencyFlag h x y flag
          = h.setDependencies x (mapAssign (h.objects x).m_dependencies y
              (Int.land (getDependencyFlagsWith h x y) (Int.lnot flag))) := by
        simp [removeDependencyFlag, hflag, hzero]
      rw [hdef]
      by_cases hz : z = x
      · subst hz
        rw [Heap.setDependencies_self]
        by_cases hk : k = y
        · subst hk
          exfalso
          apply hzero
          rw [getDependencyFlagsWith_of_find_none h z k hn]
          exact land_zero_left _
        · rw [mapFind_mapAssign_ne _ _ hk]
          exact hn
      · rw [Heap.setDependencies_ne _ _ hz]
        exact hn
  · have hdef : removeDependencyFlag h x y flag = h := by
      simp [removeDependencyFlag, hflag]
    rw [hdef]
    exact hn

/-- The method `removeDependencyFlag` changes dependency maps only. -/
theorem removeDependencyFlag_sameButDependencies (h : Heap) (x y : ObjId) (flag : Int) :
    h.sameButDependencies (removeDependencyFlag h x y flag) := by
  unfold removeDependencyFlag
  simp only
  split
  · split
    · exact Heap.sameButDependencies_setDependencies h x _
    · exact Heap.sameButDependencies_setDependencies h x _
  · exact Heap.sameButDependencies_refl h

/-- The method `removeDependencyFlag` within a cascade of destructions. -/
theorem removeDependencyFlag_afterDestructions (h : Heap) (x y : ObjId) (flag : Int) :
    h.afterDestructions (removeDependencyFlag h x y flag) := by
  have hs := removeDependencyFlag_sameButDependencies h x y flag
  exact Heap.afterDestructions_of_children (fun d hd => by rw [hs.1]; exact hd)
    (removeDependencyFlag_find_none h x y flag) (fun z _ => (hs.2 z).2.1)

/-- The method `onDeletionOf` changes the notified object only. -/
theorem onDeletionOf_objects_ne (h : Heap) (P c z : ObjId) (hz : z ≠ P) :
    (onDeletionOf h P c).objects z = h.objects z := by
  unfold onDeletionOf
  simp only
  split
  · rw [Heap.setChildren, Heap.set_objects_ne _ _ hz, removeDependencyWith,
      Heap.setDependencies_ne _ _ hz]
  · rw [removeDependencyWith, Heap.setDependencies_ne _ _ hz]

/-- The method `onDeletionOf` deletes nothing. -/
theorem onDeletionOf_deleted (h : Heap) (P c : ObjId) :
    (onDeletionOf h P c).deleted = h.deleted := by
  unfold onDeletionOf
  simp only
  split <;> rfl

/-- The method `onDeletionOf` adds no dependency entry. -/
theorem onDeletionOf_find_none (h : Heap) (P c z k : ObjId)
    (hn : mapFind (h.objects z).m_dependencies k = none) :
    mapFind ((onDeletionOf h P c).objects z).m_dependencies k = none := by
  unfold onDeletionOf
  simp only
  split
  · rw [Heap.setChildren_dependencies]
    exact removeDependencyWith_find_none h P c z k hn
  · exact removeDependencyWith_find_none h P c z k hn

/-- The notification `other->onDeletionOf(self)` sent by the destructor of `self`, which
holds a dependency with `other`. -/
theorem onDeletionOf_afterDestructions (h : Heap) (other self : ObjId)
    (hself : self ∈ h.deleted)
    (hentry : mapFind (h.objects self).m_dependencies other ≠ none) :
    h.afterDestructions (onDeletionOf h other self) := by
  refine ⟨fun d hd => by rw [onDeletionOf_deleted]; exact hd,
    onDeletionOf_find_none h other self, ?_⟩
  intro z _ hsib
  by_cases hz : z = other
  · subst hz
    have hnot : self ∉ (h.objects z).m_children := fun hm =>
      hentry (hsib self (by rw [onDeletionOf_deleted]; exact hself) hm)
    rw [onDeletionOf_children, List.erase_of_not_mem hnot]
  · rw [onDeletionOf_objects_ne h other self z hz]

/-- The statement that releases or deletes an object, within a cascade of destructions. -/
theorem releaseOrDelete_afterDestructions (S : CCShareable)
    (del : Heap → ObjId → Option Heap)
    (hdel : ∀ h x h', del h x = some h' → h.afterDestructions h')
    (h : Heap) (x : ObjId) (h' : Heap) (hres : releaseOrDelete S del h x = some h') :
    h.afterDestructions h' := by
  unfold releaseOrDelete at hres
  split at hres
  · split at hres
    · cases hres
      refine Heap.afterDestructions_of_children (fun d hd => hd) ?_ ?_
      · intro z k hn
        by_cases hz : z = x
        · subst hz
          rw [Heap.set_objects_self]
          exact hn
        · rw [Heap.set_objects_ne _ _ hz]
          exact hn
      · intro z _
        by_cases hz : z = x
        · subst hz
          rw [Heap.set_objects_self]
        · rw [Heap.set_objects_ne _ _ hz]
    · exact hdel h x h' hres
  · exact hdel h x h' hres


/-- One turn of the loop of the destructor of `self`, within a cascade of destructions. -/
theorem destructorStep_afterDestructions (F : DEPENDENCY_FLAGS) (S : CCShareable)
    (del : Heap → ObjId → Option Heap)
    (hdel : ∀ h x h', del h x = some h' → h.afterDestructions h')
    (self : ObjId) (h : Heap) (other : ObjId) (hself : self ∈ h.deleted) (h' : Heap)
    (hres : destructorStep F S del self h other = some h') : h.afterDestructions h' := by
  unfold destructorStep at hres
  cases hfind : mapFind (h.objects self).m_dependencies other with
  | none =>
    rw [hfind] at hres
    cases hres
    exact Heap.afterDestructions_refl h
  | some flags =>
    rw [hfind] at hres
    simp only at hres
    have h01 : h.afterDestructions
        (if hasFlag flags F.DP_NOTIFY_OTHER_ON_DELETE = true then onDeletionOf h other self
          else h) := by
      split
      · exact onDeletionOf_afterDestructions h other self hself (by rw [hfind]; simp)
      · exact Heap.afterDestructions_refl h
    split at hres
    · cases hres
    · split at hres
      · split at hres
        · cases hres
        · rename_i h3 hrel
          split at hres
          · cases hres
          · cases hres
            exact Heap.afterDestructions_trans h01
              (Heap.afterDestructions_trans (removeDependencyFlag_afterDestructions _ _ _ _)
                (releaseOrDelete_afterDestructions S del hdel _ _ _ hrel))
      · cases hres
        exact h01

/-- The loop of the destructor of `self` over its dependencies, within a cascade of
destructions. -/
theorem destructorLoop_afterDestructions (F : DEPENDENCY_FLAGS) (S : CCShareable)
    (del : Heap → ObjId → Option Heap)
    (hdel : ∀ h x h', del h x = some h' → h.afterDestructions h')
    (self : ObjId) (keys : List ObjId) :
    ∀ h h', self ∈ h.deleted →
      forEachObject (destructorStep F S del self) h keys = some h' →
      h.afterDestructions h' := by
  induction keys with
  | nil =>
    intro h h' _ hres
    simp only [forEachObject] at hres
    cases hres
    exact Heap.afterDestructions_refl h
  | cons k ks ih =>
    intro h h' hself hres
    simp only [forEachObject] at hres
    split at hres
    · cases hres
    · rename_i h1 hstep
      have h01 := destructorStep_afterDestructions F S del hdel self h k hself h1 hstep
      exact Heap.afterDestructions_trans h01 (ih h1 h' (h01.1 self hself) hres)

/-- Writing the children list of a deleted object, within a cascade of destructions. -/
theorem Heap.setChildren_afterDestructions (h : Heap) (self : ObjId) (cs : List ObjId)
    (hself : self ∈ h.deleted) : h.afterDestructions (h.setChildren self cs) := by
  refine Heap.afterDestructions_of_children (fun d hd => hd) ?_ ?_
  · intro z k hn
    rw [Heap.setChildren_dependencies]
    exact hn
  · intro z hz
    have hne : z ≠ self := fun e => hz (by rw [e]; exact hself)
    rw [Heap.setChildren_children, if_neg hne]

/-- The loop of `removeAllChildren` run by the destructor of `self`, within a cascade of
destructions. -/
theorem removeAllChildrenLoop_afterDestructions (F : DEPENDENCY_FLAGS) (S : CCShareable)
    (del : Heap → ObjId → Option Heap)
    (hdel : ∀ h x h', del h x = some h' → h.afterDestructions h')
    (self : ObjId) (n : Nat) :
    ∀ h h', self ∈ h.deleted → removeAllChildrenLoop F S del n h self = some h' →
      h.afterDestructions h' := by
  induction n with
  | zero =>
    intro h h' _ hres
    simp only [removeAllChildrenLoop] at hres
    split at hres
    · cases hres
      exact Heap.afterDestructions_refl h
    · cases hres
  | succ n ih =>
    intro h h' hself hres
    simp only [removeAllChildrenLoop] at hres
    split at hres
    · cases hres
      exact Heap.afterDestructions_refl h
    · have h01 := Heap.setChildren_afterDestructions h self
        (h.objects self).m_children.dropLast hself
      split at hres
      · split at hres
        · cases hres
        · rename_i h2 hrel
          have h12 := releaseOrDelete_afterDestructions S del hdel _ _ _ hrel
          exact Heap.afterDestructions_trans h01
            (Heap.afterDestructions_trans h12 (ih h2 h' (h12.1 self (h01.1 self hself)) hres))
      · exact Heap.afterDestructions_trans h01 (ih _ h' (h01.1 self hself) hres)

/-- The statement `delete x`, when it returns: the object is deleted, and the heap is
changed as a cascade of destructions changes it. -/
theorem deleteObject_afterDestructions (F : DEPENDENCY_FLAGS) (S : CCShareable) :
    ∀ (fuel : Nat) (h : Heap) (x : ObjId) (h' : Heap),
      deleteObject F S fuel h x = some h' → h.afterDestructions h' ∧ x ∈ h'.deleted := by
  intro fuel
  induction fuel with
  | zero =>
    intro h x h' hres
    simp [deleteObject] at hres
  | succ fuel ih =>
    intro h x h' hres
    have hdel : ∀ h x h', deleteObject F S fuel h x = some h' → h.afterDestructions h' :=
      fun h x h' hr => (ih h x h' hr).1
    simp only [deleteObject] at hres
    split at hres
    · cases hres
    · have hx0 : x ∈ ({ h with deleted := x :: h.deleted } : Heap).deleted :=
        List.mem_cons_self x h.deleted
      have h00 : h.afterDestructions { h with deleted := x :: h.deleted } :=
        Heap.afterDestructions_of_children (fun d hd => List.mem_cons_of_mem x hd)
          (fun _ _ hn => hn) (fun _ _ => rfl)
      split at hres
      · cases hres
      · rename_i h1 hloop
        have h01 := destructorLoop_afterDestructions F S _ hdel x _ _ h1 hx0 hloop
        have hx1 : x ∈ h1.deleted := h01.1 x hx0
        have h12 : h1.afterDestructions (h1.setDependencies x []) := by
          have hs := Heap.sameButDependencies_setDependencies h1 x []
          refine Heap.afterDestructions_of_children (fun d hd => by rw [hs.1]; exact hd)
            ?_ (fun z _ => (hs.2 z).2.1)
          intro z k hn
          by_cases hz : z = x
          · subst hz
            rw [Heap.setDependencies_self]
            rfl
          · rw [Heap.setDependencies_ne _ _ hz]
            exact hn
        have hx2 : x ∈ (h1.setDependencies x []).deleted := h12.1 x hx1
        have h23 := removeAllChildrenLoop_afterDestructions F S _ hdel x _ _ h' hx2 hres
        exact ⟨Heap.afterDestructions_trans h00
          (Heap.afterDestructions_trans h01 (Heap.afterDestructions_trans h12 h23)),
          h23.1 x hx2⟩


/-! ## The bound on the depth of the nested deletions -/

/-- The statement that releases or deletes an object returns the same heap when `delete`
is given a larger bound. -/
theorem releaseOrDelete_mono (S : CCShareable) (del del' : Heap → ObjId → Option Heap)
    (hle : ∀ h x h', del h x = some h' → del' h x = some h')
    (h : Heap) (x : ObjId) (h' : Heap) (hres : releaseOrDelete S del h x = some h') :
    releaseOrDelete S del' h x = some h' := by
  unfold releaseOrDelete at hres ⊢
  split
  · rw [if_pos (by assumption)] at hres
    split
    · rename_i n hn
      rw [hn] at hres
      exact hres
    · rename_i hn
      rw [hn] at hres
      exact hle h x h' hres
  · rw [if_neg (by assumption)] at hres
    exact hle h x h' hres

/-- One turn of the loop of the destructor returns the same heap when `delete` is given a
larger bound. -/
theorem destructorStep_mono (F : DEPENDENCY_FLAGS) (S : CCShareable)
    (del del' : Heap → ObjId → Option Heap)
    (hle : ∀ h x h', del h x = some h' → del' h x = some h')
    (self : ObjId) (h : Heap) (other : ObjId) (h' : Heap)
    (hres : destructorStep F S del self h other = some h') :
    destructorStep F S del' self h other = some h' := by
  unfold destructorStep at hres ⊢
  cases hfind : mapFind (h.objects self).m_dependencies other with
  | none =>
    rw [hfind] at hres
    exact hres
  | some flags =>
    rw [hfind] at hres
    simp only at hres ⊢
    split at hres
    · cases hres
    · split at hres
      · rw [if_pos (by assumption)]
        split at hres
        · cases hres
        · rename_i h3 hrel
          rw [releaseOrDelete_mono S del del' hle _ _ _ hrel]
          exact hres
      · rw [if_neg (by assumption)]
        exact hres

/-- A loop over addresses returns the same heap when its body returns the same heaps. -/
theorem forEachObject_mono (body body' : Heap → ObjId → Option Heap)
    (hle : ∀ h x h', body h x = some h' → body' h x = some h') (keys : List ObjId) :
    ∀ h h', forEachObject body h keys = some h' → forEachObject body' h keys = some h' := by
  induction keys with
  | nil =>
    intro h h' hres
    exact hres
  | cons k ks ih =>
    intro h h' hres
    simp only [forEachObject] at hres ⊢
    split at hres
    · cases hres
    · rename_i h1 hstep
      rw [hle h k h1 hstep]
      exact ih h1 h' hres

/-- The loop of `removeAllChildren` returns the same heap when `delete` is given a larger
bound. -/
theorem removeAllChildrenLoop_mono (F : DEPENDENCY_FLAGS) (S : CCShareable)
    (del del' : Heap → ObjId → Option Heap)
    (hle : ∀ h x h', del h x = some h' → del' h x = some h') (self : ObjId) (n : Nat) :
    ∀ h h', removeAllChildrenLoop F S del n h self = some h' →
      removeAllChildrenLoop F S del' n h self = some h' := by
  induction n with
  | zero =>
    intro h h' hres
    exact hres
  | succ n ih =>
    intro h h' hres
    simp only [removeAllChildrenLoop] at hres ⊢
    split at hres
    · exact hres
    · split at hres
      · rw [if_pos (by assumption)]
        split at hres
        · cases hres
        · rename_i h2 hrel
          rw [releaseOrDelete_mono S del del' hle _ _ _ hrel]
          exact ih h2 h' hres
      · rw [if_neg (by assumption)]
        exact ih _ h' hres

/-- The statement `delete x` returns the same heap when the bound is one larger. -/
theorem deleteObject_succ (F : DEPENDENCY_FLAGS) (S : CCShareable) :
    ∀ (fuel : Nat) (h : Heap) (x : ObjId) (h' : Heap),
      deleteObject F S fuel h x = some h' → deleteObject F S (fuel + 1) h x = some h' := by
  intro fuel
  induction fuel with
  | zero =>
    intro h x h' hres
    simp [deleteObject] at hres
  | succ fuel ih =>
    intro h x h' hres
    simp only [deleteObject] at hres
    rw [deleteObject]
    split at hres
    · cases hres
    · rw [if_neg (by assumption)]
      simp only
      split at hres
      · cases hres
      · rename_i h1 hloop
        rw [forEachObject_mono _ _
          (fun h0 k h0' hs => destructorStep_mono F S _ _ ih x h0 k h0' hs) _ _ h1 hloop]
        exact removeAllChildrenLoop_mono F S _ _ ih x _ _ h' hres

/-- The statement `delete x` returns the same heap for every larger bound. -/
theorem deleteObject_mono (F : DEPENDENCY_FLAGS) (S : CCShareable) (fuel fuel' : Nat)
    (hle : fuel ≤ fuel') (h : Heap) (x : ObjId) (h' : Heap)
    (hres : deleteObject F S fuel h x = some h') : deleteObject F S fuel' h x = some h' := by
  induction hle with
  | refl => exact hres
  | step _ ih => exact deleteObject_succ F S _ h x h' ih


/-! ## removeChild(int): the statement -/

/-- Writing the link count of an object leaves the children and the dependency maps as
they are. -/
theorem Heap.set_linkCount (h : Heap) (x z : ObjId) (n : Nat) :
    ((h.set x { h.objects x with m_linkCount := n }).objects z).m_children
        = (h.objects z).m_children
    ∧ ((h.set x { h.objects x with m_linkCount := n }).objects z).m_dependencies
        = (h.objects z).m_dependencies := by
  by_cases hz : z = x
  · subst hz
    simp
  · simp [Heap.set_objects_ne _ _ hz]

end ObjectGraph
namespace Rendering

/-- C15, on the code: in a pass that requests point names only, `draw` calls `drawMeOnly`
on an enabled, visible entity of the window that is neither a cloud nor a mesh (the test
on triangle names, not requested, lets it through); a pass that requests both kinds of
names does leave it out. -/
theorem draw_in_point_picking_draws_other_entities :
    draw (shownEntity 7 false false) pointPickingContext
        = [Call.glColor3ubv, Call.drawMeOnly 7]
      ∧ draw (shownEntity 7 false false) elementPickingContext = [] := by
  decide

/-- The test on the element picking mode lets every entity through unless both point
names and triangle names are requested, and then lets through clouds and meshes only. -/
theorem drawInThisContext_eq (context : CC_DRAW_CONTEXT) (m_visible m_selected : Bool)
    (m_currentDisplay : Option Nat) (kindOfPointCloud kindOfMesh : Bool) :
    drawInThisContext context m_visible m_selected m_currentDisplay kindOfPointCloud
        kindOfMesh
      = ((m_visible || m_selected) && decide (m_currentDisplay = context._win)
          && (if context.MACRO_DrawPointNames && context.MACRO_DrawTriangleNames then
                kindOfPointCloud || kindOfMesh
              else true)) := by
  unfold drawInThisContext
  cases context.MACRO_DrawPointNames <;> cases context.MACRO_DrawTriangleNames <;>
    cases kindOfPointCloud <;> cases kindOfMesh <;> simp

/-- A call is made by a guarded block when the guard holds and the block makes it. -/
theorem mem_ite_nil_iff {c : Prop} [Decidable c] (x : Call) (l : List Call) :
    x ∈ (if c then l else []) ↔ c ∧ x ∈ l := by
  split <;> simp [*]

/-- On the code: an enabled entity without children receives `drawMeOnly` exactly when it
is visible, shown in the window of the context, not skipped for its selection state,
and, in case both point names and triangle names are requested, a cloud or a mesh. -/
theorem drawMeOnly_mem_draw_iff (uid : Nat) (m_visible m_selected : Bool)
    (m_currentDisplay : Option Nat) (kindOfPointCloud kindOfMesh m_glTransEnabled
      m_showNameIn3D : Bool) (m_selectionBehavior : SelectionBehavior) (fitBBValid : Bool)
    (context : CC_DRAW_CONTEXT) :
    Call.drawMeOnly uid ∈ draw (.mk uid true m_visible m_selected m_currentDisplay
        kindOfPointCloud kindOfMesh m_glTransEnabled m_showNameIn3D m_selectionBehavior
        fitBBValid []) context
      ↔ (m_visible = true ∧ m_currentDisplay = context._win
          ∧ (m_selected = false ∨ context.MACRO_SkipSelected = false)
          ∧ (m_selected = true ∨ context.MACRO_SkipUnselected = false)
          ∧ (context.MACRO_DrawPointNames = true → context.MACRO_DrawTriangleNames = true →
              kindOfPointCloud = true ∨ kindOfMesh = true)) := by
  have hpop : Call.drawMeOnly uid ∉
      (if (context.MACRO_Draw3D && m_glTransEnabled) = true then [Call.glPopMatrix]
        else []) := by
    split <;> simp
  have hpush : Call.drawMeOnly uid ∉
      (if (context.MACRO_Draw3D && m_glTransEnabled) = true then
        [Call.glMatrixMode, Call.glPushMatrix, Call.glMultMatrixf uid] else []) := by
    split <;> simp
  have hname : Call.drawMeOnly uid ∉
      (if (m_showNameIn3D && context.MACRO_Draw2D && context.MACRO_Foreground
          && !context.MACRO_DrawNames) = true then [Call.drawNameIn3D uid] else []) := by
    split <;> simp
  have hbox : Call.drawMeOnly uid ∉
      (match m_selectionBehavior with
        | .SELECTION_AA_BBOX => [Call.drawBB uid]
        | .SELECTION_FIT_BBOX =>
          if fitBBValid = true then
            [Call.glMatrixMode, Call.glPushMatrix, Call.glMultFitMatrix uid,
              Call.drawFitBB uid, Call.glPopMatrix]
          else []
        | .SELECTION_IGNORED => []) := by
    cases m_selectionBehavior <;> simp
  simp only [draw, draw_children, drawInThisContext_eq, Bool.not_true, Bool.false_eq_true,
    if_false, List.mem_append, hpop, hpush, or_false, false_or, List.append_nil]
  simp only [mem_ite_nil_iff, hbox, and_false, or_false]
  simp only [List.mem_append, List.mem_cons, List.mem_singleton, true_or, or_true, and_true,
    Bool.and_eq_true, Bool.or_eq_true, Bool.not_eq_true', decide_eq_true_eq]
  cases context.MACRO_DrawPointNames <;> cases context.MACRO_DrawTriangleNames <;>
    cases m_visible <;> cases m_selected <;> simp
  all_goals tauto

end Rendering

